import Mathlib

/-! # Tower defense: the simulation core

A shallow embedding of `internal/entities` (entity.go, enemy.go, tower.go) and
`internal/core/game_state.go`.

Modelling conventions
* Go `int` is the 64-bit two's complement integer `GoInt`: a value of `[-2^63, 2^63)`
  whose `+`, `-`, `*` wrap around modulo `2^64`, as Go's do; `/` truncates toward zero.
  `toInt` reads a `GoInt` as a mathematical integer. The theorems state arithmetic facts
  on `toInt` and say where a result has to be representable.
* Path indices, slice indices and the `TowerType` tag are kept as unbounded `Int`: the code
  only compares them with each other or with a slice length, or adds 1 below a slice
  length, where no wraparound can happen.
* Go `float64` values (positions, speeds, ranges) are rationals `ℚ`. The range test
  `IsInRange`, the speed of a spawned enemy and the conversion
  `time.Duration(float64(d) * 0.9)` are modelled with their IEEE 754 rounding (`roundFloat`,
  `scaleDuration`: round to nearest, ties to even, 53 significant bits, every operation
  rounded on its own), and so is the sum `Range + 20` of `Upgrade`. The arithmetic of `Move`
  is exact, with `math.Sqrt` as `mathSqrt` below. Only finite values are represented: NaN
  and the infinities are outside the model.
* `time.Duration` and `time.Time` are `Int` nanoseconds; the wall clock read by
  `time.Since` / `time.Now` is an explicit argument `now`.
* A slice of pointers (`[]*Tower`, `[]*Enemy`) is a `List` of values; the pointers in a
  slice are taken to be pairwise distinct, so pointer identity is the list position.
* A Go `error` result is `Option String` (`none` is `nil`), returned next to the state
  the method leaves behind.
* A Go run-time panic (index out of range) is the result `none` of an `Option`-valued
  function.
* The `sync.RWMutex` is not modelled: every method is one atomic state transformer.
-/

namespace TowerDefense

/-! ## Go's `int` -/

/-- A Go `int` on a 64-bit platform: an integer of `[-2^63, 2^63)`. -/
structure GoInt where
  toInt : Int
  toInt_ge : -9223372036854775808 ≤ toInt
  toInt_le : toInt ≤ 9223372036854775807

/-- Two's complement wraparound: the representative of `x` modulo `2^64` in
`[-2^63, 2^63)`. -/
def GoInt.wrap (x : Int) : GoInt :=
  ⟨(x + 9223372036854775808) % 18446744073709551616 - 9223372036854775808,
    by omega, by omega⟩

/-- An integer is representable as a Go `int`: it lies in `[-2^63, 2^63)`. -/
def InInt64 (x : Int) : Prop :=
  -9223372036854775808 ≤ x ∧ x ≤ 9223372036854775807

instance InInt64.instDecidable (x : Int) : Decidable (InInt64 x) :=
  inferInstanceAs (Decidable (-9223372036854775808 ≤ x ∧ x ≤ 9223372036854775807))

instance GoInt.instOfNat {n : Nat} : OfNat GoInt n := ⟨GoInt.wrap (OfNat.ofNat n)⟩

instance GoInt.instAdd : Add GoInt := ⟨fun a b => GoInt.wrap (a.toInt + b.toInt)⟩

instance GoInt.instSub : Sub GoInt := ⟨fun a b => GoInt.wrap (a.toInt - b.toInt)⟩

instance GoInt.instMul : Mul GoInt := ⟨fun a b => GoInt.wrap (a.toInt * b.toInt)⟩

instance GoInt.instNeg : Neg GoInt := ⟨fun a => GoInt.wrap (-a.toInt)⟩

/-- Go's integer `/`: the quotient truncated toward zero. The code divides by the constants
2 and 5 only, so the division-by-zero panic is not modelled. -/
instance GoInt.instDiv : Div GoInt := ⟨fun a b => GoInt.wrap (Int.tdiv a.toInt b.toInt)⟩

instance GoInt.instLE : LE GoInt := ⟨fun a b => a.toInt ≤ b.toInt⟩

instance GoInt.instLT : LT GoInt := ⟨fun a b => a.toInt < b.toInt⟩

instance GoInt.instDecidableLE (a b : GoInt) : Decidable (a ≤ b) :=
  inferInstanceAs (Decidable (a.toInt ≤ b.toInt))

instance GoInt.instDecidableLT (a b : GoInt) : Decidable (a < b) :=
  inferInstanceAs (Decidable (a.toInt < b.toInt))

instance GoInt.instDecidableEq : DecidableEq GoInt := fun a b =>
  if h : a.toInt = b.toInt then
    isTrue (by cases a; cases b; simp only at h; subst h; rfl)
  else isFalse (fun hab => h (by rw [hab]))

/-- The least Go `int`, `math.MinInt64`. -/
def MinInt64 : GoInt := GoInt.wrap (-9223372036854775808)

/-- The greatest Go `int`, `math.MaxInt64`. -/
def MaxInt64 : GoInt := GoInt.wrap 9223372036854775807

/-! ## `float64` rounding -/

/-- The number of binary digits of `n` (0 for 0); `fuel` bounds the recursion and any
`fuel ≥ n` is enough. -/
def bitLength : Nat → Nat → Nat
  | 0, _ => 0
  | fuel + 1, n => if n = 0 then 0 else bitLength fuel (n / 2) + 1

/-- The integer nearest to a rational, ties to the even one. -/
def roundHalfEven (r : ℚ) : Int :=
  let f := ⌊r⌋
  let frac := r - f
  if frac > 1 / 2 ∨ (frac = 1 / 2 ∧ f % 2 = 1) then f + 1 else f

/-- The `float64` nearest to a rational, IEEE 754 round-to-nearest with ties to even: with
`2 ^ e ≤ |q| < 2 ^ (e + 1)`, the multiple of `ulp = 2 ^ (e - 52)` nearest to `q` (53
significant binary digits). Overflow to infinity and the subnormal range are not
modelled. -/
def roundFloat (q : ℚ) : ℚ :=
  if q = 0 then 0
  else
    let a := |q|
    let k : Int := (bitLength a.num.natAbs a.num.natAbs : Int) - (bitLength a.den a.den : Int)
    let e : Int := if (2 : ℚ) ^ k ≤ a then k else k - 1
    let ulp : ℚ := (2 : ℚ) ^ (e - 52)
    let m := roundHalfEven (a / ulp)
    if q < 0 then -((m : ℚ) * ulp) else (m : ℚ) * ulp

/-! ## entity.go -/

/-- The Go struct `BaseEntity`: a position. -/
structure BaseEntity where
  X : ℚ
  Y : ℚ
deriving DecidableEq

/-- The function `math.Sqrt` on the rational model: the square root truncated to 53 binary
fractional digits. It is exact whenever the argument is the square of a rational. -/
def mathSqrt (q : ℚ) : ℚ :=
  ((Nat.sqrt (q.num.toNat * q.den * 4 ^ 53) : ℕ) : ℚ) / ((q.den * 2 ^ 53 : ℕ) : ℚ)

/-! ## enemy.go -/

/-- The Go struct `Enemy` (it embeds `BaseEntity`). -/
structure Enemy extends BaseEntity where
  Health : GoInt
  MaxHealth : GoInt
  Speed : ℚ
  Reward : GoInt
  Damage : GoInt
  PathIndex : Int
  Path : List BaseEntity
deriving DecidableEq

/-- `NewEnemy`: reads `path[0]`, which panics on an empty path. -/
def NewEnemy (health reward damage : GoInt) (speed : ℚ) (path : List BaseEntity) :
    Option Enemy :=
  match path with
  | [] => none
  | p :: _ =>
    some
      { X := p.X, Y := p.Y
        Health := health
        MaxHealth := health
        Speed := speed
        Reward := reward
        Damage := damage
        PathIndex := 0
        Path := path }

/-- `Enemy.TakeDamage`: the enemy after the hit and the returned flag. -/
def Enemy.TakeDamage (e : Enemy) (damage : GoInt) : Enemy × Bool :=
  let e1 := { e with Health := e.Health - damage }
  let e2 := if e1.Health < 0 then { e1 with Health := 0 } else e1
  (e2, decide (e2.Health ≤ 0))

/-- Go slice indexing `xs[i]` with an `int` index: `none` is the index-out-of-range panic. -/
def sliceIndex {α : Type} (xs : List α) (i : Int) : Option α :=
  if i < 0 then none else xs[i.toNat]?

/-- `Enemy.Move`. -/
def Enemy.Move (e : Enemy) : Option Enemy :=
  if e.PathIndex ≥ (e.Path.length : Int) - 1 then some e
  else
    match sliceIndex e.Path (e.PathIndex + 1) with
    | none => none
    | some target =>
      let dx := target.X - e.X
      let dy := target.Y - e.Y
      let distance := mathSqrt (dx * dx + dy * dy)
      if distance ≤ e.Speed then
        some { e with X := target.X, Y := target.Y, PathIndex := e.PathIndex + 1 }
      else
        some { e with X := e.X + (dx / distance) * e.Speed, Y := e.Y + (dy / distance) * e.Speed }

/-- `Enemy.HasReachedEnd`. -/
def Enemy.HasReachedEnd (e : Enemy) : Bool :=
  decide (e.PathIndex ≥ (e.Path.length : Int) - 1)

/-- `Enemy.GetReward`. -/
def Enemy.GetReward (e : Enemy) : GoInt := e.Reward

/-- `Enemy.GetDamage`. -/
def Enemy.GetDamage (e : Enemy) : GoInt := e.Damage

/-! ## tower.go -/

/-- One second as a `time.Duration` (nanoseconds). -/
def Second : Int := 1000000000

/-- The Go struct `Tower` (it embeds `BaseEntity`). `LastFired` is the zero time `0` on a
fresh tower; the Go field `Type` is `Kind` here. -/
structure Tower extends BaseEntity where
  Range : ℚ
  Damage : GoInt
  FireRate : Int
  LastFired : Int
  Level : GoInt
  Cost : GoInt
  Kind : String
deriving DecidableEq

/-- `NewBasicTower`. -/
def NewBasicTower (x y : ℚ) : Tower :=
  { X := x, Y := y, Range := 100, Damage := 10, FireRate := Second, LastFired := 0,
    Level := 1, Cost := 50, Kind := "Basic" }

/-- `NewSniperTower`. -/
def NewSniperTower (x y : ℚ) : Tower :=
  { X := x, Y := y, Range := 200, Damage := 30, FireRate := Second * 2, LastFired := 0,
    Level := 1, Cost := 100, Kind := "Sniper" }

/-- `NewAOETower`. -/
def NewAOETower (x y : ℚ) : Tower :=
  { X := x, Y := y, Range := 80, Damage := 15, FireRate := Second * 2, LastFired := 0,
    Level := 1, Cost := 150, Kind := "AOE" }

/-- `Tower.CanFire`, with `time.Since t.LastFired` read as `now - t.LastFired`. -/
def Tower.CanFire (t : Tower) (now : Int) : Bool :=
  decide (now - t.LastFired ≥ t.FireRate)

/-- `Tower.Fire`, with `time.Now()` read as `now`. -/
def Tower.Fire (t : Tower) (now : Int) : Tower :=
  { t with LastFired := now }

/-- The `float64` nearest to the natural number `n`, IEEE 754 round-to-nearest with ties to
even: `n` itself when it has at most 53 binary digits, else `n` rounded to a multiple of
`2 ^ shift` that keeps 53 significant digits. -/
def roundTo53 (n : Nat) : Nat :=
  let shift := bitLength n n - 53
  let q := n / 2 ^ shift
  let rem := n % 2 ^ shift
  let q1 := if 2 * rem > 2 ^ shift ∨ (2 * rem = 2 ^ shift ∧ q % 2 = 1) then q + 1 else q
  q1 * 2 ^ shift

/-- The conversion `time.Duration(float64(d) * 0.9)`. `float64(d)` is `d` rounded to 53
significant bits; the constant `0.9` is the `float64` `8106479329266893 / 2^53`; the
product is rounded to 53 significant bits again (`p`, in units of `2^-53`) and the
conversion to `time.Duration` truncates toward zero. -/
def scaleDuration (d : Int) : Int :=
  let a := roundTo53 d.natAbs
  let p := roundTo53 (a * 8106479329266893)
  let r : Int := ((p / 9007199254740992 : Nat) : Int)
  if d < 0 then -r else r

/-- `Tower.Upgrade`: the tower it leaves behind and the returned error. The sum
`t.Range + 20` is a `float64` addition. -/
def Tower.Upgrade (t : Tower) : Tower × Option String :=
  if t.Level ≥ 3 then (t, some "tower is already at maximum level")
  else
    ({ t with
        Level := t.Level + 1
        Damage := t.Damage + 5
        Range := roundFloat (t.Range + 20)
        FireRate := scaleDuration t.FireRate }, none)

/-- `Tower.GetUpgradeCost`: the tower the call leaves behind (the receiver is a pointer) and
the returned value. -/
def Tower.GetUpgradeCost (t : Tower) : Tower × GoInt := (t, t.Cost * t.Level)

/-- `Tower.GetSellValue`: the tower the call leaves behind and the returned value. -/
def Tower.GetSellValue (t : Tower) : Tower × GoInt := (t, t.Cost * t.Level / 2)

/-- `Tower.IsInRange`. Every `float64` operation of the test is rounded on its own (no
multiplication is fused with the addition), since at the edge of the range the rounding
decides the outcome. -/
def Tower.IsInRange (t : Tower) (e : Enemy) : Bool :=
  let dx := roundFloat (t.X - e.X)
  let dy := roundFloat (t.Y - e.Y)
  let distanceSquared := roundFloat (roundFloat (dx * dx) + roundFloat (dy * dy))
  decide (distanceSquared ≤ roundFloat (t.Range * t.Range))

/-- `Tower.DealAOEDamage`; `target` is the position of the target pointer in `enemies`. -/
def Tower.DealAOEDamage (t : Tower) (enemies : List Enemy) (target : Nat) : List Enemy :=
  enemies.mapIdx fun k enemy =>
    if k ≠ target ∧ t.IsInRange enemy = true then (enemy.TakeDamage (t.Damage / 2)).1
    else enemy

/-- The scan of the `range` loop of `Tower.Update`: the position of the first enemy in
range, where the loop fires and breaks; `none` when the loop runs to the end. -/
def Tower.firstInRange (t : Tower) : List Enemy → Option Nat
  | [] => none
  | enemy :: rest =>
    if t.IsInRange enemy then some 0 else (t.firstInRange rest).map (· + 1)

/-- `Tower.Update`: the tower and the enemies after the call. -/
def Tower.Update (t : Tower) (now : Int) (enemies : List Enemy) : Tower × List Enemy :=
  if !t.CanFire now then (t, enemies)
  else
    match t.firstInRange enemies with
    | none => (t, enemies)
    | some j =>
      let t1 := t.Fire now
      let enemies1 := enemies.modify (fun enemy => (enemy.TakeDamage t1.Damage).1) j
      if t1.Kind = "AOE" then (t1, t1.DealAOEDamage enemies1 j) else (t1, enemies1)

/-! ## game_state.go -/

/-- The Go type `TowerType` (an `int`). -/
abbrev TowerType := Int

/-- The constant `BasicTower` (iota 0). -/
def BasicTower : TowerType := 0

/-- The constant `SniperTower` (iota 1). -/
def SniperTower : TowerType := 1

/-- The constant `AOETower` (iota 2). -/
def AOETower : TowerType := 2

/-- The Go struct `GameState` without its mutex. The map `towerCosts` is a partial
function on `TowerType`. -/
structure GameState where
  towers : List Tower
  enemies : List Enemy
  lives : GoInt
  money : GoInt
  wave : GoInt
  towerCosts : TowerType → Option GoInt
  paused : Bool
  enemyPath : List BaseEntity

/-- The cost table built by `NewGameState`. -/
def defaultTowerCosts : TowerType → Option GoInt := fun k =>
  if k = BasicTower then some 50
  else if k = SniperTower then some 100
  else if k = AOETower then some 150
  else none

/-- The path built by `NewGameState`. -/
def defaultEnemyPath : List BaseEntity :=
  [⟨0, 300⟩, ⟨200, 300⟩, ⟨200, 100⟩, ⟨400, 100⟩, ⟨400, 500⟩, ⟨600, 500⟩, ⟨600, 300⟩, ⟨800, 300⟩]

/-- `NewGameState`. -/
def NewGameState : GameState :=
  { towers := []
    enemies := []
    lives := 100
    money := 1000
    wave := 0
    towerCosts := defaultTowerCosts
    paused := false
    enemyPath := defaultEnemyPath }

/-- The two statements `xs[i] = xs[len(xs)-1]; xs = xs[:len(xs)-1]`, used by `RemoveEnemy`,
`DamageEnemy`, `SellTower` and `Update` on an index already known to be in range. -/
def swapRemove {α : Type} (xs : List α) (i : Nat) : List α :=
  match xs.getLast? with
  | none => xs
  | some last => (xs.set i last).dropLast

/-- `GameState.AddTower`: the state it leaves behind and the returned error. -/
def GameState.AddTower (gs : GameState) (towerType : TowerType) (x y : ℚ) :
    GameState × Option String :=
  match gs.towerCosts towerType with
  | none => (gs, some "invalid tower type")
  | some cost =>
    if gs.money < cost then (gs, some "not enough money to add tower")
    else if towerType = BasicTower then
      ({ gs with towers := gs.towers ++ [NewBasicTower x y], money := gs.money - cost }, none)
    else if towerType = SniperTower then
      ({ gs with towers := gs.towers ++ [NewSniperTower x y], money := gs.money - cost }, none)
    else if towerType = AOETower then
      ({ gs with towers := gs.towers ++ [NewAOETower x y], money := gs.money - cost }, none)
    else (gs, some "unknown tower type")

/-- `GameState.AddEnemy`. -/
def GameState.AddEnemy (gs : GameState) (enemy : Enemy) : GameState :=
  { gs with enemies := gs.enemies ++ [enemy] }

/-- `GameState.RemoveEnemy`. -/
def GameState.RemoveEnemy (gs : GameState) (index : Int) : GameState :=
  if index < 0 ∨ index ≥ (gs.enemies.length : Int) then gs
  else { gs with enemies := swapRemove gs.enemies index.toNat }

/-- `GameState.DamageEnemy`: the state it leaves behind and the returned flag. -/
def GameState.DamageEnemy (gs : GameState) (index : Int) (damage : GoInt) :
    GameState × Bool :=
  if h : index < 0 ∨ index ≥ (gs.enemies.length : Int) then (gs, false)
  else
    have hlt : index.toNat < gs.enemies.length := by omega
    let enemy := gs.enemies[index.toNat]
    let hit := enemy.TakeDamage damage
    let gs1 := { gs with enemies := gs.enemies.set index.toNat hit.1 }
    if hit.2 then
      ({ gs1 with
          money := gs1.money + hit.1.GetReward
          enemies := swapRemove gs1.enemies index.toNat }, true)
    else (gs1, false)

/-- `GameState.LoseLife`. -/
def GameState.LoseLife (gs : GameState) (amount : GoInt) : GameState :=
  let gs1 := { gs with lives := gs.lives - amount }
  if gs1.lives < 0 then { gs1 with lives := 0 } else gs1

/-- `GameState.IsGameOver`. -/
def GameState.IsGameOver (gs : GameState) : Bool :=
  decide (gs.lives ≤ 0)

/-- The body of the `for` loop of `spawnEnemiesForWave`, run `n` more times. The speed
`1.0 + float64(gs.wave)/10.0` is computed in `float64`: the conversion, the division and the
addition each round. -/
def GameState.spawnLoop (gs : GameState) : Nat → Option GameState
  | 0 => some gs
  | n + 1 =>
    let health := 50 + gs.wave * 10
    let speed : ℚ := roundFloat (1 + roundFloat (roundFloat (gs.wave.toInt : ℚ) / 10))
    let reward := 10 + gs.wave
    let damage := 1 + gs.wave / 5
    match NewEnemy health reward damage speed gs.enemyPath with
    | none => none
    | some enemy => GameState.spawnLoop { gs with enemies := gs.enemies ++ [enemy] } n

/-- `GameState.spawnEnemiesForWave`: the loop `for i := 0; i < numEnemies; i++` runs
`numEnemies = wave * 2` times (not at all when that is not positive). -/
def GameState.spawnEnemiesForWave (gs : GameState) : Option GameState :=
  let numEnemies := gs.wave * 2
  gs.spawnLoop numEnemies.toInt.toNat

/-- `GameState.NextWave`. -/
def GameState.NextWave (gs : GameState) : Option GameState :=
  GameState.spawnEnemiesForWave { gs with wave := gs.wave + 1 }

/-- `GameState.UpgradeTower`: the state it leaves behind and the returned error. -/
def GameState.UpgradeTower (gs : GameState) (index : Int) : GameState × Option String :=
  if h : index < 0 ∨ index ≥ (gs.towers.length : Int) then (gs, some "invalid tower index")
  else
    have hlt : index.toNat < gs.towers.length := by omega
    let tower := gs.towers[index.toNat]
    let cost := tower.GetUpgradeCost
    let gs0 := { gs with towers := gs.towers.set index.toNat cost.1 }
    let upgradeCost := cost.2
    if gs0.money < upgradeCost then (gs0, some "not enough money to upgrade tower")
    else
      match cost.1.Upgrade with
      | (tower1, some err) => ({ gs0 with towers := gs0.towers.set index.toNat tower1 }, some err)
      | (tower1, none) =>
        ({ gs0 with
            towers := gs0.towers.set index.toNat tower1
            money := gs0.money - upgradeCost }, none)

/-- `GameState.SellTower`: the state it leaves behind and the returned error. -/
def GameState.SellTower (gs : GameState) (index : Int) : GameState × Option String :=
  if h : index < 0 ∨ index ≥ (gs.towers.length : Int) then (gs, some "invalid tower index")
  else
    have hlt : index.toNat < gs.towers.length := by omega
    let tower := gs.towers[index.toNat]
    let value := tower.GetSellValue
    let gs0 := { gs with towers := gs.towers.set index.toNat value.1 }
    let sellValue := value.2
    ({ gs0 with
        money := gs0.money + sellValue
        towers := swapRemove gs0.towers index.toNat }, none)

/-- `GameState.TogglePause`. -/
def GameState.TogglePause (gs : GameState) : GameState :=
  { gs with paused := !gs.paused }

/-- The first loop of `Update`: the towers fire in stored order; tower number `k` reads the
clock as `clock k`. -/
def GameState.updateTowers (clock : Nat → Int) :
    Nat → List Tower → List Enemy → List Tower × List Enemy
  | _, [], enemies => ([], enemies)
  | k, tower :: rest, enemies =>
    let r := tower.Update (clock k) enemies
    let r2 := GameState.updateTowers clock (k + 1) rest r.2
    (r.1 :: r2.1, r2.2)

/-- The second loop of `Update`, from loop index `i` on: the lives and the enemies it leaves
behind. After a removal the index is decremented and incremented again, so it stays. -/
def GameState.updateEnemies (lives : GoInt) (enemies : List Enemy) (i : Nat) :
    Option (GoInt × List Enemy) :=
  if h : i < enemies.length then
    let enemy := enemies[i]
    if enemy.HasReachedEnd then
      let lives1 := lives - enemy.GetDamage
      let lives2 := if lives1 < 0 then 0 else lives1
      GameState.updateEnemies lives2 (swapRemove enemies i) i
    else
      match enemy.Move with
      | none => none
      | some enemy1 => GameState.updateEnemies lives (enemies.set i enemy1) (i + 1)
  else some (lives, enemies)
termination_by enemies.length - i
decreasing_by
  all_goals simp_wf
  · have hne : enemies ≠ [] := by
      intro h0
      simp [h0] at h
    have hl : enemies.getLast? = some (enemies.getLast hne) := List.getLast?_eq_getLast _ hne
    simp only [swapRemove, hl, List.length_dropLast, List.length_set]
    omega
  · omega

/-- `GameState.Update`; `clock k` is the clock reading of tower number `k`. -/
def GameState.Update (gs : GameState) (clock : Nat → Int) : Option GameState :=
  if gs.paused then some gs
  else
    let r := GameState.updateTowers clock 0 gs.towers gs.enemies
    match GameState.updateEnemies gs.lives r.2 0 with
    | none => none
    | some (lives, enemies) =>
      let gs1 := { gs with towers := r.1, enemies := enemies, lives := lives }
      if gs1.enemies.length = 0 then
        GameState.spawnEnemiesForWave { gs1 with wave := gs1.wave + 1 }
      else some gs1

/-- `GameState.SetTowers`. -/
def GameState.SetTowers (gs : GameState) (towers : List Tower) : GameState :=
  { gs with towers := towers }

/-- `GameState.SetMoney`. -/
def GameState.SetMoney (gs : GameState) (money : GoInt) : GameState :=
  { gs with money := money }

/-- `GameState.SetWave`. -/
def GameState.SetWave (gs : GameState) (wave : GoInt) : GameState :=
  { gs with wave := wave }

/-- `GameState.SetTowerCosts`. -/
def GameState.SetTowerCosts (gs : GameState) (towerCosts : TowerType → Option GoInt) :
    GameState :=
  { gs with towerCosts := towerCosts }


/-! ## The tables of the specification -/

/-- The listed purchase price of a tower kind (specification §4.2): Basic 50, Sniper 100,
AOE 150. -/
def listedCost (kind : TowerType) : GoInt :=
  if kind = BasicTower then 50 else if kind = SniperTower then 100 else 150

/-- The level-1 archetype of a tower kind at `(x, y)`, row by row from the table of the
specification (§4.2): range, damage, fire interval and cost. -/
def archetype (kind : TowerType) (x y : ℚ) : Tower :=
  { X := x
    Y := y
    Range := if kind = BasicTower then 100 else if kind = SniperTower then 200 else 80
    Damage := if kind = BasicTower then 10 else if kind = SniperTower then 30 else 15
    FireRate := if kind = BasicTower then 1000000000 else 2000000000
    LastFired := 0
    Level := 1
    Cost := listedCost kind
    Kind := if kind = BasicTower then "Basic" else if kind = SniperTower then "Sniper" else "AOE" }

/-- The enemy that `spawnEnemiesForWave` builds at wave `w`, in the arithmetic of Go's
`int` and of `float64`: health and maximal health `50 + w * 10`, speed
`1.0 + float64(w)/10.0`, reward `10 + w`, damage `1 + w / 5` (integer division), path
index 0, standing on the waypoint `start`. -/
def waveEnemy (w : GoInt) (start : BaseEntity) (path : List BaseEntity) : Enemy :=
  { X := start.X
    Y := start.Y
    Health := 50 + w * 10
    MaxHealth := 50 + w * 10
    Speed := roundFloat (1 + roundFloat (roundFloat (w.toInt : ℚ) / 10))
    Reward := 10 + w
    Damage := 1 + w / 5
    PathIndex := 0
    Path := path }

/-- An enemy with its health blanked: two enemies agree on it exactly when they differ at
most in `Health`. -/
def Enemy.sansHealth (e : Enemy) : Enemy := { e with Health := 0 }

/-- The tower after `n` consecutive calls of `Upgrade`, successful or refused. -/
def Tower.upgrades (t : Tower) : Nat → Tower
  | 0 => t
  | n + 1 => (Tower.upgrades t n).Upgrade.1

/-- The lives after one enemy has reached the path end, in the words of the specification
(§4.3, `update` step 2) and on mathematical integers: the enemy's damage is subtracted,
with a floor at 0. -/
def loseTo (lives : Int) (e : Enemy) : Int := max 0 (lives - e.Damage.toInt)

/-- The same step in the arithmetic of Go's `int`. -/
def loseTo64 (lives : GoInt) (e : Enemy) : GoInt :=
  if lives - e.Damage < 0 then 0 else lives - e.Damage

/-- Every subtraction made when the enemies of the list cost their lives one after the
other, starting from `lives`, is representable as a Go `int`. -/
def subtractionsFit : Int → List Enemy → Prop
  | _, [] => True
  | lives, e :: rest => InInt64 (lives - e.Damage.toInt) ∧ subtractionsFit (loseTo lives e) rest

/-- The enemy after one `Move` (the enemy itself where `Move` does not return). -/
def Enemy.moved (e : Enemy) : Enemy := e.Move.getD e

/-- The order in which the enemy pass of `Update` examines the enemies of a list: the first
enemy, then, when that one had reached the end and was removed, the former last enemy
(swapped into the freed slot) followed by the ones in between, else the ones after it in
list order. `fuel` bounds the recursion; the length of the list is enough. -/
def passOrder : Nat → List Enemy → List Enemy
  | 0, _ => []
  | _ + 1, [] => []
  | fuel + 1, a :: rest =>
    a :: passOrder fuel (if a.HasReachedEnd then swapRemove (a :: rest) 0 else rest)

/-- One call among the three that move money for towers. -/
inductive TowerCall where
  | addTower (kind : TowerType) (x y : ℚ)
  | upgradeTower (index : Int)
  | sellTower (index : Int)

/-- The state after one such call, whether it succeeded or returned an error. -/
def GameState.applyCall (gs : GameState) : TowerCall → GameState
  | TowerCall.addTower kind x y => (gs.AddTower kind x y).1
  | TowerCall.upgradeTower index => (gs.UpgradeTower index).1
  | TowerCall.sellTower index => (gs.SellTower index).1

/-- The state after a sequence of such calls, first call first. -/
def GameState.applyCalls (gs : GameState) : List TowerCall → GameState
  | [] => gs
  | call :: rest => GameState.applyCalls (gs.applyCall call) rest

/-- The money spent on `k` upgrades of a level-1 tower of base cost `cost`: the upgrade
costs `cost * level` for the levels `1, ..., k`. -/
def upgradeSpend (cost : Int) : Nat → Int
  | 0 => 0
  | k + 1 => upgradeSpend cost k + cost * ((k : Int) + 1)

/-- The money put into a tower of level 1, 2 or 3: its purchase price and the upgrades
`cost * 1`, `cost * 2` bought since. -/
def Tower.invested (t : Tower) : Int :=
  t.Cost.toInt * (if t.Level.toInt ≤ 1 then 1 else if t.Level.toInt = 2 then 2 else 4)

/-- The money put into all towers of a list. -/
def totalInvested (towers : List Tower) : Int := (towers.map Tower.invested).sum

/-- The invariant of the states reached from the fresh state by tower calls: the default
cost table, money that is not negative, money and the money put into the towers together at
most the 1000 of the fresh state, and every tower with a cost of at most 150 and a level
from 1 to 3. -/
def GameState.solvent (gs : GameState) : Prop :=
  gs.towerCosts = defaultTowerCosts ∧ 0 ≤ gs.money.toInt ∧
    gs.money.toInt + totalInvested gs.towers ≤ 1000 ∧
    ∀ t ∈ gs.towers,
      0 < t.Cost.toInt ∧ t.Cost.toInt ≤ 150 ∧ 1 ≤ t.Level.toInt ∧ t.Level.toInt ≤ 3

/-- The state after `k` consecutive `UpgradeTower(index)` calls, and the errors they
returned in call order. -/
def GameState.upgradeTowerTimes (gs : GameState) (index : Int) :
    Nat → GameState × List (Option String)
  | 0 => (gs, [])
  | k + 1 =>
    let r := gs.UpgradeTower index
    let r2 := GameState.upgradeTowerTimes r.1 index k
    (r2.1, r.2 :: r2.2)

/-- The call sequence buy, upgrade `k` times, sell: `AddTower(kind, x, y)`, then `k` calls
`UpgradeTower(index)` and one `SellTower(index)` on the new tower, which sits at the old
tower count; the final state and all returned errors in call order. -/
def GameState.buyUpgradeSell (gs : GameState) (kind : TowerType) (x y : ℚ) (k : Nat) :
    GameState × List (Option String) :=
  let r1 := gs.AddTower kind x y
  let index : Int := (gs.towers.length : Int)
  let r2 := GameState.upgradeTowerTimes r1.1 index k
  let r3 := r2.1.SellTower index
  (r3.1, r1.2 :: (r2.2 ++ [r3.2]))

/-! ## Concrete inputs -/

/-- The enemy built by `NewEnemy(100, 10, 1, 1.0, path)` on the default path
(`TestDamageEnemy`). -/
def sampleEnemy : Enemy :=
  { X := 0, Y := 300, Health := 100, MaxHealth := 100, Speed := 1, Reward := 10, Damage := 1,
    PathIndex := 0, Path := defaultEnemyPath }

/-- The fresh state after `AddTower(BasicTower, 100, 100)` (`TestUpgradeTower`,
`TestSellTower`): one Basic tower, money 950. -/
def oneTowerState : GameState :=
  (NewGameState.AddTower BasicTower 100 100).1

/-- The path of `TestMove`. -/
def testMovePath : List BaseEntity := [⟨0, 0⟩, ⟨3, 4⟩, ⟨6, 8⟩]

/-- The enemy built by `NewEnemy(100, 10, 5, 2.0, path)` in `TestMove`. -/
def testMover : Enemy :=
  { X := 0, Y := 0, Health := 100, MaxHealth := 100, Speed := 2, Reward := 10, Damage := 5,
    PathIndex := 0, Path := testMovePath }

/-- The enemy built by `NewEnemy(100, 10, 1, 1000.0, path)` on the default path
(`TestUpdate`). -/
def fastEnemy : Enemy :=
  { X := 0, Y := 300, Health := 100, MaxHealth := 100, Speed := 1000, Reward := 10, Damage := 1,
    PathIndex := 0, Path := defaultEnemyPath }

/-- The state of `TestUpdate` before its first `Update`: the fresh state with `fastEnemy`
added and a Basic tower bought on the second waypoint (200, 300). -/
def testUpdateState : GameState :=
  ((NewGameState.AddEnemy fastEnemy).AddTower BasicTower 200 300).1

/-- A clock that reads two seconds after the zero time for every tower. -/
def lateClock : Nat → Int := fun _ => 2000000000

/-- The enemy built by `NewEnemy(10, 10, 1, 1.0, path)` on the default path: health 10. -/
def weakEnemy : Enemy :=
  { X := 0, Y := 300, Health := 10, MaxHealth := 10, Speed := 1, Reward := 10, Damage := 1,
    PathIndex := 0, Path := defaultEnemyPath }

/-- The fresh state with `weakEnemy` added and a Basic tower (damage 10) bought on the first
waypoint (0, 300), where the enemy stands. -/
def killState : GameState :=
  ((NewGameState.AddEnemy weakEnemy).AddTower BasicTower 0 300).1

/-- The fresh state after `TogglePause`: paused, with no enemy on the field. -/
def pausedEmptyState : GameState := NewGameState.TogglePause

/-- The enemy built by `NewEnemy(100, 10, 5, 1.0, []BaseEntity{{X: x, Y: 0}})` in the tower
tests: health 100, standing at `(x, 0)`. -/
def testEnemyAt (x : ℚ) : Enemy :=
  { X := x, Y := 0, Health := 100, MaxHealth := 100, Speed := 1, Reward := 10, Damage := 5,
    PathIndex := 0, Path := [⟨x, 0⟩] }

/-- The enemy built by `NewEnemy(100, 10, 5, 1.0, []BaseEntity{{X: x, Y: 1 / (1 << 30)}})`:
like `testEnemyAt x`, but `2 ^ (-30)` above the horizontal axis. -/
def edgeEnemyAt (x : ℚ) : Enemy :=
  { X := x, Y := 1 / 1073741824, Health := 100, MaxHealth := 100, Speed := 1, Reward := 10,
    Damage := 5, PathIndex := 0, Path := [⟨x, 1 / 1073741824⟩] }

/-- The enemies of `TestUpdate` in the tower tests: one at (50, 0), one at (200, 0). -/
def towerTestEnemies : List Enemy := [testEnemyAt 50, testEnemyAt 200]

/-- The enemies of `TestDealAOEDamage`: the target at (50, 0), then one at (60, 0) and one
at (100, 0). -/
def aoeTestEnemies : List Enemy := [testEnemyAt 50, testEnemyAt 60, testEnemyAt 100]

/-- An enemy standing on the last waypoint of the default path with the last path index 7:
it has reached the end. -/
def endEnemy : Enemy :=
  { X := 800, Y := 300, Health := 100, MaxHealth := 100, Speed := 1, Reward := 10, Damage := 1,
    PathIndex := 7, Path := defaultEnemyPath }

/-- The fresh state with `endEnemy` added: no tower, one enemy that has reached the end. -/
def endState : GameState := NewGameState.AddEnemy endEnemy

/-- The fresh state after `SetTowerCosts` with the price `-2^63` for every kind and
`SetMoney(0)`. -/
def giftState : GameState :=
  (NewGameState.SetTowerCosts fun _ => some MinInt64).SetMoney 0

/-- A Basic tower at the origin whose public fields were set to cost `2^62` and level 2:
the mathematical product `Cost * Level` is `2^63`, one more than the greatest Go `int`. -/
def steepTower : Tower :=
  { NewBasicTower 0 0 with Cost := 4611686018427387904, Level := 2 }

/-- The fresh state after `SetTowers([steepTower])` and `SetMoney(0)`. -/
def steepState : GameState := (NewGameState.SetTowers [steepTower]).SetMoney 0

/-- A Basic tower at the origin whose public fields were set to cost `2^63 - 1` and
level 2. -/
def dearTower : Tower :=
  { NewBasicTower 0 0 with Cost := MaxInt64, Level := 2 }

/-- The fresh state after `SetTowers([dearTower])`: money 1000. -/
def dearState : GameState := NewGameState.SetTowers [dearTower]

/-- The fresh state after `SetMoney(2^63 - 1)` and `AddEnemy` of the enemy of
`TestDamageEnemy` (reward 10). -/
def richEnemyState : GameState := (NewGameState.SetMoney MaxInt64).AddEnemy sampleEnemy

/-- A Basic tower at the origin whose public field `Cost` was set to `-1`. -/
def rebateTower : Tower := { NewBasicTower 0 0 with Cost := -1 }

/-- The fresh state after `SetTowers([rebateTower])` and `SetMoney(2^63 - 1)`. -/
def rebateState : GameState := (NewGameState.SetTowers [rebateTower]).SetMoney MaxInt64

/-- The state of `TestSellTower` (one Basic tower) after `SetMoney(2^63 - 1)`. -/
def richTowerState : GameState := oneTowerState.SetMoney MaxInt64

/-- The fresh state after the three purchases `AddTower(BasicTower, 0, 0)`,
`AddTower(SniperTower, 10, 0)` and `AddTower(AOETower, 20, 0)`: three towers, money 700. -/
def threeTowerState : GameState :=
  (((NewGameState.AddTower BasicTower 0 0).1.AddTower SniperTower 10 0).1.AddTower
    AOETower 20 0).1

/-- The enemy of `TestDamageEnemy` with its public field `PathIndex` set to `-5`. -/
def strayEnemy : Enemy := { sampleEnemy with PathIndex := -5 }

/-- An enemy that has reached the end of the default path and whose damage is the least
Go `int`. -/
def hugeDamageEnemy : Enemy := { endEnemy with Damage := MinInt64 }

/-- An enemy that has reached the end of the default path, with damage `d`. -/
def endEnemyOf (d : GoInt) : Enemy := { endEnemy with Damage := d }

/-! ## Go's `int`: wraparound and where it does not happen -/

theorem GoInt.ext {a b : GoInt} (h : a.toInt = b.toInt) : a = b := by
  cases a
  cases b
  simp only at h
  subst h
  rfl

theorem GoInt.eq_iff (a b : GoInt) : a = b ↔ a.toInt = b.toInt :=
  ⟨fun h => by rw [h], GoInt.ext⟩

theorem GoInt.le_def (a b : GoInt) : a ≤ b ↔ a.toInt ≤ b.toInt := Iff.rfl

theorem GoInt.lt_def (a b : GoInt) : a < b ↔ a.toInt < b.toInt := Iff.rfl

theorem GoInt.not_lt (a b : GoInt) : ¬ a < b ↔ b ≤ a := Int.not_lt

theorem GoInt.not_le (a b : GoInt) : ¬ a ≤ b ↔ b < a := Int.not_le

theorem GoInt.le_refl (a : GoInt) : a ≤ a := Int.le_refl _

theorem GoInt.le_trans {a b c : GoInt} (h1 : a ≤ b) (h2 : b ≤ c) : a ≤ c := Int.le_trans h1 h2

theorem GoInt.inInt64 (a : GoInt) : InInt64 a.toInt := ⟨a.toInt_ge, a.toInt_le⟩

theorem GoInt.toInt_wrap (x : Int) :
    (GoInt.wrap x).toInt =
      (x + 9223372036854775808) % 18446744073709551616 - 9223372036854775808 := rfl

theorem GoInt.toInt_ofNat (n : Nat) :
    (OfNat.ofNat n : GoInt).toInt =
      ((OfNat.ofNat n : Int) + 9223372036854775808) % 18446744073709551616 -
        9223372036854775808 := rfl

theorem GoInt.toInt_add (a b : GoInt) :
    (a + b).toInt =
      (a.toInt + b.toInt + 9223372036854775808) % 18446744073709551616 -
        9223372036854775808 := rfl

theorem GoInt.toInt_sub (a b : GoInt) :
    (a - b).toInt =
      (a.toInt - b.toInt + 9223372036854775808) % 18446744073709551616 -
        9223372036854775808 := rfl

theorem GoInt.toInt_mul (a b : GoInt) :
    (a * b).toInt =
      (a.toInt * b.toInt + 9223372036854775808) % 18446744073709551616 -
        9223372036854775808 := rfl

theorem GoInt.toInt_neg (a : GoInt) :
    (-a).toInt =
      (-a.toInt + 9223372036854775808) % 18446744073709551616 - 9223372036854775808 := rfl

theorem GoInt.toInt_div (a b : GoInt) :
    (a / b).toInt =
      (Int.tdiv a.toInt b.toInt + 9223372036854775808) % 18446744073709551616 -
        9223372036854775808 := rfl

/-- Wrapping a representable integer gives that integer. -/
theorem GoInt.wrap_exact (x : Int) (h : InInt64 x) : (GoInt.wrap x).toInt = x := by
  unfold InInt64 at h
  rw [GoInt.toInt_wrap]
  omega

/-- Wrapping the value of a Go `int` gives it back. -/
theorem GoInt.wrap_toInt (a : GoInt) : GoInt.wrap a.toInt = a :=
  GoInt.ext (GoInt.wrap_exact _ a.inInt64)

/-- A sum that is representable is the mathematical sum. -/
theorem GoInt.add_exact (a b : GoInt) (h : InInt64 (a.toInt + b.toInt)) :
    (a + b).toInt = a.toInt + b.toInt := GoInt.wrap_exact _ h

/-- A difference that is representable is the mathematical difference. -/
theorem GoInt.sub_exact (a b : GoInt) (h : InInt64 (a.toInt - b.toInt)) :
    (a - b).toInt = a.toInt - b.toInt := GoInt.wrap_exact _ h

/-- A product that is representable is the mathematical product. -/
theorem GoInt.mul_exact (a b : GoInt) (h : InInt64 (a.toInt * b.toInt)) :
    (a * b).toInt = a.toInt * b.toInt := GoInt.wrap_exact _ h

/-- Halving never leaves the range: `a / 2` is the mathematical truncated quotient. -/
theorem GoInt.div_two_exact (a : GoInt) : (a / 2).toInt = Int.tdiv a.toInt 2 := by
  have h2 : (2 : GoInt).toInt = 2 := rfl
  have hge := a.toInt_ge
  have hle := a.toInt_le
  rw [GoInt.toInt_div, h2]
  by_cases h0 : 0 ≤ a.toInt
  · rw [Int.tdiv_eq_ediv h0 (by decide)]
    omega
  · have hneg : Int.tdiv a.toInt 2 = -((-a.toInt) / 2) := by
      rw [← Int.tdiv_eq_ediv (by omega) (by decide), Int.neg_tdiv, neg_neg]
    rw [hneg]
    omega

/-- Dividing by 5 never leaves the range. -/
theorem GoInt.div_five_exact (a : GoInt) : (a / 5).toInt = Int.tdiv a.toInt 5 := by
  have h5 : (5 : GoInt).toInt = 5 := rfl
  have hge := a.toInt_ge
  have hle := a.toInt_le
  rw [GoInt.toInt_div, h5]
  by_cases h0 : 0 ≤ a.toInt
  · rw [Int.tdiv_eq_ediv h0 (by decide)]
    omega
  · have hneg : Int.tdiv a.toInt 5 = -((-a.toInt) / 5) := by
      rw [← Int.tdiv_eq_ediv (by omega) (by decide), Int.neg_tdiv, neg_neg]
    rw [hneg]
    omega

theorem GoInt.mul_comm (a b : GoInt) : a * b = b * a :=
  GoInt.ext (by rw [GoInt.toInt_mul, GoInt.toInt_mul, Int.mul_comm])

/-- The two extreme values. -/
theorem minInt64_maxInt64 :
    MinInt64.toInt = -9223372036854775808 ∧ MaxInt64.toInt = 9223372036854775807 :=
  ⟨rfl, rfl⟩

/-! ## `float64` rounding: exact cases, evaluation and the error bound -/

theorem bitLength_zero (fuel : Nat) : bitLength fuel 0 = 0 := by
  cases fuel <;> simp [bitLength]

/-- With enough fuel `bitLength n` is the number of binary digits of a positive `n`. -/
theorem bitLength_spec (fuel : Nat) :
    ∀ n : Nat, n ≤ fuel → 0 < n →
      1 ≤ bitLength fuel n ∧ 2 ^ (bitLength fuel n - 1) ≤ n ∧ n < 2 ^ bitLength fuel n := by
  induction fuel with
  | zero =>
    intro n h hn
    omega
  | succ fuel ih =>
    intro n h hn
    have hne : n ≠ 0 := by omega
    simp only [bitLength, hne, if_false]
    by_cases h2 : n / 2 = 0
    · rw [h2, bitLength_zero]
      have h1 : n = 1 := by omega
      subst h1
      simp
    · obtain ⟨hb1, hlo, hhi⟩ := ih (n / 2) (by omega) (by omega)
      have hpow : 2 ^ bitLength fuel (n / 2) = 2 * 2 ^ (bitLength fuel (n / 2) - 1) := by
        rw [← pow_succ']
        congr 1
        omega
      refine ⟨by omega, ?_, ?_⟩
      · simp only [Nat.add_sub_cancel]
        omega
      · rw [pow_succ]
        omega

theorem roundHalfEven_intCast (z : Int) : roundHalfEven (z : ℚ) = z := by
  unfold roundHalfEven
  have hf : ⌊(z : ℚ)⌋ = z := Int.floor_intCast z
  simp only [hf, sub_self]
  norm_num

/-- A natural number below `2^53` is a `float64`: rounding leaves it as it is. -/
theorem roundFloat_natCast (n : Nat) (h : n < 9007199254740992) : roundFloat (n : ℚ) = n := by
  by_cases h0 : n = 0
  · subst h0
    simp [roundFloat]
  · have hpos : 0 < n := Nat.pos_of_ne_zero h0
    obtain ⟨hb1, hlo, hhi⟩ := bitLength_spec n n (le_refl n) hpos
    have hq0 : (n : ℚ) ≠ 0 := by exact_mod_cast h0
    have hqpos : (0 : ℚ) < n := by exact_mod_cast hpos
    have habs : |(n : ℚ)| = n := abs_of_pos hqpos
    have hb53 : bitLength n n ≤ 53 := by
      by_contra hcon
      have h54 : 54 ≤ bitLength n n := by omega
      have : 2 ^ 53 ≤ 2 ^ (bitLength n n - 1) := Nat.pow_le_pow_right (by norm_num) (by omega)
      have h253 : (2 : Nat) ^ 53 = 9007199254740992 := by norm_num
      omega
    have hone : bitLength 1 1 = 1 := by decide
    unfold roundFloat
    rw [if_neg hq0]
    simp only [habs, Rat.num_natCast, Rat.den_natCast, Int.natAbs_ofNat, hone]
    obtain ⟨j, hj⟩ : ∃ j : Nat, bitLength n n = j + 1 := ⟨bitLength n n - 1, by omega⟩
    rw [hj] at hlo hb53 ⊢
    simp only [Nat.add_sub_cancel] at hlo
    have hk : (((j + 1 : Nat) : Int) - ((1 : Nat) : Int)) = (j : Int) := by push_cast; omega
    rw [hk]
    have hle : (2 : ℚ) ^ (j : Int) ≤ (n : ℚ) := by
      rw [zpow_natCast]
      exact_mod_cast hlo
    rw [if_pos hle]
    obtain ⟨i, hi⟩ : ∃ i : Nat, i + j = 52 := ⟨52 - j, by omega⟩
    have hexp : ((j : Int) - 52) = -(i : Int) := by omega
    rw [hexp, zpow_neg, zpow_natCast]
    have hdiv : (n : ℚ) / ((2 : ℚ) ^ i)⁻¹ = (((n * 2 ^ i : Nat) : Int) : ℚ) := by
      push_cast
      field_simp
    rw [hdiv, roundHalfEven_intCast, if_neg (not_lt.mpr (le_of_lt hqpos))]
    push_cast
    field_simp

/-- Rounding is symmetric. -/
theorem roundFloat_neg (q : ℚ) : roundFloat (-q) = -roundFloat q := by
  unfold roundFloat
  by_cases h0 : q = 0
  · simp [h0]
  · have hn0 : -q ≠ 0 := neg_ne_zero.mpr h0
    rw [if_neg h0, if_neg hn0]
    simp only [abs_neg]
    rcases lt_or_gt_of_ne h0 with hlt | hgt
    · have h1 : ¬ (-q < 0) := by linarith
      rw [if_neg h1, if_pos hlt, neg_neg]
    · have h1 : -q < 0 := by linarith
      have h2 : ¬ q < 0 := by linarith
      rw [if_pos h1, if_neg h2]

/-- An integer below `2^53` in absolute value is a `float64`. -/
theorem roundFloat_intCast (z : Int) (h : z.natAbs < 9007199254740992) :
    roundFloat (z : ℚ) = z := by
  obtain ⟨n, hn | hn⟩ := z.eq_nat_or_neg
  · subst hn
    have h2 : n < 9007199254740992 := by simpa using h
    simpa using roundFloat_natCast n h2
  · subst hn
    have h2 : n < 9007199254740992 := by simpa using h
    have h3 : roundFloat (-(n : ℚ)) = -(n : ℚ) := by
      rw [roundFloat_neg, roundFloat_natCast n h2]
    simpa using h3

/-- The exponent chosen by `roundFloat`: for `2 ^ e ≤ q < 2 ^ (e + 1)` the result is the
multiple of `2 ^ (e - 52)` nearest to `q`. -/
theorem roundFloat_of_exp (q : ℚ) (e : Int) (hlo : (2 : ℚ) ^ e ≤ q)
    (hhi : q < (2 : ℚ) ^ (e + 1)) :
    roundFloat q = (roundHalfEven (q / (2 : ℚ) ^ (e - 52)) : ℚ) * (2 : ℚ) ^ (e - 52) := by
  have h2 : (1 : ℚ) < 2 := by norm_num
  have h20 : (2 : ℚ) ≠ 0 := by norm_num
  have hpos : 0 < q := lt_of_lt_of_le (zpow_pos (by norm_num) e) hlo
  have hnum : 0 < q.num := Rat.num_pos.mpr hpos
  have hN : 0 < q.num.natAbs := Int.natAbs_pos.mpr hnum.ne'
  have hD : 0 < q.den := q.den_pos
  obtain ⟨hn1, hnlo, hnhi⟩ := bitLength_spec _ _ (le_refl q.num.natAbs) hN
  obtain ⟨hd1, hdlo, hdhi⟩ := bitLength_spec _ _ (le_refl q.den) hD
  have hqd : q * (q.den : ℚ) = (q.num.natAbs : ℚ) := by
    have h1 : ((q.num.natAbs : Int) : ℚ) = (q.num : ℚ) := by
      rw [Int.natAbs_of_nonneg hnum.le]
    have h3 : (q.num.natAbs : ℚ) = (q.num : ℚ) := by
      rw [← h1, Int.cast_natCast]
    rw [h3]
    exact Rat.mul_den_eq_num q
  generalize hbn : bitLength q.num.natAbs q.num.natAbs = bn at hn1 hnlo hnhi
  generalize hbd : bitLength q.den q.den = bd at hd1 hdlo hdhi
  have hDq : (0 : ℚ) < q.den := by exact_mod_cast hD
  have hupper : q < (2 : ℚ) ^ ((bn : Int) - bd + 1) := by
    have h1 : q * (2 : ℚ) ^ (bd - 1) ≤ q * q.den := by
      apply mul_le_mul_of_nonneg_left _ hpos.le
      exact_mod_cast hdlo
    have h3 : (q.num.natAbs : ℚ) < (2 : ℚ) ^ bn := by exact_mod_cast hnhi
    have h4 : q * (2 : ℚ) ^ (bd - 1) < (2 : ℚ) ^ bn := by linarith
    have h5 : (2 : ℚ) ^ ((bn : Int) - bd + 1) * (2 : ℚ) ^ (bd - 1) = (2 : ℚ) ^ bn := by
      rw [← zpow_natCast, ← zpow_natCast, ← zpow_add₀ h20]
      congr 1
      omega
    rw [← h5] at h4
    exact lt_of_mul_lt_mul_right h4 (by positivity)
  have hlower : (2 : ℚ) ^ ((bn : Int) - bd - 1) < q := by
    have h1 : q * q.den < q * (2 : ℚ) ^ bd := by
      apply mul_lt_mul_of_pos_left _ hpos
      exact_mod_cast hdhi
    have h3 : (2 : ℚ) ^ (bn - 1) ≤ (q.num.natAbs : ℚ) := by exact_mod_cast hnlo
    have h4 : (2 : ℚ) ^ (bn - 1) < q * (2 : ℚ) ^ bd := by linarith
    have h5 : (2 : ℚ) ^ ((bn : Int) - bd - 1) * (2 : ℚ) ^ bd = (2 : ℚ) ^ (bn - 1) := by
      rw [← zpow_natCast, ← zpow_natCast, ← zpow_add₀ h20]
      congr 1
      omega
    rw [← h5] at h4
    exact lt_of_mul_lt_mul_right h4 (by positivity)
  have hexp : (if (2 : ℚ) ^ ((bn : Int) - bd) ≤ q then ((bn : Int) - bd)
      else (bn : Int) - bd - 1) = e := by
    split
    · rename_i hk
      have ha : e < (bn : Int) - bd + 1 :=
        (zpow_lt_zpow_iff_right₀ h2).mp (lt_of_le_of_lt hlo hupper)
      have hb : (bn : Int) - bd < e + 1 :=
        (zpow_lt_zpow_iff_right₀ h2).mp (lt_of_le_of_lt hk hhi)
      omega
    · rename_i hk
      have hk2 : q < (2 : ℚ) ^ ((bn : Int) - bd) := not_le.mp hk
      have ha : e < (bn : Int) - bd :=
        (zpow_lt_zpow_iff_right₀ h2).mp (lt_of_le_of_lt hlo hk2)
      have hb : (bn : Int) - bd - 1 < e + 1 :=
        (zpow_lt_zpow_iff_right₀ h2).mp (lt_trans hlower hhi)
      omega
  unfold roundFloat
  rw [if_neg hpos.ne']
  simp only [abs_of_pos hpos, hbn, hbd, hexp, if_neg (not_lt.mpr hpos.le)]

theorem roundHalfEven_of_lt_half (r : ℚ) (f : Int) (h1 : (f : ℚ) ≤ r) (h2 : r - f < 1 / 2) :
    roundHalfEven r = f := by
  have hf : ⌊r⌋ = f := Int.floor_eq_iff.mpr ⟨h1, by linarith⟩
  unfold roundHalfEven
  simp only [hf]
  rw [if_neg]
  rintro (h | ⟨h, _⟩) <;> linarith

/-- A power of two is a `float64`. -/
theorem roundFloat_two_zpow (e : Int) : roundFloat ((2 : ℚ) ^ e) = (2 : ℚ) ^ e := by
  have h20 : (2 : ℚ) ≠ 0 := by norm_num
  rw [roundFloat_of_exp _ e (le_refl _) (zpow_lt_zpow_right₀ (by norm_num) (by omega))]
  have h1 : (2 : ℚ) ^ e / (2 : ℚ) ^ (e - 52) = ((4503599627370496 : Int) : ℚ) := by
    rw [← zpow_sub₀ h20]
    have : e - (e - 52) = ((52 : Nat) : Int) := by omega
    rw [this, zpow_natCast]
    norm_num
  rw [h1, roundHalfEven_intCast]
  have h2 : ((4503599627370496 : Int) : ℚ) = (2 : ℚ) ^ ((52 : Nat) : Int) := by
    rw [zpow_natCast]
    norm_num
  rw [h2, ← zpow_add₀ h20]
  congr 1
  omega

/-- Adding `2 ^ (-60)` to a natural number with at most 53 binary digits is lost to
rounding. -/
theorem roundFloat_add_tiny (n e : Nat) (hlo : 2 ^ e ≤ n) (hhi : n + 1 ≤ 2 ^ (e + 1))
    (he : e ≤ 52) : roundFloat ((n : ℚ) + 1 / 2 ^ 60) = n := by
  have h20 : (2 : ℚ) ≠ 0 := by norm_num
  have htiny : (0 : ℚ) < 1 / 2 ^ 60 := by positivity
  have htiny1 : (1 : ℚ) / 2 ^ 60 < 1 := by norm_num
  have hq1 : (2 : ℚ) ^ (e : Int) ≤ (n : ℚ) + 1 / 2 ^ 60 := by
    rw [zpow_natCast]
    have : ((2 ^ e : Nat) : ℚ) ≤ (n : ℚ) := by exact_mod_cast hlo
    push_cast at this
    linarith
  have hq2 : (n : ℚ) + 1 / 2 ^ 60 < (2 : ℚ) ^ ((e : Int) + 1) := by
    have h1 : ((e : Int) + 1) = ((e + 1 : Nat) : Int) := by push_cast; rfl
    rw [h1, zpow_natCast]
    have : ((n + 1 : Nat) : ℚ) ≤ ((2 ^ (e + 1) : Nat) : ℚ) := by exact_mod_cast hhi
    push_cast at this
    linarith
  rw [roundFloat_of_exp _ e hq1 hq2]
  obtain ⟨i, hi⟩ : ∃ i : Nat, i + e = 52 := ⟨52 - e, by omega⟩
  have hexp : ((e : Int) - 52) = -(i : Int) := by omega
  rw [hexp, zpow_neg, zpow_natCast]
  have hi52 : (2 : ℚ) ^ i ≤ 2 ^ 52 := pow_le_pow_right₀ (by norm_num) (by omega)
  have hipos : (0 : ℚ) < 2 ^ i := by positivity
  have hdiv : ((n : ℚ) + 1 / 2 ^ 60) / ((2 : ℚ) ^ i)⁻¹ =
      (((n * 2 ^ i : Nat) : Int) : ℚ) + 2 ^ i / 2 ^ 60 := by
    push_cast
    field_simp
    ring
  have hr : roundHalfEven (((n : ℚ) + 1 / 2 ^ 60) / ((2 : ℚ) ^ i)⁻¹) = ((n * 2 ^ i : Nat) : Int) := by
    rw [hdiv]
    apply roundHalfEven_of_lt_half
    · have : (0 : ℚ) ≤ 2 ^ i / 2 ^ 60 := by positivity
      linarith
    · have : (2 : ℚ) ^ i / 2 ^ 60 ≤ 2 ^ 52 / 2 ^ 60 := by
        apply div_le_div_of_nonneg_right hi52
        positivity
      have h3 : (2 : ℚ) ^ 52 / 2 ^ 60 < 1 / 2 := by norm_num
      linarith
  rw [hr]
  push_cast
  field_simp

theorem roundHalfEven_of_gt_half (r : ℚ) (f : Int) (h1 : (f : ℚ) + 1 / 2 < r)
    (h2 : r < (f : ℚ) + 1) : roundHalfEven r = f + 1 := by
  have hf : ⌊r⌋ = f := Int.floor_eq_iff.mpr ⟨by linarith, h2⟩
  unfold roundHalfEven
  simp only [hf]
  rw [if_pos]
  left
  linarith

/-- The nearest integer is at most one half away. -/
theorem roundHalfEven_error (r : ℚ) : |(roundHalfEven r : ℚ) - r| ≤ 1 / 2 := by
  have h1 : (⌊r⌋ : ℚ) ≤ r := Int.floor_le r
  have h2 : r < (⌊r⌋ : ℚ) + 1 := Int.lt_floor_add_one r
  unfold roundHalfEven
  simp only
  split
  · rename_i h
    push_cast
    rw [abs_le]
    rcases h with h | ⟨h, _⟩
    · constructor <;> linarith
    · constructor <;> linarith
  · rename_i h
    have h3 : ¬ (r - ⌊r⌋ > 1 / 2) := fun hc => h (Or.inl hc)
    rw [abs_le]
    constructor <;> linarith

/-- The relative error of one rounding is at most `2 ^ (-53)`. -/
theorem roundFloat_error (q : ℚ) : |roundFloat q - q| ≤ |q| / 9007199254740992 := by
  have hpos : ∀ p : ℚ, 0 < p → |roundFloat p - p| ≤ p / 9007199254740992 := by
    intro p hp
    obtain ⟨e, hlo, hhi⟩ := exists_mem_Ico_zpow hp (by norm_num : (1 : ℚ) < 2)
    rw [roundFloat_of_exp p e hlo hhi]
    have hu : (0 : ℚ) < (2 : ℚ) ^ (e - 52) := zpow_pos (by norm_num) _
    have herr := roundHalfEven_error (p / (2 : ℚ) ^ (e - 52))
    have hfac : (roundHalfEven (p / (2 : ℚ) ^ (e - 52)) : ℚ) * (2 : ℚ) ^ (e - 52) - p =
        ((roundHalfEven (p / (2 : ℚ) ^ (e - 52)) : ℚ) - p / (2 : ℚ) ^ (e - 52)) *
          (2 : ℚ) ^ (e - 52) := by
      field_simp
    rw [hfac, abs_mul, abs_of_pos hu]
    have hulp : (2 : ℚ) ^ (e - 52) = (2 : ℚ) ^ e / 4503599627370496 := by
      rw [zpow_sub₀ (by norm_num : (2 : ℚ) ≠ 0)]
      norm_num
    have h1 : |(roundHalfEven (p / (2 : ℚ) ^ (e - 52)) : ℚ) - p / (2 : ℚ) ^ (e - 52)| *
        (2 : ℚ) ^ (e - 52) ≤ 1 / 2 * (2 : ℚ) ^ (e - 52) :=
      mul_le_mul_of_nonneg_right herr hu.le
    rw [hulp] at h1 ⊢
    have h2 : (0 : ℚ) < (2 : ℚ) ^ e := zpow_pos (by norm_num) _
    linarith
  rcases lt_trichotomy q 0 with h | h | h
  · have := hpos (-q) (by linarith)
    rw [roundFloat_neg] at this
    rw [abs_of_neg h]
    have h2 : |-roundFloat q - -q| = |roundFloat q - q| := by
      rw [← abs_neg]
      congr 1
      ring
    rw [h2] at this
    exact this
  · subst h
    simp [roundFloat]
  · rw [abs_of_pos h]
    exact hpos q h

/-- Evaluation of one rounding from the exponent and the rounded significand. -/
theorem roundFloat_eval (q : ℚ) (e m : Int) (hlo : (2 : ℚ) ^ e ≤ q)
    (hhi : q < (2 : ℚ) ^ (e + 1)) (hm : roundHalfEven (q / (2 : ℚ) ^ (e - 52)) = m) :
    roundFloat q = (m : ℚ) * (2 : ℚ) ^ (e - 52) := by
  rw [roundFloat_of_exp q e hlo hhi, hm]

/-- The `float64` `0.1`. -/
theorem roundFloat_tenth : roundFloat (1 / 10) = 3602879701896397 / 36028797018963968 := by
  rw [roundFloat_eval (1 / 10) (-4) 7205759403792794 (by norm_num) (by norm_num)
    (by
      have := roundHalfEven_of_gt_half ((1 : ℚ) / 10 / (2 : ℚ) ^ ((-4 : Int) - 52))
        7205759403792793 (by norm_num) (by norm_num)
      rw [this]
      norm_num)]
  norm_num

/-- The `float64` `1.1`, which is also the `float64` sum of `1.0` and `0.1`. -/
theorem roundFloat_eleven_tenths :
    roundFloat (11 / 10) = 2476979795053773 / 2251799813685248 ∧
    roundFloat (1 + roundFloat (roundFloat (1 : Int) / 10)) = roundFloat (11 / 10) := by
  have h11 : roundFloat (11 / 10) = 2476979795053773 / 2251799813685248 := by
    rw [roundFloat_eval (11 / 10) 0 4953959590107546 (by norm_num) (by norm_num)
      (by
        have := roundHalfEven_of_gt_half ((11 : ℚ) / 10 / (2 : ℚ) ^ ((0 : Int) - 52))
          4953959590107545 (by norm_num) (by norm_num)
        rw [this]
        norm_num)]
    norm_num
  refine ⟨h11, ?_⟩
  have h1 : roundFloat ((1 : Int) : ℚ) = 1 := by
    have := roundFloat_intCast 1 (by decide)
    simpa using this
  rw [h1, roundFloat_tenth, h11]
  rw [roundFloat_eval (1 + 3602879701896397 / 36028797018963968) 0 4953959590107546
    (by norm_num) (by norm_num)
    (by
      have := roundHalfEven_of_gt_half
        (((1 : ℚ) + 3602879701896397 / 36028797018963968) / (2 : ℚ) ^ ((0 : Int) - 52))
        4953959590107545 (by norm_num) (by norm_num)
      rw [this]
      norm_num)]
  norm_num

/-- The `float64` value of `1.0 + float64(w)/10.0` is within `(1 + |w|) / 2^53` of the exact
`1 + w / 10`. -/
theorem spawnSpeed_error (w : Int) :
    |roundFloat (1 + roundFloat (roundFloat (w : ℚ) / 10)) - (1 + (w : ℚ) / 10)| ≤
      (1 + |(w : ℚ)|) / 9007199254740992 := by
  have h1 := roundFloat_error (w : ℚ)
  have h2 := roundFloat_error (roundFloat (w : ℚ) / 10)
  have h3 := roundFloat_error (1 + roundFloat (roundFloat (w : ℚ) / 10))
  generalize roundFloat (1 + roundFloat (roundFloat (w : ℚ) / 10)) = s at h3 ⊢
  generalize roundFloat (roundFloat (w : ℚ) / 10) = a at h2 h3 ⊢
  generalize roundFloat (w : ℚ) = x1 at h1 h2 ⊢
  generalize (w : ℚ) = x at h1 ⊢
  have hX : 0 ≤ |x| := abs_nonneg x
  have hx1 : |x1| ≤ |x| + |x| / 9007199254740992 := by
    have := abs_sub_abs_le_abs_sub x1 x
    linarith
  have hdiv : |x1 / 10| = |x1| / 10 := by
    rw [abs_div]
    norm_num
  rw [hdiv] at h2
  have ha : |a| ≤ |x1| / 10 + |x1| / 10 / 9007199254740992 := by
    have := abs_sub_abs_le_abs_sub a (x1 / 10)
    rw [hdiv] at this
    linarith
  have hs0 : |1 + a| ≤ 1 + |a| := by
    have := abs_add (1 : ℚ) a
    rw [abs_one] at this
    exact this
  have hx1' := abs_le.mp h1
  have h2' := abs_le.mp h2
  have h3' := abs_le.mp (le_trans h3 (div_le_div_of_nonneg_right hs0 (by norm_num)))
  rw [abs_le]
  constructor <;> linarith

/-- A rational that is a natural number below `2^53` is a `float64`. -/
theorem roundFloat_of_eq_nat (q : ℚ) (n : Nat) (h : q = n) (hn : n < 9007199254740992) :
    roundFloat q = q := by
  rw [h]
  exact roundFloat_natCast n hn

/-- The range test on integer offsets and an integer range below `2^26`: no operation
rounds, and the test is the comparison of the squared distance with the squared range. -/
theorem isInRange_int (t : Tower) (e : Enemy) (x y r : Int) (hx : t.X - e.X = x)
    (hy : t.Y - e.Y = y) (hr : t.Range = r) (hxb : x.natAbs < 67108864)
    (hyb : y.natAbs < 67108864) (hrb : r.natAbs < 67108864) :
    t.IsInRange e = decide (x * x + y * y ≤ r * r) := by
  have hsq : ∀ z : Int, z.natAbs < 67108864 → (z * z).natAbs < 4503599627370496 := by
    intro z hz
    rw [Int.natAbs_mul]
    exact Nat.mul_lt_mul'' hz hz
  have hxx := hsq x hxb
  have hyy := hsq y hyb
  have hrr := hsq r hrb
  have hsum : (x * x + y * y).natAbs < 9007199254740992 := by
    have := Int.natAbs_add_le (x * x) (y * y)
    omega
  unfold Tower.IsInRange
  simp only [hx, hy, hr]
  rw [roundFloat_intCast x (by omega), roundFloat_intCast y (by omega)]
  have h1 : ((x : ℚ) * x) = ((x * x : Int) : ℚ) := by push_cast; rfl
  have h2 : ((y : ℚ) * y) = ((y * y : Int) : ℚ) := by push_cast; rfl
  have h3 : ((r : ℚ) * r) = ((r * r : Int) : ℚ) := by push_cast; rfl
  rw [h1, h2, h3, roundFloat_intCast _ (by omega), roundFloat_intCast _ (by omega),
    roundFloat_intCast (r * r) (by omega)]
  have h4 : (((x * x : Int) : ℚ) + ((y * y : Int) : ℚ)) = ((x * x + y * y : Int) : ℚ) := by
    push_cast
    rfl
  rw [h4, roundFloat_intCast _ hsum]
  congr 1
  exact propext Int.cast_le

/-! ## The concrete inputs are what the constructors build -/

theorem sample_enemies_built :
    NewEnemy 100 10 1 1 NewGameState.enemyPath = some sampleEnemy ∧
    NewEnemy 100 10 5 2 testMovePath = some testMover ∧
    NewEnemy 100 10 1 1000 NewGameState.enemyPath = some fastEnemy ∧
    NewEnemy 10 10 1 1 NewGameState.enemyPath = some weakEnemy :=
  ⟨rfl, rfl, rfl, rfl⟩

/-! ## AddTower -/

/-- C1: with the default cost table, for each of the three kinds and every position, when
the money covers the listed cost `AddTower` returns no error, appends exactly the level-1
archetype at `(x, y)` to the towers, lowers the money by the listed cost (the subtraction
does not wrap) and leaves every other field (enemies, lives, wave, paused, cost table,
path) as it was. -/
theorem addTower_success (gs : GameState) (kind : TowerType) (x y : ℚ)
    (hcosts : gs.towerCosts = defaultTowerCosts)
    (hkind : kind = BasicTower ∨ kind = SniperTower ∨ kind = AOETower)
    (hmoney : gs.money ≥ listedCost kind) :
    gs.AddTower kind x y =
      ({ gs with
          towers := gs.towers ++ [archetype kind x y]
          money := gs.money - listedCost kind }, none) ∧
    (gs.money - listedCost kind).toInt = gs.money.toInt - (listedCost kind).toInt := by
  have hcost : 0 ≤ (listedCost kind).toInt := by
    rcases hkind with rfl | rfl | rfl <;> decide
  have hexact : (gs.money - listedCost kind).toInt =
      gs.money.toInt - (listedCost kind).toInt := by
    apply GoInt.sub_exact
    have hm := (GoInt.le_def _ _).mp hmoney
    have hle := gs.money.toInt_le
    unfold InInt64
    omega
  refine ⟨?_, hexact⟩
  rcases hkind with rfl | rfl | rfl
  · have hm : ¬ gs.money < 50 := (GoInt.not_lt _ _).mpr hmoney
    simp [GameState.AddTower, hcosts, defaultTowerCosts, listedCost, archetype, NewBasicTower,
      Second, hm]
  · have hm : ¬ gs.money < 100 := (GoInt.not_lt _ _).mpr hmoney
    simp [GameState.AddTower, hcosts, defaultTowerCosts, listedCost, archetype, NewSniperTower,
      Second, hm, SniperTower, BasicTower]
  · have hm : ¬ gs.money < 150 := (GoInt.not_lt _ _).mpr hmoney
    simp [GameState.AddTower, hcosts, defaultTowerCosts, listedCost, archetype, NewAOETower,
      Second, hm, SniperTower, BasicTower, AOETower]

/-- C1 at a concrete input: a Basic tower bought on the fresh state. -/
theorem addTower_success_witness :
    NewGameState.AddTower BasicTower 100 100 =
      ({ NewGameState with
          towers := NewGameState.towers ++ [archetype BasicTower 100 100]
          money := NewGameState.money - listedCost BasicTower }, none) ∧
    (NewGameState.money - listedCost BasicTower).toInt =
      NewGameState.money.toInt - (listedCost BasicTower).toInt :=
  addTower_success NewGameState BasicTower 100 100 rfl (Or.inl rfl) (by decide)

/-- C2: `AddTower` returns an error exactly when the kind is not known (it has no entry in
the cost table or is none of Basic, Sniper, AOE) or the money is below the kind's cost, and
whenever it returns an error the whole state is the one it started from. -/
theorem addTower_fails_iff (gs : GameState) (kind : TowerType) (x y : ℚ) :
    ((gs.AddTower kind x y).2 ≠ none ↔
      ((gs.towerCosts kind = none ∨
          ¬ (kind = BasicTower ∨ kind = SniperTower ∨ kind = AOETower)) ∨
        ∃ cost, gs.towerCosts kind = some cost ∧ gs.money < cost)) ∧
    ((gs.AddTower kind x y).2 ≠ none → (gs.AddTower kind x y).1 = gs) := by
  have hSB : SniperTower ≠ BasicTower := by decide
  have hAB : AOETower ≠ BasicTower := by decide
  have hAS : AOETower ≠ SniperTower := by decide
  unfold GameState.AddTower
  cases hc : gs.towerCosts kind with
  | none => simp
  | some cost =>
    by_cases hm : gs.money < cost
    · simp [hm]
    · by_cases h0 : kind = BasicTower
      · simp [hm, h0]
      · by_cases h1 : kind = SniperTower
        · simp [hm, h1, hSB]
        · by_cases h2 : kind = AOETower
          · simp [hm, h2, hAB, hAS]
          · simp [hm, h0, h1, h2]

/-! ## Swap-remove -/

theorem swapRemove_eq {α : Type} (xs : List α) (i : Nat) (last : α)
    (h : xs.getLast? = some last) : swapRemove xs i = (xs.set i last).dropLast := by
  simp [swapRemove, h]

theorem swapRemove_length {α : Type} (xs : List α) (i : Nat) (h : i < xs.length) :
    (swapRemove xs i).length = xs.length - 1 := by
  unfold swapRemove
  cases hl : xs.getLast? with
  | none =>
    have : xs = [] := by simpa using hl
    subst this
    simp at h
  | some last => simp

theorem dropLast_set_last {α : Type} (xs : List α) (a : α) :
    (xs.set (xs.length - 1) a).dropLast = xs.dropLast := by
  apply List.ext_getElem?
  intro n
  simp only [List.getElem?_dropLast, List.length_set, List.getElem?_set]
  by_cases hn : n < xs.length - 1
  · have : xs.length - 1 ≠ n := by omega
    simp [hn, this]
  · simp [hn]

/-- Overwriting the slot that is about to be swap-removed does not change the result. -/
theorem swapRemove_set_self {α : Type} (xs : List α) (i : Nat) (a : α) (h : i < xs.length) :
    swapRemove (xs.set i a) i = swapRemove xs i := by
  have hne : xs ≠ [] := by
    intro h0
    simp [h0] at h
  have hl : xs.getLast? = some (xs.getLast hne) := List.getLast?_eq_getLast _ hne
  by_cases hi : i = xs.length - 1
  · have hl2 : (xs.set i a).getLast? = some a := by
      rw [List.getLast?_eq_getElem?, List.length_set, List.getElem?_set]
      simp [hi, h]
      exact hne
    rw [swapRemove_eq _ _ _ hl2, swapRemove_eq _ _ _ hl, List.set_set, hi,
      dropLast_set_last, dropLast_set_last]
  · have hl2 : (xs.set i a).getLast? = some (xs.getLast hne) := by
      rw [List.getLast?_eq_getElem?, List.length_set, List.getElem?_set, ← hl,
        List.getLast?_eq_getElem?]
      simp [hi]
    rw [swapRemove_eq _ _ _ hl2, swapRemove_eq _ _ _ hl, List.set_set]

theorem set_getElem_same {α : Type} (xs : List α) (i : Nat) (h : i < xs.length) :
    xs.set i xs[i] = xs := by
  apply List.ext_getElem?
  intro n
  rw [List.getElem?_set]
  by_cases hn : i = n
  · subst hn
    simp [h]
  · simp [hn]

theorem getElem_of_getElem? {α : Type} (xs : List α) (i : Nat) (a : α) (h : xs[i]? = some a) :
    ∃ hlt : i < xs.length, xs[i] = a := by
  have hlt : i < xs.length := by
    by_contra hcon
    have : xs[i]? = none := List.getElem?_eq_none (by omega)
    rw [this] at h
    exact Option.noConfusion h
  refine ⟨hlt, ?_⟩
  rw [List.getElem?_eq_getElem hlt] at h
  exact Option.some.inj h

/-! ## TakeDamage -/

/-- `TakeDamage` in one equation: only `Health` is assigned, to the wrapped difference
floored at 0, and the flag tells whether that is `≤ 0`. -/
theorem takeDamage_eq (e : Enemy) (d : GoInt) :
    e.TakeDamage d =
      ({ e with Health := if e.Health - d < 0 then 0 else e.Health - d },
        decide ((if e.Health - d < 0 then (0 : GoInt) else e.Health - d) ≤ 0)) := by
  unfold Enemy.TakeDamage
  by_cases h : e.Health - d < 0 <;> simp [h]

/-- The health left by `TakeDamage` is never negative. -/
theorem takeDamage_health_nonneg (e : Enemy) (d : GoInt) : 0 ≤ (e.TakeDamage d).1.Health := by
  rw [takeDamage_eq]
  show (0 : GoInt) ≤ if e.Health - d < 0 then 0 else e.Health - d
  by_cases h : e.Health - d < 0
  · rw [if_pos h]
    exact GoInt.le_refl 0
  · rw [if_neg h]
    exact (GoInt.not_lt _ _).mp h

/-- The health left by `TakeDamage` when the difference is representable. -/
theorem takeDamage_health_exact (e : Enemy) (d : GoInt)
    (hfit : InInt64 (e.Health.toInt - d.toInt)) :
    (e.TakeDamage d).1.Health.toInt = max 0 (e.Health.toInt - d.toInt) := by
  have hsub := GoInt.sub_exact e.Health d hfit
  rw [takeDamage_eq]
  show (if e.Health - d < 0 then (0 : GoInt) else e.Health - d).toInt = _
  by_cases h : e.Health - d < 0
  · rw [if_pos h]
    rw [GoInt.lt_def, hsub] at h
    have h0 : (0 : GoInt).toInt = 0 := rfl
    rw [h0] at h
    rw [max_eq_left (le_of_lt h)]
    rfl
  · rw [if_neg h]
    rw [GoInt.lt_def, hsub] at h
    have h0 : (0 : GoInt).toInt = 0 := rfl
    rw [h0] at h
    rw [hsub, max_eq_right (not_lt.mp h)]

theorem takeDamage_dead (e : Enemy) (d : GoInt) (hfit : InInt64 (e.Health.toInt - d.toInt))
    (h : d ≥ e.Health) :
    e.TakeDamage d = ({ e with Health := if e.Health - d < 0 then 0 else e.Health - d }, true) := by
  have hsub := GoInt.sub_exact e.Health d hfit
  have h0 : (0 : GoInt).toInt = 0 := rfl
  have hd : e.Health.toInt ≤ d.toInt := h
  rw [takeDamage_eq]
  by_cases hlt : e.Health - d < 0
  · simp [hlt, GoInt.le_refl]
  · have hle : e.Health - d ≤ 0 := by
      rw [GoInt.le_def, hsub, h0]
      omega
    simp [hlt, hle]

theorem takeDamage_alive (e : Enemy) (d : GoInt) (hfit : InInt64 (e.Health.toInt - d.toInt))
    (h : d < e.Health) :
    e.TakeDamage d = ({ e with Health := e.Health - d }, false) := by
  have hsub := GoInt.sub_exact e.Health d hfit
  have h0 : (0 : GoInt).toInt = 0 := rfl
  have hd : d.toInt < e.Health.toInt := h
  have h1 : ¬ e.Health - d < 0 := by
    rw [GoInt.lt_def, hsub, h0]
    omega
  have h2 : ¬ e.Health - d ≤ 0 := by
    rw [GoInt.le_def, hsub, h0]
    omega
  rw [takeDamage_eq]
  simp [h1, h2]

/-- C15 as stated fails: for the enemy of health 100 and the amount `-2^63`, the least Go
`int`, the difference `100 + 2^63` is not representable; the subtraction wraps to a negative
number, `TakeDamage` leaves health 0 and returns true, while `max 0 (health - amount)` is
`2^63 + 100`. -/
theorem takeDamage_overflow_counterexample :
    (sampleEnemy.TakeDamage MinInt64).1.Health.toInt = 0 ∧
    (sampleEnemy.TakeDamage MinInt64).2 = true ∧
    max 0 (sampleEnemy.Health.toInt - MinInt64.toInt) = 9223372036854775908 ∧
    (sampleEnemy.TakeDamage MinInt64).1.Health.toInt ≠
      max 0 (sampleEnemy.Health.toInt - MinInt64.toInt) := by
  decide

/-- C15, amended: for every enemy and every amount for which `Health - amount` is
representable as a Go `int`, `TakeDamage` leaves the health `max 0 (Health - amount)`; and
for every amount at all it changes no field other than `Health`, returns true exactly when
the resulting health is `≤ 0`, and leaves a health that is not negative. -/
theorem takeDamage_spec (e : Enemy) (amount : GoInt) :
    (InInt64 (e.Health.toInt - amount.toInt) →
      (e.TakeDamage amount).1.Health.toInt = max 0 (e.Health.toInt - amount.toInt)) ∧
    (e.TakeDamage amount).1 = { e with Health := (e.TakeDamage amount).1.Health } ∧
    ((e.TakeDamage amount).2 = true ↔ (e.TakeDamage amount).1.Health ≤ 0) ∧
    0 ≤ (e.TakeDamage amount).1.Health := by
  refine ⟨takeDamage_health_exact e amount, ?_, ?_, takeDamage_health_nonneg e amount⟩
  · rw [takeDamage_eq]
  · rw [takeDamage_eq]
    simp

/-- C15 at a concrete input: the enemy of health 100 hit for 30 is left with health 70. -/
theorem takeDamage_spec_witness :
    (sampleEnemy.TakeDamage 30).1.Health.toInt = max 0 (sampleEnemy.Health.toInt - 30) :=
  (takeDamage_spec sampleEnemy 30).1 (by decide)

/-! ## DamageEnemy -/

/-- C3 as stated fails, in two ways. On the fresh state with the enemy of `TestDamageEnemy`
(health 100, reward 10) the amount `-2^63` is below the remaining health, yet the
subtraction wraps, `DamageEnemy` returns true, the enemy is removed and its reward is paid.
And on the same state after `SetMoney(2^63 - 1)` the amount 100 kills the enemy, but the
sum `money + reward` wraps: the money falls to `-2^63 + 9` instead of growing by 10. -/
theorem damageEnemy_overflow_counterexample :
    (MinInt64 < sampleEnemy.Health ∧
      (NewGameState.AddEnemy sampleEnemy).DamageEnemy 0 MinInt64 =
        ({ NewGameState with money := 1010 }, true) ∧
      ¬ ((NewGameState.AddEnemy sampleEnemy).DamageEnemy 0 MinInt64).2 = false) ∧
    (richEnemyState.enemies = [sampleEnemy] ∧ richEnemyState.money = MaxInt64 ∧
      (100 : GoInt) ≥ sampleEnemy.Health ∧
      (richEnemyState.DamageEnemy 0 100).2 = true ∧
      (richEnemyState.DamageEnemy 0 100).1.enemies = [] ∧
      (richEnemyState.DamageEnemy 0 100).1.money.toInt = -9223372036854775799 ∧
      (richEnemyState.DamageEnemy 0 100).1.money.toInt ≠
        richEnemyState.money.toInt + sampleEnemy.Reward.toInt) := by
  have hrich : richEnemyState.DamageEnemy 0 100 =
      ({ NewGameState with money := MaxInt64 + 10 }, true) := by
    have hrange : ¬ ((0 : Int) < 0 ∨ (0 : Int) ≥ (richEnemyState.enemies.length : Int)) := by
      decide
    have hhit : sampleEnemy.TakeDamage 100 = ({ sampleEnemy with Health := 0 }, true) := by
      decide
    unfold GameState.DamageEnemy
    rw [dif_neg hrange]
    show (if (sampleEnemy.TakeDamage 100).2 = true then _ else _) = _
    rw [hhit]
    rfl
  refine ⟨?_, rfl, rfl, by decide, ?_, ?_, ?_, ?_⟩
  rotate_left
  · rw [hrich]
  · rw [hrich]
    rfl
  · rw [hrich]
    decide
  · rw [hrich]
    decide
  have hrun : (NewGameState.AddEnemy sampleEnemy).DamageEnemy 0 MinInt64 =
      ({ NewGameState with money := 1010 }, true) := by
    have hrange : ¬ ((0 : Int) < 0 ∨
        (0 : Int) ≥ ((NewGameState.AddEnemy sampleEnemy).enemies.length : Int)) := by decide
    have hhit : sampleEnemy.TakeDamage MinInt64 = ({ sampleEnemy with Health := 0 }, true) := by
      decide
    unfold GameState.DamageEnemy
    rw [dif_neg hrange]
    show (if (sampleEnemy.TakeDamage MinInt64).2 = true then _ else _) = _
    rw [hhit]
    rfl
  refine ⟨by decide, hrun, ?_⟩
  rw [hrun]
  decide

/-- C3, amended: for a valid index `i` holding enemy `e` and an amount `d` for which
`e.Health - d` is representable as a Go `int`: when `d ≥ e.Health`, `DamageEnemy` returns
true, the enemies become the old list with slot `i` overwritten by the former last enemy
and the last slot dropped (one enemy fewer), and the money becomes `money + e.Reward`,
which is the mathematical sum whenever that is representable; when `d < e.Health` it returns
false, slot `i` holds `e` with health lowered by exactly `d`, and nothing else (money
included) changes; for an index out of range it returns false and the state is untouched. -/
theorem damageEnemy_spec (gs : GameState) (i : Int) (d : GoInt) :
    (∀ e : Enemy, 0 ≤ i → gs.enemies[i.toNat]? = some e →
      InInt64 (e.Health.toInt - d.toInt) →
      (d ≥ e.Health →
        ∃ last, gs.enemies.getLast? = some last ∧
          gs.DamageEnemy i d =
            ({ gs with
                money := gs.money + e.Reward
                enemies := (gs.enemies.set i.toNat last).dropLast }, true) ∧
          ((gs.enemies.set i.toNat last).dropLast).length + 1 = gs.enemies.length ∧
          (InInt64 (gs.money.toInt + e.Reward.toInt) →
            (gs.money + e.Reward).toInt = gs.money.toInt + e.Reward.toInt)) ∧
      (d < e.Health →
        gs.DamageEnemy i d =
          ({ gs with enemies := gs.enemies.set i.toNat { e with Health := e.Health - d } },
            false) ∧
        (e.Health - d).toInt = e.Health.toInt - d.toInt)) ∧
    ((i < 0 ∨ i ≥ (gs.enemies.length : Int)) → gs.DamageEnemy i d = (gs, false)) := by
  refine ⟨?_, ?_⟩
  · intro e hi he hfit
    obtain ⟨hlt, hget⟩ := getElem_of_getElem? _ _ _ he
    have hrange : ¬ (i < 0 ∨ i ≥ (gs.enemies.length : Int)) := by omega
    have hne : gs.enemies ≠ [] := by
      intro h0
      simp [h0] at hlt
    refine ⟨?_, ?_⟩
    · intro hd
      refine ⟨gs.enemies.getLast hne, List.getLast?_eq_getLast _ hne, ?_, ?_,
        GoInt.add_exact _ _⟩
      · unfold GameState.DamageEnemy
        rw [dif_neg hrange]
        simp only [hget, takeDamage_dead e d hfit hd, if_true, Enemy.GetReward]
        rw [swapRemove_set_self _ _ _ hlt,
          swapRemove_eq _ _ _ (List.getLast?_eq_getLast _ hne)]
      · simp only [List.length_dropLast, List.length_set]
        omega
    · intro hd
      refine ⟨?_, GoInt.sub_exact _ _ hfit⟩
      unfold GameState.DamageEnemy
      rw [dif_neg hrange]
      simp [hget, takeDamage_alive e d hfit hd]
  · intro hi
    unfold GameState.DamageEnemy
    rw [dif_pos hi]

/-- C3 at a concrete input: the enemy of `TestDamageEnemy` (health 100, reward 10) alone on
the fresh state, hit for 50, hit for 100, and a hit at index 5. -/
theorem damageEnemy_spec_witness :
    ((NewGameState.AddEnemy sampleEnemy).DamageEnemy 0 50 =
        ({ NewGameState.AddEnemy sampleEnemy with
            enemies := (NewGameState.AddEnemy sampleEnemy).enemies.set (0 : Int).toNat
              { sampleEnemy with Health := sampleEnemy.Health - 50 } }, false) ∧
        (sampleEnemy.Health - 50).toInt = sampleEnemy.Health.toInt - (50 : GoInt).toInt) ∧
      (∃ last, (NewGameState.AddEnemy sampleEnemy).enemies.getLast? = some last ∧
        (NewGameState.AddEnemy sampleEnemy).DamageEnemy 0 100 =
          ({ NewGameState.AddEnemy sampleEnemy with
              money := (NewGameState.AddEnemy sampleEnemy).money + sampleEnemy.Reward
              enemies :=
                ((NewGameState.AddEnemy sampleEnemy).enemies.set (0 : Int).toNat last).dropLast },
            true) ∧
        (((NewGameState.AddEnemy sampleEnemy).enemies.set (0 : Int).toNat last).dropLast).length
            + 1 = (NewGameState.AddEnemy sampleEnemy).enemies.length ∧
        (InInt64 ((NewGameState.AddEnemy sampleEnemy).money.toInt + sampleEnemy.Reward.toInt) →
          ((NewGameState.AddEnemy sampleEnemy).money + sampleEnemy.Reward).toInt =
            (NewGameState.AddEnemy sampleEnemy).money.toInt + sampleEnemy.Reward.toInt)) ∧
      (NewGameState.AddEnemy sampleEnemy).DamageEnemy 5 50 =
        (NewGameState.AddEnemy sampleEnemy, false) :=
  ⟨((damageEnemy_spec (NewGameState.AddEnemy sampleEnemy) 0 50).1 sampleEnemy (le_refl 0)
      rfl (by decide)).2 (by decide),
    ((damageEnemy_spec (NewGameState.AddEnemy sampleEnemy) 0 100).1 sampleEnemy (le_refl 0)
      rfl (by decide)).1 (by decide),
    (damageEnemy_spec (NewGameState.AddEnemy sampleEnemy) 5 50).2 (Or.inr (by decide))⟩

/-! ## The tower accessors -/

/-- C12 as stated fails: for a tower of cost `2^63 - 1` and level 2 the product
`Cost * Level` is `2^64 - 2`, which is not representable; it wraps, `GetUpgradeCost` returns
`-2` and `GetSellValue` returns `-1`. -/
theorem upgradeCost_overflow_counterexample :
    dearTower.Cost.toInt * dearTower.Level.toInt = 18446744073709551614 ∧
    dearTower.GetUpgradeCost.2.toInt = -2 ∧ dearTower.GetSellValue.2.toInt = -1 ∧
    dearTower.GetUpgradeCost.2.toInt ≠ dearTower.Cost.toInt * dearTower.Level.toInt ∧
    dearTower.GetSellValue.2.toInt ≠
      Int.tdiv (dearTower.Cost.toInt * dearTower.Level.toInt) 2 := by
  decide

/-- The truncated half `v` of an integer `n`: between `n / 2` rounded down and up. -/
theorem tdiv_two_bounds (n : Int) :
    (0 ≤ n → 2 * Int.tdiv n 2 ≤ n ∧ n < 2 * Int.tdiv n 2 + 2) ∧
    (n ≤ 0 → n ≤ 2 * Int.tdiv n 2 ∧ 2 * Int.tdiv n 2 - 2 < n) := by
  refine ⟨?_, ?_⟩
  · intro h
    rw [Int.tdiv_eq_ediv h (by decide)]
    omega
  · intro h
    have hneg : Int.tdiv n 2 = -((-n) / 2) := by
      rw [← Int.tdiv_eq_ediv (by omega) (by decide), Int.neg_tdiv, neg_neg]
    rw [hneg]
    omega

/-- The value of `GetSellValue` when the product is representable. -/
theorem getSellValue_exact (t : Tower) (h : InInt64 (t.Cost.toInt * t.Level.toInt)) :
    t.GetSellValue.2.toInt = Int.tdiv (t.Cost.toInt * t.Level.toInt) 2 := by
  show (t.Cost * t.Level / 2).toInt = _
  rw [GoInt.div_two_exact, GoInt.mul_exact _ _ h]

/-- C12, amended: neither accessor changes the tower; for every tower whose product
`Cost * Level` is representable as a Go `int`, `GetUpgradeCost` returns `Cost * Level` and
`GetSellValue` returns `Cost * Level` halved with truncation toward zero (for a non-negative
product `v` is the one integer with `2 v ≤ Cost * Level < 2 v + 2`). A level-1 Basic tower
has upgrade cost 50 and sell value 25, and after one `Upgrade` 100 and 50. -/
theorem upgradeCost_sellValue (t : Tower) (x y : ℚ) :
    t.GetUpgradeCost.1 = t ∧ t.GetSellValue.1 = t ∧
    (InInt64 (t.Cost.toInt * t.Level.toInt) →
      t.GetUpgradeCost.2.toInt = t.Cost.toInt * t.Level.toInt ∧
      t.GetSellValue.2.toInt = Int.tdiv (t.Cost.toInt * t.Level.toInt) 2 ∧
      (0 ≤ t.Cost.toInt * t.Level.toInt →
        2 * t.GetSellValue.2.toInt ≤ t.Cost.toInt * t.Level.toInt ∧
          t.Cost.toInt * t.Level.toInt < 2 * t.GetSellValue.2.toInt + 2) ∧
      (t.Cost.toInt * t.Level.toInt ≤ 0 →
        t.Cost.toInt * t.Level.toInt ≤ 2 * t.GetSellValue.2.toInt ∧
          2 * t.GetSellValue.2.toInt - 2 < t.Cost.toInt * t.Level.toInt)) ∧
    (NewBasicTower x y).GetUpgradeCost.2 = 50 ∧ (NewBasicTower x y).GetSellValue.2 = 25 ∧
    (NewBasicTower x y).Upgrade.2 = none ∧
    (NewBasicTower x y).Upgrade.1.GetUpgradeCost.2 = 100 ∧
    (NewBasicTower x y).Upgrade.1.GetSellValue.2 = 50 := by
  refine ⟨rfl, rfl, ?_, ?_, ?_, rfl, ?_, ?_⟩
  · intro h
    have hs := getSellValue_exact t h
    refine ⟨GoInt.mul_exact _ _ h, hs, ?_, ?_⟩
    · rw [hs]
      exact (tdiv_two_bounds _).1
    · rw [hs]
      exact (tdiv_two_bounds _).2
  · show (50 : GoInt) * 1 = 50
    decide
  · show (50 : GoInt) * 1 / 2 = 25
    decide
  · show (50 : GoInt) * (1 + 1) = 100
    decide
  · show (50 : GoInt) * (1 + 1) / 2 = 50
    decide

/-- C12 at a concrete input: the fresh Sniper tower (cost 100, level 1). -/
theorem upgradeCost_sellValue_witness :
    (NewSniperTower 0 0).GetUpgradeCost.2.toInt =
        (NewSniperTower 0 0).Cost.toInt * (NewSniperTower 0 0).Level.toInt ∧
      (NewSniperTower 0 0).GetSellValue.2.toInt =
        Int.tdiv ((NewSniperTower 0 0).Cost.toInt * (NewSniperTower 0 0).Level.toInt) 2 :=
  ⟨((upgradeCost_sellValue (NewSniperTower 0 0) 0 0).2.2.1 (by decide)).1,
    ((upgradeCost_sellValue (NewSniperTower 0 0) 0 0).2.2.1 (by decide)).2.1⟩

/-! ## UpgradeTower and SellTower -/

/-- A successful `Upgrade`: below level 3. -/
theorem upgrade_ok (t : Tower) (h : t.Level < 3) :
    t.Upgrade =
      ({ t with
          Level := t.Level + 1
          Damage := t.Damage + 5
          Range := roundFloat (t.Range + 20)
          FireRate := scaleDuration t.FireRate }, none) := by
  unfold Tower.Upgrade
  rw [if_neg ((GoInt.not_le _ _).mpr h)]

/-- A refused `Upgrade`: at level 3 or above the tower is returned as it was. -/
theorem upgrade_max (t : Tower) (h : t.Level ≥ 3) :
    t.Upgrade = (t, some "tower is already at maximum level") := by
  unfold Tower.Upgrade
  rw [if_pos h]

/-- `UpgradeTower` on a valid index, as the chain of its three tests. -/
theorem upgradeTower_at (gs : GameState) (index : Int) (t : Tower) (h0 : 0 ≤ index)
    (ht : gs.towers[index.toNat]? = some t) :
    gs.UpgradeTower index =
      if gs.money < t.Cost * t.Level then (gs, some "not enough money to upgrade tower")
      else if t.Level ≥ 3 then (gs, some "tower is already at maximum level")
      else
        ({ gs with
            towers := gs.towers.set index.toNat
              { t with
                Level := t.Level + 1
                Damage := t.Damage + 5
                Range := roundFloat (t.Range + 20)
                FireRate := scaleDuration t.FireRate }
            money := gs.money - t.Cost * t.Level }, none) := by
  obtain ⟨hlt, hget⟩ := getElem_of_getElem? _ _ _ ht
  have hrange : ¬ (index < 0 ∨ index ≥ (gs.towers.length : Int)) := by omega
  have hsame : gs.towers.set index.toNat t = gs.towers := by
    rw [← hget]
    exact set_getElem_same _ _ hlt
  unfold GameState.UpgradeTower
  rw [dif_neg hrange]
  simp only [hget, Tower.GetUpgradeCost, hsame]
  by_cases hm : gs.money < t.Cost * t.Level
  · simp only [hm, if_true]
  · simp only [hm, if_false]
    by_cases hl : t.Level ≥ 3
    · simp only [upgrade_max t hl, hl, if_true, hsame]
    · simp only [upgrade_ok t ((GoInt.not_le _ _).mp hl), hl, if_false, List.set_set]

/-- C7 as stated fails, in two ways. On the state with money 0 whose only tower has cost
`2^62` and level 2, the money is below `Cost * Level = 2^63`, yet that product wraps to
`-2^63`, the money test passes, `UpgradeTower` succeeds (level 3) and leaves the money
`-2^63`. And on the state with money `2^63 - 1` whose only tower has cost `-1` and level 1,
the upgrade succeeds and the difference `money - Cost * Level = 2^63` wraps: the money
becomes `-2^63`. -/
theorem upgradeTower_overflow_counterexample :
    (steepState.towers = [steepTower] ∧ steepState.money.toInt = 0 ∧
      steepState.money.toInt < steepTower.Cost.toInt * steepTower.Level.toInt ∧
      steepState.UpgradeTower 0 =
        ({ steepState with
            towers := [{ steepTower with
              Level := 3, Damage := 15, Range := 120, FireRate := 900000000 }]
            money := MinInt64 }, none)) ∧
    (rebateState.towers = [rebateTower] ∧ rebateState.money = MaxInt64 ∧
      rebateTower.Cost.toInt * rebateTower.Level.toInt = -1 ∧
      (rebateState.UpgradeTower 0).2 = none ∧
      (rebateState.UpgradeTower 0).1.money = MinInt64 ∧
      (rebateState.UpgradeTower 0).1.money.toInt ≠
        rebateState.money.toInt - rebateTower.Cost.toInt * rebateTower.Level.toInt) := by
  have hrebate : (rebateState.UpgradeTower 0).2 = none ∧
      (rebateState.UpgradeTower 0).1.money = MinInt64 := by
    rw [upgradeTower_at rebateState 0 rebateTower (le_refl 0) rfl]
    have hm : ¬ rebateState.money < rebateTower.Cost * rebateTower.Level := by decide
    have hl : ¬ rebateTower.Level ≥ 3 := by decide
    rw [if_neg hm, if_neg hl]
    refine ⟨rfl, ?_⟩
    show rebateState.money - rebateTower.Cost * rebateTower.Level = MinInt64
    decide
  refine ⟨⟨rfl, rfl, by decide, ?_⟩, rfl, rfl, by decide, hrebate.1, hrebate.2, ?_⟩
  rotate_left
  · rw [hrebate.2]
    decide
  rw [upgradeTower_at steepState 0 steepTower (le_refl 0) rfl]
  have hm : ¬ steepState.money < steepTower.Cost * steepTower.Level := by decide
  have hl : ¬ steepTower.Level ≥ 3 := by decide
  rw [if_neg hm, if_neg hl]
  have hmoney : steepState.money - steepTower.Cost * steepTower.Level = MinInt64 := by decide
  have hlevel : steepTower.Level + 1 = 3 := by decide
  have hdamage : steepTower.Damage + 5 = 15 := by decide
  have hrange : roundFloat (steepTower.Range + 20) = 120 := by
    have h := roundFloat_natCast 120 (by norm_num)
    have h2 : steepTower.Range + 20 = ((120 : Nat) : ℚ) := by
      show (100 : ℚ) + 20 = _
      norm_num
    rw [h2, h]
    norm_num
  have hrate : scaleDuration steepTower.FireRate = 900000000 := by decide
  rw [hmoney, hlevel, hdamage, hrange, hrate]
  rfl

/-- C7, amended: `UpgradeTower` fails, leaving the whole state (money and every tower) as it
was, when the index is out of range; for a tower at the index whose product `Cost * Level`
is representable as a Go `int`, it fails in the same way when the money is below
`Cost * Level` or when the tower is at the level cap (`Level ≥ 3`), and in the remaining
case it succeeds: the tower at the index gets level + 1 (and damage + 5, the `float64` sum
range + 20, the fire interval scaled by 0.9), the number of towers is unchanged, and the
money becomes
`money - Cost * Level`, which is the mathematical difference whenever that is
representable. -/
theorem upgradeTower_spec (gs : GameState) (index : Int) :
    ((index < 0 ∨ index ≥ (gs.towers.length : Int)) →
      gs.UpgradeTower index = (gs, some "invalid tower index")) ∧
    (∀ t : Tower, 0 ≤ index → gs.towers[index.toNat]? = some t →
      InInt64 (t.Cost.toInt * t.Level.toInt) →
      (gs.money.toInt < t.Cost.toInt * t.Level.toInt →
        gs.UpgradeTower index = (gs, some "not enough money to upgrade tower")) ∧
      (gs.money.toInt ≥ t.Cost.toInt * t.Level.toInt → t.Level ≥ 3 →
        gs.UpgradeTower index = (gs, some "tower is already at maximum level")) ∧
      (gs.money.toInt ≥ t.Cost.toInt * t.Level.toInt → t.Level < 3 →
        gs.UpgradeTower index =
          ({ gs with
              towers := gs.towers.set index.toNat
                { t with
                  Level := t.Level + 1
                  Damage := t.Damage + 5
                  Range := roundFloat (t.Range + 20)
                  FireRate := scaleDuration t.FireRate }
              money := gs.money - t.Cost * t.Level }, none) ∧
        (t.Level + 1).toInt = t.Level.toInt + 1 ∧
        (InInt64 (gs.money.toInt - t.Cost.toInt * t.Level.toInt) →
          (gs.money - t.Cost * t.Level).toInt =
            gs.money.toInt - t.Cost.toInt * t.Level.toInt) ∧
        (gs.UpgradeTower index).1.towers.length = gs.towers.length)) := by
  refine ⟨?_, ?_⟩
  · intro hi
    unfold GameState.UpgradeTower
    rw [dif_pos hi]
  · intro t hi ht hfit
    have hprod := GoInt.mul_exact t.Cost t.Level hfit
    have hat := upgradeTower_at gs index t hi ht
    refine ⟨?_, ?_, ?_⟩
    · intro hm
      have hm2 : gs.money < t.Cost * t.Level := by
        rw [GoInt.lt_def, hprod]
        exact hm
      rw [hat, if_pos hm2]
    · intro hm hl
      have hm2 : ¬ gs.money < t.Cost * t.Level := by
        rw [GoInt.lt_def, hprod]
        omega
      rw [hat, if_neg hm2, if_pos hl]
    · intro hm hl
      have hm2 : ¬ gs.money < t.Cost * t.Level := by
        rw [GoInt.lt_def, hprod]
        omega
      have hl2 : ¬ t.Level ≥ 3 := (GoInt.not_le _ _).mpr hl
      rw [hat, if_neg hm2, if_neg hl2]
      refine ⟨rfl, ?_, ?_, ?_⟩
      · have h3 : (3 : GoInt).toInt = 3 := rfl
        have h1 : (1 : GoInt).toInt = 1 := rfl
        have hl3 : t.Level.toInt < 3 := by
          have := (GoInt.lt_def _ _).mp hl
          rw [h3] at this
          exact this
        have hge := t.Level.toInt_ge
        rw [GoInt.toInt_add, h1]
        omega
      · intro hfit2
        rw [GoInt.toInt_sub, hprod]
        unfold InInt64 at hfit2
        omega
      · simp

/-- C7 at concrete inputs: on the state with one Basic tower and money 950 the upgrade of
tower 0 succeeds; an index out of range fails. -/
theorem upgradeTower_spec_witness :
    (oneTowerState.UpgradeTower 0 =
        ({ oneTowerState with
            towers := oneTowerState.towers.set (0 : Int).toNat
              { NewBasicTower 100 100 with
                Level := (NewBasicTower 100 100).Level + 1
                Damage := (NewBasicTower 100 100).Damage + 5
                Range := roundFloat ((NewBasicTower 100 100).Range + 20)
                FireRate := scaleDuration (NewBasicTower 100 100).FireRate }
            money := oneTowerState.money -
              (NewBasicTower 100 100).Cost * (NewBasicTower 100 100).Level }, none) ∧
      ((NewBasicTower 100 100).Level + 1).toInt = (NewBasicTower 100 100).Level.toInt + 1 ∧
      (InInt64 (oneTowerState.money.toInt -
          (NewBasicTower 100 100).Cost.toInt * (NewBasicTower 100 100).Level.toInt) →
        (oneTowerState.money -
            (NewBasicTower 100 100).Cost * (NewBasicTower 100 100).Level).toInt =
          oneTowerState.money.toInt -
            (NewBasicTower 100 100).Cost.toInt * (NewBasicTower 100 100).Level.toInt) ∧
      (oneTowerState.UpgradeTower 0).1.towers.length = oneTowerState.towers.length) ∧
    oneTowerState.UpgradeTower 1 = (oneTowerState, some "invalid tower index") :=
  ⟨((upgradeTower_spec oneTowerState 0).2 (NewBasicTower 100 100) (le_refl 0) rfl
      (by decide)).2.2 (by decide) (by decide),
    (upgradeTower_spec oneTowerState 1).1 (Or.inr (by decide))⟩

/-- `SellTower` on a valid index. -/
theorem sellTower_at (gs : GameState) (index : Int) (t : Tower) (h0 : 0 ≤ index)
    (ht : gs.towers[index.toNat]? = some t) :
    gs.SellTower index =
      ({ gs with
          money := gs.money + t.Cost * t.Level / 2
          towers := swapRemove gs.towers index.toNat }, none) := by
  obtain ⟨hlt, hget⟩ := getElem_of_getElem? _ _ _ ht
  have hrange : ¬ (index < 0 ∨ index ≥ (gs.towers.length : Int)) := by omega
  have hsame : gs.towers.set index.toNat t = gs.towers := by
    rw [← hget]
    exact set_getElem_same _ _ hlt
  unfold GameState.SellTower
  rw [dif_neg hrange]
  simp only [hget, Tower.GetSellValue, hsame]

/-- C8 as stated fails, in two ways. On the state with money 1000 whose only tower has
cost `2^63 - 1` and level 2, `Cost * Level / 2` is `2^63 - 1`, yet the product wraps to
`-2`, `SellTower` credits `-1` and leaves the money 999. And on the state of
`TestSellTower` (one Basic tower, sell value 25) after `SetMoney(2^63 - 1)` the sum
`money + 25` wraps: the money falls to `-2^63 + 24`. -/
theorem sellTower_overflow_counterexample :
    (dearState.towers = [dearTower] ∧ dearState.money.toInt = 1000 ∧
      Int.tdiv (dearTower.Cost.toInt * dearTower.Level.toInt) 2 = 9223372036854775807 ∧
      dearState.SellTower 0 = ({ dearState with money := 999, towers := [] }, none)) ∧
    (richTowerState.towers = [NewBasicTower 100 100] ∧ richTowerState.money = MaxInt64 ∧
      Int.tdiv ((NewBasicTower 100 100).Cost.toInt * (NewBasicTower 100 100).Level.toInt) 2 =
        25 ∧
      (richTowerState.SellTower 0).2 = none ∧
      (richTowerState.SellTower 0).1.towers = [] ∧
      (richTowerState.SellTower 0).1.money.toInt = -9223372036854775784 ∧
      (richTowerState.SellTower 0).1.money.toInt ≠ richTowerState.money.toInt + 25) := by
  have htowers : richTowerState.towers = [NewBasicTower 100 100] := by
    have hm : ¬ ((1000 : GoInt) < 50) := by decide
    simp [richTowerState, oneTowerState, GameState.SetMoney, GameState.AddTower, NewGameState,
      defaultTowerCosts, hm]
  have hsell := sellTower_at richTowerState 0 (NewBasicTower 100 100) (le_refl 0)
    (by rw [htowers]; rfl)
  have hmoney : richTowerState.money +
      (NewBasicTower 100 100).Cost * (NewBasicTower 100 100).Level / 2 = MinInt64 + 24 := by
    show MaxInt64 + (50 : GoInt) * 1 / 2 = MinInt64 + 24
    decide
  rw [hmoney, htowers] at hsell
  refine ⟨⟨rfl, rfl, by decide, ?_⟩, htowers, rfl, by decide, ?_, ?_, ?_, ?_⟩
  rotate_left
  · rw [hsell]
  · rw [hsell]
    rfl
  · rw [hsell]
    decide
  · rw [hsell]
    decide
  rw [sellTower_at dearState 0 dearTower (le_refl 0) rfl]
  have hmoney : dearState.money + dearTower.Cost * dearTower.Level / 2 = 999 := by decide
  rw [hmoney]
  rfl

/-- C8, amended: for a valid index holding tower `t`, `SellTower` succeeds, the towers
become the old list with the slot at the index overwritten by the last tower and the last
slot dropped (one tower fewer), and the money becomes `money + Cost * Level / 2` in the
arithmetic of Go's `int`: when `Cost * Level` is representable the amount credited is that
product halved with truncation, and when the sum is representable too the money grows by
exactly that amount; for an index out of range it fails and the whole state is as it was. -/
theorem sellTower_spec (gs : GameState) (index : Int) :
    (∀ t : Tower, 0 ≤ index → gs.towers[index.toNat]? = some t →
      ∃ last, gs.towers.getLast? = some last ∧
        gs.SellTower index =
          ({ gs with
              money := gs.money + t.Cost * t.Level / 2
              towers := (gs.towers.set index.toNat last).dropLast }, none) ∧
        ((gs.towers.set index.toNat last).dropLast).length + 1 = gs.towers.length ∧
        (InInt64 (t.Cost.toInt * t.Level.toInt) →
          (t.Cost * t.Level / 2).toInt = Int.tdiv (t.Cost.toInt * t.Level.toInt) 2 ∧
          (InInt64 (gs.money.toInt + Int.tdiv (t.Cost.toInt * t.Level.toInt) 2) →
            (gs.money + t.Cost * t.Level / 2).toInt =
              gs.money.toInt + Int.tdiv (t.Cost.toInt * t.Level.toInt) 2))) ∧
    ((index < 0 ∨ index ≥ (gs.towers.length : Int)) →
      gs.SellTower index = (gs, some "invalid tower index")) := by
  refine ⟨?_, ?_⟩
  · intro t hi ht
    obtain ⟨hlt, hget⟩ := getElem_of_getElem? _ _ _ ht
    have hne : gs.towers ≠ [] := by
      intro h0
      simp [h0] at hlt
    refine ⟨gs.towers.getLast hne, List.getLast?_eq_getLast _ hne, ?_, ?_, ?_⟩
    · rw [sellTower_at gs index t hi ht,
        swapRemove_eq _ _ _ (List.getLast?_eq_getLast _ hne)]
    · simp only [List.length_dropLast, List.length_set]
      omega
    · intro hfit
      have hv := getSellValue_exact t hfit
      have hv2 : (t.Cost * t.Level / 2).toInt = Int.tdiv (t.Cost.toInt * t.Level.toInt) 2 := hv
      refine ⟨hv2, ?_⟩
      intro hfit2
      rw [← hv2] at hfit2 ⊢
      exact GoInt.add_exact _ _ hfit2
  · intro hi
    unfold GameState.SellTower
    rw [dif_pos hi]

/-- The state after three purchases holds the three towers in purchase order. -/
theorem threeTowerState_eq :
    threeTowerState =
      { NewGameState with
        towers := [NewBasicTower 0 0, NewSniperTower 10 0, NewAOETower 20 0]
        money := 700 } := by
  have h1 : NewGameState.AddTower BasicTower 0 0 =
      ({ NewGameState with towers := [NewBasicTower 0 0], money := 950 }, none) := by
    have hm : ¬ ((1000 : GoInt) < 50) := by decide
    have hs : (1000 : GoInt) - 50 = 950 := by decide
    simp [GameState.AddTower, NewGameState, defaultTowerCosts, hm, hs]
  have h2 : GameState.AddTower { NewGameState with towers := [NewBasicTower 0 0], money := 950 }
      SniperTower 10 0 =
      ({ NewGameState with towers := [NewBasicTower 0 0, NewSniperTower 10 0], money := 850 },
        none) := by
    have hm : ¬ ((950 : GoInt) < 100) := by decide
    have hs : (950 : GoInt) - 100 = 850 := by decide
    simp [GameState.AddTower, NewGameState, defaultTowerCosts, SniperTower, BasicTower, hm, hs]
  have h3 : GameState.AddTower
      { NewGameState with towers := [NewBasicTower 0 0, NewSniperTower 10 0], money := 850 }
      AOETower 20 0 =
      ({ NewGameState with
          towers := [NewBasicTower 0 0, NewSniperTower 10 0, NewAOETower 20 0]
          money := 700 }, none) := by
    have hm : ¬ ((850 : GoInt) < 150) := by decide
    have hs : (850 : GoInt) - 150 = 700 := by decide
    simp [GameState.AddTower, NewGameState, defaultTowerCosts, SniperTower, BasicTower, AOETower,
      hm, hs]
  unfold threeTowerState
  rw [h1]
  simp only
  rw [h2]
  simp only
  rw [h3]

/-- C8 at concrete inputs: selling tower 0 of three (the last tower takes its slot), and
selling at index 1 of the one-tower state. -/
theorem sellTower_spec_witness :
    (∃ last, threeTowerState.towers.getLast? = some last ∧
        threeTowerState.SellTower 0 =
          ({ threeTowerState with
              money := threeTowerState.money +
                (NewBasicTower 0 0).Cost * (NewBasicTower 0 0).Level / 2
              towers := (threeTowerState.towers.set (0 : Int).toNat last).dropLast }, none) ∧
        ((threeTowerState.towers.set (0 : Int).toNat last).dropLast).length + 1 =
          threeTowerState.towers.length ∧
        (InInt64 ((NewBasicTower 0 0).Cost.toInt * (NewBasicTower 0 0).Level.toInt) →
          ((NewBasicTower 0 0).Cost * (NewBasicTower 0 0).Level / 2).toInt =
            Int.tdiv ((NewBasicTower 0 0).Cost.toInt * (NewBasicTower 0 0).Level.toInt) 2 ∧
          (InInt64 (threeTowerState.money.toInt +
              Int.tdiv ((NewBasicTower 0 0).Cost.toInt * (NewBasicTower 0 0).Level.toInt) 2) →
            (threeTowerState.money +
                (NewBasicTower 0 0).Cost * (NewBasicTower 0 0).Level / 2).toInt =
              threeTowerState.money.toInt +
                Int.tdiv ((NewBasicTower 0 0).Cost.toInt * (NewBasicTower 0 0).Level.toInt) 2))) ∧
    oneTowerState.SellTower 1 = (oneTowerState, some "invalid tower index") :=
  ⟨(sellTower_spec threeTowerState 0).1 (NewBasicTower 0 0) (le_refl 0)
      (by rw [threeTowerState_eq]; rfl),
    (sellTower_spec oneTowerState 1).2 (Or.inr (by decide))⟩

/-- Selling tower 0 of three, evaluated: the AOE tower, formerly last, now sits in slot 0,
and the money is 700 + 25. -/
theorem sellTower_three :
    threeTowerState.SellTower 0 =
      ({ NewGameState with
          towers := [NewAOETower 20 0, NewSniperTower 10 0]
          money := 725 }, none) := by
  rw [sellTower_at threeTowerState 0 (NewBasicTower 0 0) (le_refl 0)
    (by rw [threeTowerState_eq]; rfl), threeTowerState_eq]
  have hm : (700 : GoInt) + (NewBasicTower 0 0).Cost * (NewBasicTower 0 0).Level / 2 = 725 := by
    decide
  simp only [hm]
  rfl

/-! ## LoseLife and the pause gate -/

/-- C17 as stated fails: on the fresh state (100 lives) `LoseLife` with the least Go `int`
`-2^63` wraps the subtraction to a negative number and leaves 0 lives, while
`max 0 (lives - amount)` is `2^63 + 100`. -/
theorem loseLife_overflow_counterexample :
    NewGameState.lives.toInt = 100 ∧ (NewGameState.LoseLife MinInt64).lives.toInt = 0 ∧
    max 0 (NewGameState.lives.toInt - MinInt64.toInt) = 9223372036854775908 ∧
    (NewGameState.LoseLife MinInt64).lives.toInt ≠
      max 0 (NewGameState.lives.toInt - MinInt64.toInt) := by
  decide

/-- `LoseLife` in one equation. -/
theorem loseLife_eq (gs : GameState) (amount : GoInt) :
    gs.LoseLife amount =
      { gs with lives := if gs.lives - amount < 0 then 0 else gs.lives - amount } := by
  unfold GameState.LoseLife
  by_cases h : gs.lives - amount < 0 <;> simp [h]

/-- C17, amended: for every state and every amount for which `lives - amount` is
representable as a Go `int`, `LoseLife` leaves `lives = max 0 (lives - amount)`; for every
amount at all the lives it leaves are never below 0 and no other field changes;
`IsGameOver` is true exactly when `lives ≤ 0`: false on the fresh state, true on the fresh
state after `LoseLife(100)`. -/
theorem loseLife_spec (gs : GameState) (amount : GoInt) :
    (InInt64 (gs.lives.toInt - amount.toInt) →
      (gs.LoseLife amount).lives.toInt = max 0 (gs.lives.toInt - amount.toInt)) ∧
    gs.LoseLife amount = { gs with lives := (gs.LoseLife amount).lives } ∧
    0 ≤ (gs.LoseLife amount).lives ∧
    (gs.IsGameOver = true ↔ gs.lives ≤ 0) ∧
    NewGameState.IsGameOver = false ∧ (NewGameState.LoseLife 100).IsGameOver = true := by
  have h0 : (0 : GoInt).toInt = 0 := rfl
  refine ⟨?_, ?_, ?_, ?_, by decide, by decide⟩
  · intro hfit
    have hsub := GoInt.sub_exact gs.lives amount hfit
    rw [loseLife_eq]
    show (if gs.lives - amount < 0 then (0 : GoInt) else gs.lives - amount).toInt = _
    by_cases h : gs.lives - amount < 0
    · rw [if_pos h]
      rw [GoInt.lt_def, hsub, h0] at h
      rw [max_eq_left (le_of_lt h)]
      rfl
    · rw [if_neg h]
      rw [GoInt.lt_def, hsub, h0] at h
      rw [hsub, max_eq_right (not_lt.mp h)]
  · rw [loseLife_eq]
  · rw [loseLife_eq]
    show (0 : GoInt) ≤ if gs.lives - amount < 0 then 0 else gs.lives - amount
    by_cases h : gs.lives - amount < 0
    · rw [if_pos h]
      exact GoInt.le_refl 0
    · rw [if_neg h]
      exact (GoInt.not_lt _ _).mp h
  · simp [GameState.IsGameOver]

/-- C17 at a concrete input: the fresh state after `LoseLife(30)` has 70 lives. -/
theorem loseLife_spec_witness :
    (NewGameState.LoseLife 30).lives.toInt = max 0 (NewGameState.lives.toInt - 30) :=
  (loseLife_spec NewGameState 30).1 (by decide)

/-- C18: on a paused state `Update` returns the state it was given: towers (their
`LastFired` included), enemies, lives, money and wave are all unchanged and no wave is
spawned, whatever the clock and whether or not there are enemies. -/
theorem update_paused (gs : GameState) (clock : Nat → Int) (hp : gs.paused = true) :
    gs.Update clock = some gs := by
  unfold GameState.Update
  rw [if_pos hp]

/-- C18 at a concrete input: the paused fresh state, whose enemy collection is empty. -/
theorem update_paused_witness :
    pausedEmptyState.enemies = [] ∧ pausedEmptyState.Update lateClock = some pausedEmptyState :=
  ⟨rfl, update_paused pausedEmptyState lateClock rfl⟩

/-! ## NextWave -/

/-- The spawn loop appends `n` copies of the enemy built for the current wave. -/
theorem spawnLoop_eq (n : Nat) (gs : GameState) (p : BaseEntity) (rest : List BaseEntity)
    (hp : gs.enemyPath = p :: rest) :
    gs.spawnLoop n =
      some { gs with
        enemies := gs.enemies ++ List.replicate n (waveEnemy gs.wave p gs.enemyPath) } := by
  induction n generalizing gs with
  | zero => simp [GameState.spawnLoop]
  | succ n ih =>
    have hnew : NewEnemy (50 + gs.wave * 10) (10 + gs.wave) (1 + gs.wave / 5)
        (roundFloat (1 + roundFloat (roundFloat (gs.wave.toInt : ℚ) / 10))) gs.enemyPath =
        some (waveEnemy gs.wave p gs.enemyPath) := by
      rw [hp]
      rfl
    simp only [GameState.spawnLoop, hnew]
    rw [ih { gs with enemies := gs.enemies ++ [waveEnemy gs.wave p gs.enemyPath] } hp]
    simp [List.replicate_succ]

theorem nextWave_eq (gs : GameState) (p : BaseEntity) (rest : List BaseEntity)
    (hp : gs.enemyPath = p :: rest) :
    gs.NextWave =
      some { gs with
        wave := gs.wave + 1
        enemies := gs.enemies ++
          List.replicate ((gs.wave + 1) * 2).toInt.toNat
            (waveEnemy (gs.wave + 1) p gs.enemyPath) } := by
  unfold GameState.NextWave GameState.spawnEnemiesForWave
  exact spawnLoop_eq _ { gs with wave := gs.wave + 1 } p rest hp

/-- The number of enemies spawned at wave `w` when `2 * w` is representable. -/
theorem spawn_count (w : GoInt) (h : InInt64 (2 * w.toInt)) : (w * 2).toInt = 2 * w.toInt := by
  have h2 : (2 : GoInt).toInt = 2 := rfl
  unfold InInt64 at h
  rw [GoInt.toInt_mul, h2]
  omega

/-- The stats of the enemy built at wave `w` when `50 + 10 * w` is representable. -/
theorem waveEnemy_stats (w : GoInt) (start : BaseEntity) (path : List BaseEntity)
    (h : InInt64 (50 + 10 * w.toInt)) :
    (waveEnemy w start path).Health.toInt = 50 + 10 * w.toInt ∧
    (waveEnemy w start path).MaxHealth.toInt = 50 + 10 * w.toInt ∧
    (waveEnemy w start path).Reward.toInt = 10 + w.toInt ∧
    (waveEnemy w start path).Damage.toInt = 1 + Int.tdiv w.toInt 5 := by
  have h50 : (50 : GoInt).toInt = 50 := rfl
  have h10 : (10 : GoInt).toInt = 10 := rfl
  have h1 : (1 : GoInt).toInt = 1 := rfl
  unfold InInt64 at h
  have hhealth : ((50 : GoInt) + w * 10).toInt = 50 + 10 * w.toInt := by
    rw [GoInt.toInt_add, GoInt.toInt_mul, h50, h10]
    omega
  have hreward : ((10 : GoInt) + w).toInt = 10 + w.toInt := by
    rw [GoInt.toInt_add, h10]
    omega
  have hdamage : ((1 : GoInt) + w / 5).toInt = 1 + Int.tdiv w.toInt 5 := by
    rw [GoInt.toInt_add, GoInt.div_five_exact, h1]
    by_cases h0 : 0 ≤ w.toInt
    · rw [Int.tdiv_eq_ediv h0 (by decide)]
      omega
    · have hneg : Int.tdiv w.toInt 5 = -((-w.toInt) / 5) := by
        rw [← Int.tdiv_eq_ediv (by omega) (by decide), Int.neg_tdiv, neg_neg]
      rw [hneg]
      omega
  exact ⟨hhealth, hhealth, hreward, hdamage⟩

/-- C9 as stated fails: on the fresh state after `SetWave(2^62 - 1)` the wave is not
negative and the path is not empty; `NextWave` raises the wave to `2^62`, the number
`wave * 2 = 2^63` of enemies to spawn wraps to `-2^63`, and no enemy is added, where the
claim has `2 * 2^62` of them. -/
theorem nextWave_overflow_counterexample :
    (NewGameState.SetWave 4611686018427387903).wave ≥ 0 ∧
    (NewGameState.SetWave 4611686018427387903).enemyPath ≠ [] ∧
    (NewGameState.SetWave 4611686018427387903).enemies = [] ∧
    (NewGameState.SetWave 4611686018427387903).NextWave =
      some (NewGameState.SetWave 4611686018427387904) ∧
    (NewGameState.SetWave 4611686018427387904).enemies = [] ∧
    (NewGameState.SetWave 4611686018427387904).wave.toInt = 4611686018427387904 := by
  refine ⟨by decide, by decide, rfl, ?_, rfl, by decide⟩
  rw [nextWave_eq _ ⟨0, 300⟩ _ rfl]
  have hcount : (((NewGameState.SetWave 4611686018427387903).wave + 1) * 2).toInt.toNat = 0 := by
    decide
  have hwave : (NewGameState.SetWave 4611686018427387903).wave + 1 = 4611686018427387904 := by
    decide
  rw [hcount, hwave]
  rfl

/-- C9, amended: on a state with `0 ≤ wave < 2^62 - 1` (so that twice the next wave is
representable as a Go `int`) and a non-empty path, `NextWave` returns, raises the wave by
exactly 1, keeps every enemy that was present and appends exactly `2 * (wave + 1)` new
ones, and leaves towers, money, lives and the pause flag as they were. -/
theorem nextWave_count (gs : GameState) (hw : gs.wave ≥ 0)
    (hmax : gs.wave.toInt < 4611686018427387903) (hp : gs.enemyPath ≠ []) :
    ∃ gs1 spawned, gs.NextWave = some gs1 ∧
      gs1.wave.toInt = gs.wave.toInt + 1 ∧
      gs1.enemies = gs.enemies ++ spawned ∧
      (spawned.length : Int) = 2 * gs1.wave.toInt ∧
      (gs1.enemies.length : Int) = gs.enemies.length + 2 * gs1.wave.toInt ∧
      gs1.towers = gs.towers ∧ gs1.money = gs.money ∧ gs1.lives = gs.lives ∧
      gs1.paused = gs.paused := by
  have h0 : (0 : GoInt).toInt = 0 := rfl
  have h1 : (1 : GoInt).toInt = 1 := rfl
  have hw0 : 0 ≤ gs.wave.toInt := by
    have := (GoInt.le_def _ _).mp hw
    rw [h0] at this
    exact this
  have hinc : (gs.wave + 1).toInt = gs.wave.toInt + 1 := by
    rw [GoInt.toInt_add, h1]
    omega
  have hcount : ((gs.wave + 1) * 2).toInt = 2 * (gs.wave.toInt + 1) := by
    rw [spawn_count _ (by unfold InInt64; rw [hinc]; omega), hinc]
  cases hpath : gs.enemyPath with
  | nil => exact absurd hpath hp
  | cons p rest =>
    refine ⟨_, _, (nextWave_eq gs p rest hpath), hinc, rfl, ?_, ?_, rfl, rfl, rfl, rfl⟩
    · simp only [List.length_replicate]
      rw [hcount, hinc]
      omega
    · simp only [List.length_append, List.length_replicate]
      rw [hcount, hinc]
      push_cast
      omega

/-- C9 at a concrete input: the fresh state. -/
theorem nextWave_count_witness :
    ∃ gs1 spawned, NewGameState.NextWave = some gs1 ∧
      gs1.wave.toInt = NewGameState.wave.toInt + 1 ∧
      gs1.enemies = NewGameState.enemies ++ spawned ∧
      (spawned.length : Int) = 2 * gs1.wave.toInt ∧
      (gs1.enemies.length : Int) = NewGameState.enemies.length + 2 * gs1.wave.toInt ∧
      gs1.towers = NewGameState.towers ∧ gs1.money = NewGameState.money ∧
      gs1.lives = NewGameState.lives ∧ gs1.paused = NewGameState.paused :=
  nextWave_count NewGameState (by decide) (by decide) (by decide)

/-- C10 as stated fails: on the fresh state after `SetWave(-2^63)` the post-increment wave
is `w = -2^63 + 1`; `w * 2` wraps to 2 and `50 + w * 10` wraps to 60, so `NextWave` spawns
two enemies of health 60, which is not `50 + 10 * w`. And the speed is a `float64`: on the
fresh state the enemies of wave 1 have the speed `2476979795053773 / 2^51`, the `float64`
nearest to 1.1, not the number `1 + 1 / 10`. -/
theorem nextWave_stats_counterexample :
    (∃ gs1 e, (NewGameState.SetWave MinInt64).NextWave = some gs1 ∧
      gs1.wave.toInt = -9223372036854775807 ∧ gs1.enemies = [e, e] ∧
      e.Health.toInt = 60 ∧ e.Health.toInt ≠ 50 + 10 * gs1.wave.toInt) ∧
    (∃ gs1 e, NewGameState.NextWave = some gs1 ∧ gs1.wave.toInt = 1 ∧ gs1.enemies = [e, e] ∧
      e.Speed = 2476979795053773 / 2251799813685248 ∧ e.Speed ≠ 1 + 1 / 10) := by
  refine ⟨⟨_, waveEnemy (MinInt64 + 1) ⟨0, 300⟩ defaultEnemyPath,
    nextWave_eq _ ⟨0, 300⟩ _ rfl, by decide, ?_, by decide, by decide⟩, ?_⟩
  · have hcount : (((NewGameState.SetWave MinInt64).wave + 1) * 2).toInt.toNat = 2 := by
      decide
    show [] ++ List.replicate
      (((NewGameState.SetWave MinInt64).wave + 1) * 2).toInt.toNat _ = _
    rw [hcount]
    rfl
  · have hspeed : (waveEnemy (NewGameState.wave + 1) ⟨0, 300⟩ defaultEnemyPath).Speed =
        2476979795053773 / 2251799813685248 := by
      have hw : (NewGameState.wave + 1).toInt = 1 := by decide
      show roundFloat (1 + roundFloat
        (roundFloat (((NewGameState.wave + 1).toInt : Int) : ℚ) / 10)) = _
      rw [hw, roundFloat_eleven_tenths.2, roundFloat_eleven_tenths.1]
    refine ⟨_, waveEnemy (NewGameState.wave + 1) ⟨0, 300⟩ defaultEnemyPath,
      nextWave_eq _ ⟨0, 300⟩ _ rfl, by decide, ?_, hspeed, ?_⟩
    · have hcount : ((NewGameState.wave + 1) * 2).toInt.toNat = 2 := by decide
      show [] ++ List.replicate ((NewGameState.wave + 1) * 2).toInt.toNat _ = _
      rw [hcount]
      rfl
    · rw [hspeed]
      norm_num

/-- C10, amended: on a path whose first waypoint is `p`, when the post-increment wave `w`
is such that `50 + 10 * w` is representable as a Go `int`, `NextWave` returns a state of
wave `w` whose new enemies are `2 * w` copies of one enemy with health = maximal health =
`50 + 10 * w`, reward `10 + w`, damage `1 + w / 5` (truncating), speed the `float64` value
of `1.0 + float64(w)/10.0` (within `(1 + |w|) / 2^53` of `1 + w / 10`), path index 0,
standing on `p`; and on the fresh state (no towers, no enemies, 100 lives, 1000 money,
wave 0, unpaused, 8 waypoints) it yields wave 1 with exactly two enemies of health 60,
speed the `float64` `1.1`, reward 11 and damage 1. -/
theorem nextWave_stats :
    (∀ (gs : GameState) (p : BaseEntity) (rest : List BaseEntity) (w : Int),
      gs.enemyPath = p :: rest → w = (gs.wave + 1).toInt → InInt64 (50 + 10 * w) →
      ∃ gs1 e, gs.NextWave = some gs1 ∧ gs1.wave.toInt = w ∧
        gs1.enemies = gs.enemies ++ List.replicate (2 * w).toNat e ∧
        e.Health.toInt = 50 + 10 * w ∧ e.MaxHealth.toInt = 50 + 10 * w ∧
        e.Reward.toInt = 10 + w ∧ e.Damage.toInt = 1 + Int.tdiv w 5 ∧
        e.Speed = roundFloat (1 + roundFloat (roundFloat (w : ℚ) / 10)) ∧
        |e.Speed - (1 + (w : ℚ) / 10)| ≤ (1 + |(w : ℚ)|) / 9007199254740992 ∧
        e.PathIndex = 0 ∧ e.X = p.X ∧ e.Y = p.Y ∧ e.Path = gs.enemyPath) ∧
    (NewGameState.towers = [] ∧ NewGameState.enemies = [] ∧ NewGameState.lives = 100 ∧
      NewGameState.money = 1000 ∧ NewGameState.wave = 0 ∧ NewGameState.paused = false ∧
      NewGameState.enemyPath.length = 8 ∧
      ∃ gs1, NewGameState.NextWave = some gs1 ∧ gs1.wave = 1 ∧
        gs1.enemies =
          [{ X := 0, Y := 300, Health := 60, MaxHealth := 60, Speed := roundFloat (11 / 10),
             Reward := 11, Damage := 1, PathIndex := 0, Path := defaultEnemyPath },
           { X := 0, Y := 300, Health := 60, MaxHealth := 60, Speed := roundFloat (11 / 10),
             Reward := 11, Damage := 1, PathIndex := 0, Path := defaultEnemyPath }]) := by
  refine ⟨?_, rfl, rfl, rfl, rfl, rfl, rfl, rfl, ?_⟩
  · intro gs p rest w hp hw hfit
    subst hw
    obtain ⟨h1, h2, h3, h4⟩ := waveEnemy_stats (gs.wave + 1) p gs.enemyPath hfit
    have hcount : ((gs.wave + 1) * 2).toInt = 2 * (gs.wave + 1).toInt :=
      spawn_count _ (by unfold InInt64 at hfit ⊢; omega)
    refine ⟨_, waveEnemy (gs.wave + 1) p gs.enemyPath, nextWave_eq gs p rest hp, rfl, ?_, h1,
      h2, h3, h4, rfl, spawnSpeed_error _, rfl, rfl, rfl, rfl⟩
    show gs.enemies ++ List.replicate ((gs.wave + 1) * 2).toInt.toNat _ = _
    rw [hcount]
  · refine ⟨_, nextWave_eq NewGameState ⟨0, 300⟩ _ rfl, by decide, ?_⟩
    have h2 : ((NewGameState.wave + 1) * 2).toInt.toNat = 2 := by decide
    show [] ++ List.replicate ((NewGameState.wave + 1) * 2).toInt.toNat _ = _
    rw [h2]
    have he : waveEnemy (NewGameState.wave + 1) ⟨0, 300⟩ NewGameState.enemyPath =
        { X := 0, Y := 300, Health := 60, MaxHealth := 60, Speed := roundFloat (11 / 10),
          Reward := 11, Damage := 1, PathIndex := 0, Path := defaultEnemyPath } := by
      have hh : (50 : GoInt) + (NewGameState.wave + 1) * 10 = 60 := by decide
      have hr : (10 : GoInt) + (NewGameState.wave + 1) = 11 := by decide
      have hd : (1 : GoInt) + (NewGameState.wave + 1) / 5 = 1 := by decide
      have hs : roundFloat (1 + roundFloat
          (roundFloat (((NewGameState.wave + 1).toInt : Int) : ℚ) / 10)) =
          roundFloat (11 / 10) := by
        have hw : (NewGameState.wave + 1).toInt = 1 := by decide
        rw [hw]
        exact roundFloat_eleven_tenths.2
      unfold waveEnemy
      rw [hh, hr, hd, hs]
      rfl
    rw [he]
    rfl

/-- C10 at a concrete input: the state of wave 4 after one `NextWave`, wave 5. -/
theorem nextWave_stats_witness :
    ∃ gs1 e, (NewGameState.SetWave 4).NextWave = some gs1 ∧ gs1.wave.toInt = 5 ∧
      gs1.enemies = (NewGameState.SetWave 4).enemies ++ List.replicate (2 * (5 : Int)).toNat e ∧
      e.Health.toInt = 50 + 10 * 5 ∧ e.MaxHealth.toInt = 50 + 10 * 5 ∧
      e.Reward.toInt = 10 + 5 ∧ e.Damage.toInt = 1 + Int.tdiv 5 5 ∧
      e.Speed = roundFloat (1 + roundFloat (roundFloat ((5 : Int) : ℚ) / 10)) ∧
      |e.Speed - (1 + ((5 : Int) : ℚ) / 10)| ≤ (1 + |((5 : Int) : ℚ)|) / 9007199254740992 ∧
      e.PathIndex = 0 ∧
      e.X = (⟨0, 300⟩ : BaseEntity).X ∧ e.Y = (⟨0, 300⟩ : BaseEntity).Y ∧
      e.Path = (NewGameState.SetWave 4).enemyPath :=
  nextWave_stats.1 (NewGameState.SetWave 4) ⟨0, 300⟩ defaultEnemyPath.tail 5 rfl (by decide)
    (by decide)

/-! ## Move -/

/-- The model of `math.Sqrt` is exact on the square of a non-negative rational. -/
theorem mathSqrt_mul_self (q : ℚ) (h : 0 ≤ q) : mathSqrt (q * q) = q := by
  unfold mathSqrt
  rw [Rat.mul_self_num, Rat.mul_self_den]
  have hn : 0 ≤ q.num := Rat.num_nonneg.mpr h
  obtain ⟨a, ha⟩ := Int.eq_ofNat_of_zero_le hn
  have hd : q.den ≠ 0 := q.den_nz
  have harg : (q.num * q.num).toNat * (q.den * q.den) * 4 ^ 53 = (a * q.den * 2 ^ 53) ^ 2 := by
    rw [ha]
    have hsq : ((a : Int) * (a : Int)).toNat = a * a := by
      rw [← Int.ofNat_mul]
      exact Int.toNat_ofNat _
    rw [hsq]
    have h4 : (4 : ℕ) ^ 53 = (2 ^ 53) ^ 2 := by norm_num
    rw [h4]
    ring
  rw [harg, Nat.sqrt_eq']
  have hq : q = (a : ℚ) / (q.den : ℚ) := by
    have h1 := (Rat.num_div_den q).symm
    rw [ha] at h1
    rw [Int.cast_natCast] at h1
    exact h1
  have hd1 : (q.den : ℚ) ≠ 0 := by exact_mod_cast hd
  conv_rhs => rw [hq]
  push_cast
  field_simp
  ring

/-- The early return of `Move` at the last path index (or beyond). -/
theorem move_at_end (e : Enemy) (h : e.PathIndex ≥ (e.Path.length : Int) - 1) :
    e.Move = some e := by
  unfold Enemy.Move
  rw [if_pos h]

/-- The body of `Move` below the last path index, with the target and the distance named. -/
theorem move_step (e : Enemy) (target : BaseEntity) (d : ℚ)
    (hidx : e.PathIndex < (e.Path.length : Int) - 1)
    (ht : sliceIndex e.Path (e.PathIndex + 1) = some target)
    (hd : mathSqrt ((target.X - e.X) * (target.X - e.X) + (target.Y - e.Y) * (target.Y - e.Y)) = d) :
    e.Move =
      if d ≤ e.Speed then
        some { e with X := target.X, Y := target.Y, PathIndex := e.PathIndex + 1 }
      else
        some { e with
          X := e.X + ((target.X - e.X) / d) * e.Speed
          Y := e.Y + ((target.Y - e.Y) / d) * e.Speed } := by
  unfold Enemy.Move
  have h1 : ¬ e.PathIndex ≥ (e.Path.length : Int) - 1 := by omega
  rw [if_neg h1, ht]
  simp only [hd]

theorem move_toward_3_4 (e : Enemy) (rest : List BaseEntity) (d : ℚ)
    (hpath : e.Path = ⟨0, 0⟩ :: ⟨3, 4⟩ :: rest) (hidx : e.PathIndex = 0) (hs : e.Speed = 2)
    (hd0 : 0 ≤ d) (hd : (3 - e.X) * (3 - e.X) + (4 - e.Y) * (4 - e.Y) = d * d) :
    e.Move =
      if d ≤ 2 then some { e with X := 3, Y := 4, PathIndex := 1 }
      else some { e with X := e.X + ((3 - e.X) / d) * 2, Y := e.Y + ((4 - e.Y) / d) * 2 } := by
  have hlen : e.PathIndex < (e.Path.length : Int) - 1 := by
    rw [hpath, hidx]
    simp only [List.length_cons]
    push_cast
    omega
  have ht : sliceIndex e.Path (e.PathIndex + 1) = some ⟨3, 4⟩ := by
    rw [hpath, hidx]
    simp [sliceIndex]
  have hsq : mathSqrt ((({ X := 3, Y := 4 } : BaseEntity).X - e.X) *
      (({ X := 3, Y := 4 } : BaseEntity).X - e.X) +
      (({ X := 3, Y := 4 } : BaseEntity).Y - e.Y) *
      (({ X := 3, Y := 4 } : BaseEntity).Y - e.Y)) = d := by
    show mathSqrt ((3 - e.X) * (3 - e.X) + (4 - e.Y) * (4 - e.Y)) = d
    rw [hd]
    exact mathSqrt_mul_self d hd0
  rw [move_step e ⟨3, 4⟩ d hlen ht hsq, hs, hidx]
  rfl

/-- C6 on the enemy of `TestMove` (created at (0,0) on the path [(0,0),(3,4),(6,8)] with
speed 2): the code moves it by the full speed 2 along the unit vector (3/5, 4/5), so after
one `Move` it is at (1.2, 1.6), more than 0.001 away from the (1.8, 2.4) that the claim and
the test expect, and after the second `Move` it is at (2.4, 3.2) with path index 0, not at
(3,4) with path index 1. The positions are stated to within one millionth, which leaves
room for the `float64` rounding of `Move`. -/
theorem move_test_counterexample :
    NewEnemy 100 10 5 2 testMovePath = some testMover ∧
    ∃ e1 e2, testMover.Move = some e1 ∧ e1.Move = some e2 ∧
      |e1.X - 6 / 5| < 1 / 1000000 ∧ |e1.Y - 8 / 5| < 1 / 1000000 ∧ e1.PathIndex = 0 ∧
      |e2.X - 12 / 5| < 1 / 1000000 ∧ |e2.Y - 16 / 5| < 1 / 1000000 ∧ e2.PathIndex = 0 ∧
      1 / 1000 < |e1.X - 9 / 5| ∧ 1 / 1000 < |e1.Y - 12 / 5| ∧
      e2.X ≠ 3 ∧ e2.Y ≠ 4 ∧ e2.PathIndex ≠ 1 := by
  have h1 : testMover.Move = some { testMover with X := 6 / 5, Y := 8 / 5 } := by
    rw [move_toward_3_4 testMover [⟨6, 8⟩] 5 rfl rfl rfl (by norm_num)
      (by simp only [testMover]; norm_num)]
    rw [if_neg (by norm_num)]
    simp only [testMover]
    norm_num
  have h2 : Enemy.Move { testMover with X := 6 / 5, Y := 8 / 5 } =
      some { testMover with X := 12 / 5, Y := 16 / 5 } := by
    rw [move_toward_3_4 { testMover with X := 6 / 5, Y := 8 / 5 } [⟨6, 8⟩] 3 rfl rfl rfl
      (by norm_num) (by norm_num)]
    rw [if_neg (by norm_num)]
    norm_num
  have hz : |(6 : ℚ) / 5 - 6 / 5| < 1 / 1000000 ∧ |(8 : ℚ) / 5 - 8 / 5| < 1 / 1000000 ∧
      |(12 : ℚ) / 5 - 12 / 5| < 1 / 1000000 ∧ |(16 : ℚ) / 5 - 16 / 5| < 1 / 1000000 := by
    simp only [sub_self, abs_zero]
    norm_num
  refine ⟨rfl, _, _, h1, h2, hz.1, hz.2.1, rfl, hz.2.2.1, hz.2.2.2, rfl, ?_, ?_, ?_, ?_, ?_⟩
  · show (1 : ℚ) / 1000 < |6 / 5 - 9 / 5|
    rw [abs_of_neg (by norm_num : (6 : ℚ) / 5 - 9 / 5 < 0)]
    norm_num
  · show (1 : ℚ) / 1000 < |8 / 5 - 12 / 5|
    rw [abs_of_neg (by norm_num : (8 : ℚ) / 5 - 12 / 5 < 0)]
    norm_num
  · show (12 : ℚ) / 5 ≠ 3
    norm_num
  · show (16 : ℚ) / 5 ≠ 4
    norm_num
  · show (0 : Int) ≠ 1
    decide

/-! ## The tower pass changes nothing but health -/

theorem takeDamage_sansHealth (e : Enemy) (d : GoInt) :
    (e.TakeDamage d).1.sansHealth = e.sansHealth := by
  rw [takeDamage_eq]
  rfl

/-- Firing a tower changes no field of any enemy other than `Health`, and no position in
the list. -/
theorem towerUpdate_sansHealth (t : Tower) (now : Int) (enemies : List Enemy) :
    (t.Update now enemies).2.map Enemy.sansHealth = enemies.map Enemy.sansHealth := by
  unfold Tower.Update
  by_cases hc : t.CanFire now = true
  · simp only [hc, Bool.not_true, Bool.false_eq_true, if_false]
    cases hf : t.firstInRange enemies with
    | none => rfl
    | some j =>
      have hmod : (List.modify (fun enemy => (enemy.TakeDamage (t.Fire now).Damage).1) j
          enemies).map Enemy.sansHealth = enemies.map Enemy.sansHealth := by
        apply List.ext_getElem?
        intro n
        rw [List.getElem?_map, List.getElem?_map, List.getElem?_modify]
        cases enemies[n]? with
        | none => rfl
        | some a =>
          by_cases hjn : j = n
          · simp [hjn, takeDamage_sansHealth]
          · simp [hjn]
      by_cases hk : (t.Fire now).Kind = "AOE"
      · simp only [hk, if_true]
        rw [← hmod]
        apply List.ext_getElem?
        intro n
        unfold Tower.DealAOEDamage
        rw [List.getElem?_map, List.getElem?_map, List.getElem?_mapIdx]
        cases (List.modify (fun enemy => (enemy.TakeDamage (t.Fire now).Damage).1) j
            enemies)[n]? with
        | none => rfl
        | some a =>
          by_cases hcond : n ≠ j ∧ (t.Fire now).IsInRange a = true
          · simp [hcond, takeDamage_sansHealth]
          · simp only [Option.map_some', if_neg hcond]
      · simp only [hk, if_false]
        exact hmod
  · simp [hc]

theorem updateTowers_sansHealth (clock : Nat → Int) (towers : List Tower) (k : Nat)
    (enemies : List Enemy) :
    (GameState.updateTowers clock k towers enemies).2.map Enemy.sansHealth =
      enemies.map Enemy.sansHealth := by
  induction towers generalizing k enemies with
  | nil => rfl
  | cons t rest ih =>
    simp only [GameState.updateTowers]
    rw [ih, towerUpdate_sansHealth]

/-! ## Update on a state with a single enemy -/

theorem updateEnemies_done (lives : GoInt) (enemies : List Enemy) (i : Nat)
    (h : ¬ i < enemies.length) : GameState.updateEnemies lives enemies i = some (lives, enemies) := by
  rw [GameState.updateEnemies, dif_neg h]

/-- The second loop of `Update` on a one-enemy list. -/
theorem updateEnemies_single (lives : GoInt) (e : Enemy) :
    GameState.updateEnemies lives [e] 0 =
      if e.HasReachedEnd = true then
        some (if lives - e.GetDamage < 0 then 0 else lives - e.GetDamage, [])
      else
        match e.Move with
        | none => none
        | some e1 => some (lives, [e1]) := by
  rw [GameState.updateEnemies]
  have h0 : 0 < [e].length := by simp
  rw [dif_pos h0]
  by_cases hr : e.HasReachedEnd = true
  · simp only [List.getElem_cons_zero, hr, if_true]
    have hs : swapRemove [e] 0 = [] := by simp [swapRemove]
    rw [hs]
    exact updateEnemies_done _ [] 0 (by simp)
  · simp only [List.getElem_cons_zero, hr, if_false]
    cases hm : e.Move with
    | none => rfl
    | some e1 =>
      simp only [List.set_cons_zero]
      exact updateEnemies_done _ [e1] 1 (by simp)

theorem sansHealth_fields (a b : Enemy) (h : a.sansHealth = b.sansHealth) :
    a.X = b.X ∧ a.Y = b.Y ∧ a.Speed = b.Speed ∧ a.Damage = b.Damage ∧
      a.PathIndex = b.PathIndex ∧ a.Path = b.Path := by
  refine ⟨?_, ?_, ?_, ?_, ?_, ?_⟩
  · have hf := congrArg (fun z : Enemy => z.X) h
    exact hf
  · have hf := congrArg (fun z : Enemy => z.Y) h
    exact hf
  · have hf := congrArg (fun z : Enemy => z.Speed) h
    exact hf
  · have hf := congrArg (fun z : Enemy => z.Damage) h
    exact hf
  · have hf := congrArg (fun z : Enemy => z.PathIndex) h
    exact hf
  · have hf := congrArg (fun z : Enemy => z.Path) h
    exact hf

/-! ## Update on the state of TestUpdate -/

/-- The result of an unpaused `Update` whose two loops leave a non-empty field. -/
theorem update_unpaused_nonempty (gs : GameState) (clock : Nat → Int) (towers1 : List Tower)
    (enemies1 : List Enemy) (lives2 : GoInt) (enemies2 : List Enemy) (hp : gs.paused = false)
    (ht : GameState.updateTowers clock 0 gs.towers gs.enemies = (towers1, enemies1))
    (hloop : GameState.updateEnemies gs.lives enemies1 0 = some (lives2, enemies2))
    (hne : enemies2 ≠ []) :
    gs.Update clock =
      some { gs with towers := towers1, enemies := enemies2, lives := lives2 } := by
  unfold GameState.Update
  rw [hp, ht]
  simp only [Bool.false_eq_true, if_false]
  rw [hloop]
  have hlen : ¬ enemies2.length = 0 := by
    intro h0
    exact hne (List.eq_nil_of_length_eq_zero h0)
  simp only [hlen, if_false]

/-- The first `Move` of an enemy standing at the start (0, 300) of the default path with
path index 0: the next waypoint (200, 300) is 200 away. -/
theorem move_from_start (e : Enemy) (hpath : e.Path = defaultEnemyPath) (hidx : e.PathIndex = 0)
    (hx : e.X = 0) (hy : e.Y = 300) :
    e.Move =
      if (200 : ℚ) ≤ e.Speed then some { e with X := 200, Y := 300, PathIndex := 1 }
      else some { e with X := e.X + ((200 - e.X) / 200) * e.Speed,
                         Y := e.Y + ((300 - e.Y) / 200) * e.Speed } := by
  have hd : mathSqrt (((⟨200, 300⟩ : BaseEntity).X - e.X) * ((⟨200, 300⟩ : BaseEntity).X - e.X) +
      ((⟨200, 300⟩ : BaseEntity).Y - e.Y) * ((⟨200, 300⟩ : BaseEntity).Y - e.Y)) = 200 := by
    have h200 := mathSqrt_mul_self 200 (by norm_num)
    rw [hx, hy]
    norm_num at h200 ⊢
    exact h200
  have hlen : e.PathIndex < (e.Path.length : Int) - 1 := by
    rw [hpath, hidx]
    decide
  have ht : sliceIndex e.Path (e.PathIndex + 1) = some ⟨200, 300⟩ := by
    rw [hpath, hidx]
    simp [sliceIndex, defaultEnemyPath]
  rw [move_step e ⟨200, 300⟩ 200 hlen ht hd, hidx]
  rfl

/-- C4 on the state of `TestUpdate` (Basic tower on the second waypoint, one enemy of speed
1000 and damage 1 at the start of the 8-point path, 100 lives): after one unpaused `Update`
the enemy is still in the collection, standing on the second waypoint with path index 1,
and the lives are still 100; the claim and the test expect an empty collection and 99
lives. -/
theorem update_test_counterexample :
    NewEnemy 100 10 1 1000 NewGameState.enemyPath = some fastEnemy ∧
    testUpdateState.paused = false ∧ testUpdateState.lives = 100 ∧
    testUpdateState.towers = [NewBasicTower 200 300] ∧ testUpdateState.enemies = [fastEnemy] ∧
    testUpdateState.Update lateClock =
      some { testUpdateState with
        enemies := [{ fastEnemy with X := 200, Y := 300, PathIndex := 1 }] } ∧
    ¬ (∃ gs1, testUpdateState.Update lateClock = some gs1 ∧ gs1.enemies = [] ∧
        gs1.lives = testUpdateState.lives - fastEnemy.Damage) := by
  have htower : (NewBasicTower 200 300).Update (lateClock 0) [fastEnemy] =
      (NewBasicTower 200 300, [fastEnemy]) := by
    have hout : (NewBasicTower 200 300).IsInRange fastEnemy = false :=
      (isInRange_int _ _ 200 0 100 (by norm_num [NewBasicTower, fastEnemy])
        (by norm_num [NewBasicTower, fastEnemy]) (by norm_num [NewBasicTower])
        (by decide) (by decide) (by decide)).trans (by decide)
    simp [Tower.Update, Tower.firstInRange, hout]
  have hmove : fastEnemy.Move = some { fastEnemy with X := 200, Y := 300, PathIndex := 1 } := by
    rw [move_from_start fastEnemy rfl rfl rfl rfl]
    rw [if_pos (by simp only [fastEnemy]; norm_num)]
  have hnot : ¬ (fastEnemy.HasReachedEnd = true) := by decide
  have hpass : GameState.updateTowers lateClock 0 testUpdateState.towers
      testUpdateState.enemies = ([NewBasicTower 200 300], [fastEnemy]) := by
    show GameState.updateTowers lateClock 0 [NewBasicTower 200 300] [fastEnemy] = _
    simp only [GameState.updateTowers, htower]
  have hloop : GameState.updateEnemies testUpdateState.lives [fastEnemy] 0 =
      some (testUpdateState.lives, [{ fastEnemy with X := 200, Y := 300, PathIndex := 1 }]) := by
    rw [updateEnemies_single, if_neg hnot, hmove]
  have hupd : testUpdateState.Update lateClock =
      some { testUpdateState with
        enemies := [{ fastEnemy with X := 200, Y := 300, PathIndex := 1 }] } :=
    update_unpaused_nonempty testUpdateState lateClock _ _ _ _ rfl hpass hloop
      (List.cons_ne_nil _ _)
  refine ⟨rfl, rfl, rfl, rfl, rfl, hupd, ?_⟩
  rintro ⟨gs1, h1, h2, _⟩
  rw [hupd] at h1
  have h3 := Option.some.inj h1
  rw [← h3] at h2
  simp at h2

/-! ## Update and dead enemies -/

/-- The tick on `killState`: the tower fires, the enemy drops to health 0, stays on the
field and walks one unit on. -/
theorem killState_update :
    killState.Update lateClock =
      some { killState with
        towers := [{ NewBasicTower 0 300 with LastFired := 2000000000 }]
        enemies := [{ weakEnemy with Health := 0, X := 1, Y := 300 }] } := by
  have hin : (NewBasicTower 0 300).IsInRange weakEnemy = true :=
    (isInRange_int _ _ 0 0 100 (by norm_num [NewBasicTower, weakEnemy])
      (by norm_num [NewBasicTower, weakEnemy]) (by norm_num [NewBasicTower])
      (by decide) (by decide) (by decide)).trans (by decide)
  have hcan : (NewBasicTower 0 300).CanFire (lateClock 0) = true := by decide
  have hhit : (weakEnemy.TakeDamage 10).1 = { weakEnemy with Health := 0 } := by decide
  have htower : (NewBasicTower 0 300).Update (lateClock 0) [weakEnemy] =
      ({ NewBasicTower 0 300 with LastFired := 2000000000 },
        [{ weakEnemy with Health := 0 }]) := by
    unfold Tower.Update
    rw [hcan]
    simp only [Bool.not_true, Bool.false_eq_true, if_false, Tower.firstInRange, hin, if_true]
    show (if (NewBasicTower 0 300).Kind = "AOE" then _ else
      (Tower.Fire (NewBasicTower 0 300) (lateClock 0), [(weakEnemy.TakeDamage 10).1])) = _
    rw [hhit]
    rfl
  have hpass : GameState.updateTowers lateClock 0 killState.towers killState.enemies =
      ([{ NewBasicTower 0 300 with LastFired := 2000000000 }],
        [{ weakEnemy with Health := 0 }]) := by
    show GameState.updateTowers lateClock 0 [NewBasicTower 0 300] [weakEnemy] = _
    simp only [GameState.updateTowers, htower]
  have hnot : ¬ (Enemy.HasReachedEnd { weakEnemy with Health := 0 } = true) := by decide
  have hmove : Enemy.Move { weakEnemy with Health := 0 } =
      some { weakEnemy with Health := 0, X := 1, Y := 300 } := by
    rw [move_from_start { weakEnemy with Health := 0 } rfl rfl rfl rfl]
    rw [if_neg (by simp only [weakEnemy]; norm_num)]
    simp only [weakEnemy]
    norm_num
  have hloop : GameState.updateEnemies killState.lives [{ weakEnemy with Health := 0 }] 0 =
      some (killState.lives, [{ weakEnemy with Health := 0, X := 1, Y := 300 }]) := by
    rw [updateEnemies_single, if_neg hnot, hmove]
  have hupd : killState.Update lateClock =
      some { killState with
        towers := [{ NewBasicTower 0 300 with LastFired := 2000000000 }]
        enemies := [{ weakEnemy with Health := 0, X := 1, Y := 300 }] } :=
    update_unpaused_nonempty killState lateClock _ _ _ _ rfl hpass hloop (List.cons_ne_nil _ _)
  exact hupd

/-- C5 on a concrete state: unpaused, one enemy of health 10 (positive) standing on a Basic
tower that can fire. `Update` returns; the tower has fired (`LastFired` is the clock
reading), the enemy's health is 0, and the enemy is still in the collection, moved one
unit along the path; the money is unchanged. -/
theorem update_keeps_dead_enemy :
    NewEnemy 10 10 1 1 NewGameState.enemyPath = some weakEnemy ∧
    killState.paused = false ∧ (∀ e ∈ killState.enemies, 0 < e.Health) ∧
    killState.Update lateClock =
      some { killState with
        towers := [{ NewBasicTower 0 300 with LastFired := 2000000000 }]
        enemies := [{ weakEnemy with Health := 0, X := 1, Y := 300 }] } ∧
    ∃ gs1, killState.Update lateClock = some gs1 ∧ ∃ e ∈ gs1.enemies, e.Health = 0 := by
  have hupd := killState_update
  refine ⟨rfl, rfl, ?_, hupd, _, hupd, _, List.mem_singleton.mpr rfl, rfl⟩
  intro e he
  have he1 : e = weakEnemy := by
    have : killState.enemies = [weakEnemy] := rfl
    rw [this] at he
    exact List.mem_singleton.mp he
  rw [he1]
  decide

/-! ## Upgrade -/

/-- C11: on a tower fresh from `NewBasicTower`, `NewSniperTower` or `NewAOETower` (level 1)
the first two `Upgrade` calls succeed and the third fails with the maximum-level error;
each success raises the level by 1, the damage by exactly 5 (neither sum wraps), the range
by exactly 20 (the `float64` sum is exact) and sets the fire interval to nine tenths of its
value before the call, truncated to whole nanoseconds; the failing call returns the tower
with every field as it was. -/
theorem upgrade_three_times (t0 : Tower) (x y : ℚ)
    (h : t0 = NewBasicTower x y ∨ t0 = NewSniperTower x y ∨ t0 = NewAOETower x y) :
    ∃ t1 t2 : Tower,
      t0.Level = 1 ∧ t0.Upgrade = (t1, none) ∧ t1.Upgrade = (t2, none) ∧
      t2.Upgrade = (t2, some "tower is already at maximum level") ∧
      t1 = { t0 with
              Level := t0.Level + 1
              Damage := t0.Damage + 5
              Range := t0.Range + 20
              FireRate := Int.tdiv (t0.FireRate * 9) 10 } ∧
      t2 = { t1 with
              Level := t1.Level + 1
              Damage := t1.Damage + 5
              Range := t1.Range + 20
              FireRate := Int.tdiv (t1.FireRate * 9) 10 } ∧
      10 * t1.FireRate = 9 * t0.FireRate ∧ 10 * t2.FireRate = 9 * t1.FireRate ∧
      t1.Level.toInt = t0.Level.toInt + 1 ∧ t2.Level.toInt = t1.Level.toInt + 1 ∧
      t1.Damage.toInt = t0.Damage.toInt + 5 ∧ t2.Damage.toInt = t1.Damage.toInt + 5 := by
  have hl0 : t0.Level = 1 := by
    rcases h with rfl | rfl | rfl <;> rfl
  have hr1 : roundFloat (t0.Range + 20) = t0.Range + 20 := by
    rcases h with rfl | rfl | rfl
    · exact roundFloat_of_eq_nat _ 120 (by norm_num [NewBasicTower]) (by norm_num)
    · exact roundFloat_of_eq_nat _ 220 (by norm_num [NewSniperTower]) (by norm_num)
    · exact roundFloat_of_eq_nat _ 100 (by norm_num [NewAOETower]) (by norm_num)
  have hr2 : roundFloat (t0.Range + 20 + 20) = t0.Range + 20 + 20 := by
    rcases h with rfl | rfl | rfl
    · exact roundFloat_of_eq_nat _ 140 (by norm_num [NewBasicTower]) (by norm_num)
    · exact roundFloat_of_eq_nat _ 240 (by norm_num [NewSniperTower]) (by norm_num)
    · exact roundFloat_of_eq_nat _ 120 (by norm_num [NewAOETower]) (by norm_num)
  have hd : (t0.Level + 1).toInt = t0.Level.toInt + 1 ∧
      (t0.Level + 1 + 1).toInt = (t0.Level + 1).toInt + 1 ∧
      (t0.Damage + 5).toInt = t0.Damage.toInt + 5 ∧
      (t0.Damage + 5 + 5).toInt = (t0.Damage + 5).toInt + 5 := by
    rcases h with rfl | rfl | rfl
    · show ((1 : GoInt) + 1).toInt = (1 : GoInt).toInt + 1 ∧
        ((1 : GoInt) + 1 + 1).toInt = ((1 : GoInt) + 1).toInt + 1 ∧
        ((10 : GoInt) + 5).toInt = (10 : GoInt).toInt + 5 ∧
        ((10 : GoInt) + 5 + 5).toInt = ((10 : GoInt) + 5).toInt + 5
      decide
    · show ((1 : GoInt) + 1).toInt = (1 : GoInt).toInt + 1 ∧
        ((1 : GoInt) + 1 + 1).toInt = ((1 : GoInt) + 1).toInt + 1 ∧
        ((30 : GoInt) + 5).toInt = (30 : GoInt).toInt + 5 ∧
        ((30 : GoInt) + 5 + 5).toInt = ((30 : GoInt) + 5).toInt + 5
      decide
    · show ((1 : GoInt) + 1).toInt = (1 : GoInt).toInt + 1 ∧
        ((1 : GoInt) + 1 + 1).toInt = ((1 : GoInt) + 1).toInt + 1 ∧
        ((15 : GoInt) + 5).toInt = (15 : GoInt).toInt + 5 ∧
        ((15 : GoInt) + 5 + 5).toInt = ((15 : GoInt) + 5).toInt + 5
      decide
  have hrate : t0.FireRate = 1000000000 ∨ t0.FireRate = 2000000000 := by
    rcases h with rfl | rfl | rfl
    · exact Or.inl rfl
    · exact Or.inr rfl
    · exact Or.inr rfl
  have hs1 : scaleDuration t0.FireRate = Int.tdiv (t0.FireRate * 9) 10 := by
    rcases hrate with hr | hr <;> rw [hr] <;> decide
  have hs2 : scaleDuration (Int.tdiv (t0.FireRate * 9) 10) =
      Int.tdiv (Int.tdiv (t0.FireRate * 9) 10 * 9) 10 := by
    rcases hrate with hr | hr <;> rw [hr] <;> decide
  have hf1 : 10 * Int.tdiv (t0.FireRate * 9) 10 = 9 * t0.FireRate := by
    rcases hrate with hr | hr <;> rw [hr] <;> decide
  have hf2 : 10 * Int.tdiv (Int.tdiv (t0.FireRate * 9) 10 * 9) 10 =
      9 * Int.tdiv (t0.FireRate * 9) 10 := by
    rcases hrate with hr | hr <;> rw [hr] <;> decide
  have hu1 : t0.Upgrade =
      ({ t0 with
          Level := t0.Level + 1
          Damage := t0.Damage + 5
          Range := t0.Range + 20
          FireRate := Int.tdiv (t0.FireRate * 9) 10 }, none) := by
    rw [upgrade_ok t0 (by rw [hl0]; decide), hs1, hr1]
  have hu2 : Tower.Upgrade
      { t0 with
          Level := t0.Level + 1
          Damage := t0.Damage + 5
          Range := t0.Range + 20
          FireRate := Int.tdiv (t0.FireRate * 9) 10 } =
      ({ t0 with
          Level := t0.Level + 1 + 1
          Damage := t0.Damage + 5 + 5
          Range := t0.Range + 20 + 20
          FireRate := Int.tdiv (Int.tdiv (t0.FireRate * 9) 10 * 9) 10 }, none) := by
    rw [upgrade_ok _ (by show t0.Level + 1 < 3; rw [hl0]; decide)]
    show ({ t0 with
          Level := t0.Level + 1 + 1
          Damage := t0.Damage + 5 + 5
          Range := roundFloat (t0.Range + 20 + 20)
          FireRate := scaleDuration (Int.tdiv (t0.FireRate * 9) 10) }, none) = _
    rw [hs2, hr2]
  refine ⟨_, _, hl0, hu1, hu2, upgrade_max _ ?_, rfl, rfl, hf1, hf2, hd.1, hd.2.1, hd.2.2.1,
    hd.2.2.2⟩
  show t0.Level + 1 + 1 ≥ 3
  rw [hl0]
  decide

/-- C11 at a concrete input: a Basic tower at the origin (`TestUpgrade`). -/
theorem upgrade_three_times_witness :
    ∃ t1 t2 : Tower,
      (NewBasicTower 0 0).Level = 1 ∧ (NewBasicTower 0 0).Upgrade = (t1, none) ∧
      t1.Upgrade = (t2, none) ∧
      t2.Upgrade = (t2, some "tower is already at maximum level") ∧
      t1 = { NewBasicTower 0 0 with
              Level := (NewBasicTower 0 0).Level + 1
              Damage := (NewBasicTower 0 0).Damage + 5
              Range := (NewBasicTower 0 0).Range + 20
              FireRate := Int.tdiv ((NewBasicTower 0 0).FireRate * 9) 10 } ∧
      t2 = { t1 with
              Level := t1.Level + 1
              Damage := t1.Damage + 5
              Range := t1.Range + 20
              FireRate := Int.tdiv (t1.FireRate * 9) 10 } ∧
      10 * t1.FireRate = 9 * (NewBasicTower 0 0).FireRate ∧
      10 * t2.FireRate = 9 * t1.FireRate ∧
      t1.Level.toInt = (NewBasicTower 0 0).Level.toInt + 1 ∧
      t2.Level.toInt = t1.Level.toInt + 1 ∧
      t1.Damage.toInt = (NewBasicTower 0 0).Damage.toInt + 5 ∧
      t2.Damage.toInt = t1.Damage.toInt + 5 :=
  upgrade_three_times (NewBasicTower 0 0) 0 0 (Or.inl rfl)

/-! ## RemoveEnemy -/

/-- Swap-remove keeps exactly the elements other than the one at the index: its result is
a rearrangement of the list with that position erased. -/
theorem swapRemove_perm {α : Type} (xs : List α) (i : Nat) (h : i < xs.length) :
    (swapRemove xs i).Perm (xs.eraseIdx i) := by
  have hne : xs ≠ [] := by
    intro h0
    simp [h0] at h
  have hsplit : xs.dropLast ++ [xs.getLast hne] = xs := List.dropLast_append_getLast hne
  generalize xs.dropLast = front at hsplit
  generalize xs.getLast hne = last at hsplit
  subst hsplit
  have hl : (front ++ [last]).getLast? = some last := by simp
  rw [swapRemove_eq _ i _ hl]
  by_cases hi : i < front.length
  · rw [List.set_append_left _ _ hi, List.dropLast_concat,
      List.eraseIdx_append_of_lt_length hi, List.set_eq_take_append_cons_drop, if_pos hi,
      List.eraseIdx_eq_take_drop_succ]
    exact List.perm_middle.trans (List.perm_append_singleton _ _).symm
  · have hi2 : i = (front ++ [last]).length - 1 := by
      simp only [List.length_append, List.length_singleton] at h ⊢
      omega
    rw [hi2, dropLast_set_last,
      List.dropLast_eq_eraseIdx (i := (front ++ [last]).length - 1) (by
        simp only [List.length_append, List.length_singleton]
        omega)]

/-- C19: for an index within the `n` enemies, `RemoveEnemy` leaves the list obtained by
overwriting the slot at the index with the last enemy and dropping the last slot: it has
`n - 1` entries and is a rearrangement of the old enemies without the one at the index;
for an index out of range (any index when there is no enemy) it returns the state it was
given, and it never fails. -/
theorem removeEnemy_spec (gs : GameState) (index : Int) :
    (0 ≤ index → index < (gs.enemies.length : Int) →
      ∃ last, gs.enemies.getLast? = some last ∧
        gs.RemoveEnemy index =
          { gs with enemies := (gs.enemies.set index.toNat last).dropLast } ∧
        ((gs.enemies.set index.toNat last).dropLast).length + 1 = gs.enemies.length ∧
        ((gs.enemies.set index.toNat last).dropLast).Perm (gs.enemies.eraseIdx index.toNat)) ∧
    ((index < 0 ∨ index ≥ (gs.enemies.length : Int)) → gs.RemoveEnemy index = gs) := by
  refine ⟨?_, ?_⟩
  · intro h0 hlt
    have hrange : ¬ (index < 0 ∨ index ≥ (gs.enemies.length : Int)) := by omega
    have hnat : index.toNat < gs.enemies.length := by omega
    have hne : gs.enemies ≠ [] := by
      intro hnil
      simp [hnil] at hnat
    have hlast := List.getLast?_eq_getLast _ hne
    refine ⟨gs.enemies.getLast hne, hlast, ?_, ?_, ?_⟩
    · unfold GameState.RemoveEnemy
      rw [if_neg hrange, swapRemove_eq _ _ _ hlast]
    · simp only [List.length_dropLast, List.length_set]
      omega
    · rw [← swapRemove_eq _ _ _ hlast]
      exact swapRemove_perm _ _ hnat
  · intro hout
    unfold GameState.RemoveEnemy
    rw [if_pos hout]

/-- C19 at concrete inputs (`TestAddAndRemoveEnemy`): removing the only enemy, and removing
at index 0 from the fresh state, which has no enemy. -/
theorem removeEnemy_spec_witness :
    (∃ last, (NewGameState.AddEnemy sampleEnemy).enemies.getLast? = some last ∧
        (NewGameState.AddEnemy sampleEnemy).RemoveEnemy 0 =
          { NewGameState.AddEnemy sampleEnemy with
            enemies :=
              ((NewGameState.AddEnemy sampleEnemy).enemies.set (0 : Int).toNat last).dropLast } ∧
        (((NewGameState.AddEnemy sampleEnemy).enemies.set (0 : Int).toNat last).dropLast).length
          + 1 = (NewGameState.AddEnemy sampleEnemy).enemies.length ∧
        (((NewGameState.AddEnemy sampleEnemy).enemies.set (0 : Int).toNat last).dropLast).Perm
          ((NewGameState.AddEnemy sampleEnemy).enemies.eraseIdx (0 : Int).toNat)) ∧
    NewGameState.RemoveEnemy 0 = NewGameState :=
  ⟨(removeEnemy_spec (NewGameState.AddEnemy sampleEnemy) 0).1 (le_refl 0) (by decide),
    (removeEnemy_spec NewGameState 0).2 (Or.inr (by decide))⟩

/-! ## The health invariant -/

/-- The three outcomes of a `Move` that returns: nothing changed (last index), a snap onto
the next waypoint with the path index raised by one, or a step that changes the position
only. -/
theorem move_cases (e e1 : Enemy) (h : e.Move = some e1) :
    (e.PathIndex ≥ (e.Path.length : Int) - 1 ∧ e1 = e) ∨
    (e.PathIndex < (e.Path.length : Int) - 1 ∧
      ∃ target, sliceIndex e.Path (e.PathIndex + 1) = some target ∧
        (e1 = { e with X := target.X, Y := target.Y, PathIndex := e.PathIndex + 1 } ∨
          ∃ x y, e1 = { e with X := x, Y := y })) := by
  unfold Enemy.Move at h
  by_cases hend : e.PathIndex ≥ (e.Path.length : Int) - 1
  · rw [if_pos hend] at h
    exact Or.inl ⟨hend, (Option.some.inj h).symm⟩
  · rw [if_neg hend] at h
    refine Or.inr ⟨by omega, ?_⟩
    cases ht : sliceIndex e.Path (e.PathIndex + 1) with
    | none =>
      rw [ht] at h
      exact Option.noConfusion h
    | some target =>
      rw [ht] at h
      refine ⟨target, rfl, ?_⟩
      simp only at h
      split at h
      · exact Or.inl (Option.some.inj h).symm
      · exact Or.inr ⟨_, _, (Option.some.inj h).symm⟩

/-- `Move` returns (no index panic) on every enemy whose path index is not negative. -/
theorem move_returns (e : Enemy) (h : 0 ≤ e.PathIndex) : ∃ e1, e.Move = some e1 := by
  unfold Enemy.Move
  by_cases hend : e.PathIndex ≥ (e.Path.length : Int) - 1
  · exact ⟨e, by rw [if_pos hend]⟩
  · rw [if_neg hend]
    have hlt : (e.PathIndex + 1).toNat < e.Path.length := by omega
    have ht : sliceIndex e.Path (e.PathIndex + 1) = some (e.Path[(e.PathIndex + 1).toNat]) := by
      unfold sliceIndex
      rw [if_neg (by omega), List.getElem?_eq_getElem hlt]
    rw [ht]
    simp only
    split
    · exact ⟨_, rfl⟩
    · exact ⟨_, rfl⟩

/-- C16 as stated fails: an enemy with health 100 of 100 satisfies the invariant, and after
`TakeDamage(-5)` its health is 105, above its maximal health 100. -/
theorem takeDamage_negative_counterexample :
    0 ≤ sampleEnemy.Health ∧ sampleEnemy.Health ≤ sampleEnemy.MaxHealth ∧
    (sampleEnemy.TakeDamage (-5)).1.Health = 105 ∧
    (sampleEnemy.TakeDamage (-5)).1.MaxHealth = 100 ∧
    ¬ ((sampleEnemy.TakeDamage (-5)).1.Health ≤ (sampleEnemy.TakeDamage (-5)).1.MaxHealth) := by
  decide

/-- C16, as the code has it: for an enemy with `0 ≤ Health ≤ MaxHealth` and an amount that
is not negative, the enemy after `TakeDamage` still has `0 ≤ Health ≤ MaxHealth`; for every
integer amount the health after `TakeDamage` is at least 0; and `Move`, which returns for
every path index that is not negative, changes neither `Health` nor `MaxHealth`, so it
keeps the invariant too. -/
theorem health_invariant (e : Enemy) (amount : GoInt)
    (hinv : 0 ≤ e.Health ∧ e.Health ≤ e.MaxHealth) (hamount : 0 ≤ amount) :
    (0 ≤ (e.TakeDamage amount).1.Health ∧
      (e.TakeDamage amount).1.Health ≤ (e.TakeDamage amount).1.MaxHealth) ∧
    (∀ a : GoInt, 0 ≤ (e.TakeDamage a).1.Health) ∧
    (0 ≤ e.PathIndex → ∃ e1, e.Move = some e1) ∧
    (∀ e1, e.Move = some e1 →
      e1.Health = e.Health ∧ e1.MaxHealth = e.MaxHealth ∧
        0 ≤ e1.Health ∧ e1.Health ≤ e1.MaxHealth) := by
  have h0 : (0 : GoInt).toInt = 0 := rfl
  have hh0 : 0 ≤ e.Health.toInt := by
    have := (GoInt.le_def _ _).mp hinv.1
    rw [h0] at this
    exact this
  have ha0 : 0 ≤ amount.toInt := by
    have := (GoInt.le_def _ _).mp hamount
    rw [h0] at this
    exact this
  have hhm : e.Health.toInt ≤ e.MaxHealth.toInt := hinv.2
  have hfit : InInt64 (e.Health.toInt - amount.toInt) := by
    have h1 := e.Health.toInt_le
    have h2 := amount.toInt_le
    unfold InInt64
    omega
  refine ⟨⟨takeDamage_health_nonneg e amount, ?_⟩, takeDamage_health_nonneg e, move_returns e, ?_⟩
  · have hex := takeDamage_health_exact e amount hfit
    have hmax : (e.TakeDamage amount).1.MaxHealth = e.MaxHealth := by
      rw [takeDamage_eq]
    rw [hmax, GoInt.le_def, hex]
    exact max_le (le_trans hh0 hhm) (by omega)
  · intro e1 hm
    have hsame : e1.Health = e.Health ∧ e1.MaxHealth = e.MaxHealth := by
      rcases move_cases e e1 hm with ⟨_, rfl⟩ | ⟨_, target, _, rfl | ⟨x, y, rfl⟩⟩
      · exact ⟨rfl, rfl⟩
      · exact ⟨rfl, rfl⟩
      · exact ⟨rfl, rfl⟩
    refine ⟨hsame.1, hsame.2, ?_, ?_⟩
    · rw [hsame.1]
      exact hinv.1
    · rw [hsame.1, hsame.2]
      exact hinv.2

/-- C16 at a concrete input: the enemy of health 100 of 100 hit for 30. -/
theorem health_invariant_witness :
    (0 ≤ (sampleEnemy.TakeDamage 30).1.Health ∧
      (sampleEnemy.TakeDamage 30).1.Health ≤ (sampleEnemy.TakeDamage 30).1.MaxHealth) ∧
    (∀ a : GoInt, 0 ≤ (sampleEnemy.TakeDamage a).1.Health) ∧
    (0 ≤ sampleEnemy.PathIndex → ∃ e1, sampleEnemy.Move = some e1) ∧
    (∀ e1, sampleEnemy.Move = some e1 →
      e1.Health = sampleEnemy.Health ∧ e1.MaxHealth = sampleEnemy.MaxHealth ∧
        0 ≤ e1.Health ∧ e1.Health ≤ e1.MaxHealth) :=
  health_invariant sampleEnemy 30 (by decide) (by decide)

/-! ## Tower.Update -/

theorem testEnemyAt_built (x : ℚ) : NewEnemy 100 10 5 1 [⟨x, 0⟩] = some (testEnemyAt x) := rfl

theorem edgeEnemyAt_built (x : ℚ) :
    NewEnemy 100 10 5 1 [⟨x, 1 / 1073741824⟩] = some (edgeEnemyAt x) := rfl

/-- The range test at the edge of the range, where `float64` rounding decides: a tower at
the origin with an integer range `r` between 4096 and 2^26 accepts the enemy at
`(r, 2 ^ (-30))`, whose exact squared distance `r * r + 2 ^ (-60)` exceeds the squared range:
the sum rounds to `r * r`. -/
theorem isInRange_edge (t : Tower) (r e : Nat) (hX : t.X = 0) (hY : t.Y = 0)
    (hR : t.Range = r) (hr : r < 67108864) (hlo : 2 ^ e ≤ r * r)
    (hhi : r * r + 1 ≤ 2 ^ (e + 1)) (he : e ≤ 52) :
    t.IsInRange (edgeEnemyAt r) = true ∧
      t.Range * t.Range <
        (t.X - (edgeEnemyAt r).X) * (t.X - (edgeEnemyAt r).X) +
          (t.Y - (edgeEnemyAt r).Y) * (t.Y - (edgeEnemyAt r).Y) := by
  have hrr : r * r < 4503599627370496 := Nat.mul_lt_mul'' hr hr
  have hx : roundFloat ((0 : ℚ) - r) = -(r : ℚ) := by
    rw [zero_sub, roundFloat_neg, roundFloat_natCast r (by omega)]
  have hy : roundFloat ((0 : ℚ) - 1 / 1073741824) = -(1 / 1073741824) := by
    have h := roundFloat_two_zpow (-30)
    have h2 : (2 : ℚ) ^ (-30 : Int) = 1 / 1073741824 := by
      rw [zpow_neg]
      norm_num
    rw [h2] at h
    rw [zero_sub, roundFloat_neg, h]
  have hxx : roundFloat (-(r : ℚ) * -(r : ℚ)) = ((r * r : Nat) : ℚ) := by
    have h := roundFloat_natCast (r * r) (by omega)
    have h3 : -(r : ℚ) * -(r : ℚ) = ((r * r : Nat) : ℚ) := by
      push_cast
      ring
    rw [h3, h]
  have hyy : roundFloat (-(1 / 1073741824 : ℚ) * -(1 / 1073741824)) = 1 / 2 ^ 60 := by
    have h := roundFloat_two_zpow (-60)
    have h2 : (2 : ℚ) ^ (-60 : Int) = 1 / 2 ^ 60 := by
      rw [zpow_neg]
      norm_num
    have h3 : -(1 / 1073741824 : ℚ) * -(1 / 1073741824) = 1 / 2 ^ 60 := by norm_num
    rw [h3, ← h2]
    exact h
  have hsum : roundFloat (((r * r : Nat) : ℚ) + 1 / 2 ^ 60) = ((r * r : Nat) : ℚ) :=
    roundFloat_add_tiny (r * r) e hlo hhi he
  have hrange : roundFloat ((r : ℚ) * r) = ((r * r : Nat) : ℚ) := by
    have h := roundFloat_natCast (r * r) (by omega)
    have h3 : (r : ℚ) * r = ((r * r : Nat) : ℚ) := by push_cast; rfl
    rw [h3, h]
  refine ⟨?_, ?_⟩
  · unfold Tower.IsInRange
    simp only [hX, hY, hR, edgeEnemyAt]
    rw [hx, hy, hxx, hyy, hsum, hrange]
    simp
  · simp only [hX, hY, hR, edgeEnemyAt]
    have : (0 : ℚ) < 1 / 1073741824 * (1 / 1073741824) := by norm_num
    nlinarith

/-- The AOE tower at the origin (range 80) accepts the enemy at `(80, 2 ^ (-30))`, and the
Basic tower at the origin (range 100) the enemy at `(100, 2 ^ (-30))`, as the `float64`
code does, though both lie outside the exact circle. -/
theorem isInRange_edge_towers :
    (NewAOETower 0 0).IsInRange (edgeEnemyAt 80) = true ∧
      (NewBasicTower 0 0).IsInRange (edgeEnemyAt 100) = true := by
  have h1 := (isInRange_edge (NewAOETower 0 0) 80 12 rfl rfl (by norm_num [NewAOETower])
    (by norm_num) (by norm_num) (by norm_num) (by norm_num)).1
  have h2 := (isInRange_edge (NewBasicTower 0 0) 100 13 rfl rfl (by norm_num [NewBasicTower])
    (by norm_num) (by norm_num) (by norm_num) (by norm_num)).1
  norm_num at h1 h2
  exact ⟨h1, h2⟩

/-- The Basic tower at the origin (range 100) reaches the enemy at (50, 0). -/
theorem basic_reaches_50 : (NewBasicTower 0 0).IsInRange (testEnemyAt 50) = true :=
  (isInRange_int _ _ (-50) 0 100 (by norm_num [NewBasicTower, testEnemyAt])
    (by norm_num [NewBasicTower, testEnemyAt]) (by norm_num [NewBasicTower])
    (by decide) (by decide) (by decide)).trans (by decide)

/-- The AOE tower at the origin (range 80) reaches the enemy at (50, 0). -/
theorem aoe_reaches_50 : (NewAOETower 0 0).IsInRange (testEnemyAt 50) = true :=
  (isInRange_int _ _ (-50) 0 80 (by norm_num [NewAOETower, testEnemyAt])
    (by norm_num [NewAOETower, testEnemyAt]) (by norm_num [NewAOETower])
    (by decide) (by decide) (by decide)).trans (by decide)

/-- The scan returns position `j` exactly for the first enemy that passes the range test. -/
theorem firstInRange_eq_some (t : Tower) (enemies : List Enemy) :
    ∀ (j : Nat) (target : Enemy), enemies[j]? = some target → t.IsInRange target = true →
      (∀ i, i < j → ∀ e, enemies[i]? = some e → t.IsInRange e = false) →
      t.firstInRange enemies = some j := by
  induction enemies with
  | nil =>
    intro j target hj
    simp at hj
  | cons a rest ih =>
    intro j target hj hin hfirst
    cases j with
    | zero =>
      have ha : a = target := by simpa using hj
      have hr : t.IsInRange a = true := by
        rw [ha]
        exact hin
      simp [Tower.firstInRange, hr]
    | succ j =>
      have ha : t.IsInRange a = false := hfirst 0 (Nat.succ_pos j) a (by simp)
      have hrest : t.firstInRange rest = some j := by
        refine ih j target (by simpa using hj) hin ?_
        intro i hi e he
        exact hfirst (i + 1) (by omega) e (by simpa using he)
      simp [Tower.firstInRange, ha, hrest]

/-- The scan finds nothing exactly when no enemy passes the range test. -/
theorem firstInRange_eq_none (t : Tower) (enemies : List Enemy)
    (h : ∀ e ∈ enemies, t.IsInRange e = false) : t.firstInRange enemies = none := by
  induction enemies with
  | nil => rfl
  | cons a rest ih =>
    have ha : t.IsInRange a = false := h a (List.mem_cons_self a rest)
    have hrest := ih (fun e he => h e (List.mem_cons_of_mem a he))
    simp [Tower.firstInRange, ha, hrest]

/-- A tower whose fire interval has not elapsed does nothing. -/
theorem towerUpdate_cooling (t : Tower) (now : Int) (enemies : List Enemy)
    (h : now - t.LastFired < t.FireRate) : t.Update now enemies = (t, enemies) := by
  unfold Tower.Update Tower.CanFire
  have hn : ¬ (now - t.LastFired ≥ t.FireRate) := by omega
  simp [hn]

/-- A tower with no enemy in range does nothing. -/
theorem towerUpdate_no_target (t : Tower) (now : Int) (enemies : List Enemy)
    (h : ∀ e ∈ enemies, t.IsInRange e = false) : t.Update now enemies = (t, enemies) := by
  unfold Tower.Update
  rw [firstInRange_eq_none t enemies h]
  split <;> rfl

/-- The result of `Update` for a tower that can fire and whose first enemy in range is at
position `j`. -/
theorem towerUpdate_fires (t : Tower) (now : Int) (enemies : List Enemy) (j : Nat)
    (target : Enemy) (hcan : now - t.LastFired ≥ t.FireRate)
    (hj : enemies[j]? = some target) (hin : t.IsInRange target = true)
    (hfirst : ∀ i, i < j → ∀ e, enemies[i]? = some e → t.IsInRange e = false) :
    t.Update now enemies =
      if t.Kind = "AOE" then
        ({ t with LastFired := now },
          Tower.DealAOEDamage { t with LastFired := now }
            (enemies.set j (target.TakeDamage t.Damage).1) j)
      else ({ t with LastFired := now }, enemies.set j (target.TakeDamage t.Damage).1) := by
  obtain ⟨hlt, hget⟩ := getElem_of_getElem? _ _ _ hj
  have hmod : List.modify (fun enemy => (enemy.TakeDamage t.Damage).1) j enemies =
      enemies.set j (target.TakeDamage t.Damage).1 := by
    rw [List.modify_eq_set_get _ hlt]
    simp only [List.get_eq_getElem, hget]
  unfold Tower.Update Tower.CanFire
  rw [firstInRange_eq_some t enemies j target hj hin hfirst]
  simp only [hcan, decide_True, Bool.not_true, Bool.false_eq_true, if_false, Tower.Fire, hmod]

/-- C14 as stated fails at the edge of the range: for the fresh Basic tower at the origin
(range 100) and the single enemy at `(100, 2 ^ (-30))`, the squared distance
`10000 + 2 ^ (-60)` exceeds the squared range, so no enemy is in range; yet the `float64`
sum rounds to 10000, and `Update`, two seconds past the zero time, fires: the enemy's
health falls from 100 to 90 and `LastFired` is set. -/
theorem towerUpdate_edge_counterexample :
    NewEnemy 100 10 5 1 [⟨100, 1 / 1073741824⟩] = some (edgeEnemyAt 100) ∧
    (NewBasicTower 0 0).Range * (NewBasicTower 0 0).Range <
      ((NewBasicTower 0 0).X - (edgeEnemyAt 100).X) *
          ((NewBasicTower 0 0).X - (edgeEnemyAt 100).X) +
        ((NewBasicTower 0 0).Y - (edgeEnemyAt 100).Y) *
          ((NewBasicTower 0 0).Y - (edgeEnemyAt 100).Y) ∧
    (NewBasicTower 0 0).Update 2000000000 [edgeEnemyAt 100] =
      ({ NewBasicTower 0 0 with LastFired := 2000000000 },
        [{ edgeEnemyAt 100 with Health := 90 }]) ∧
    (NewBasicTower 0 0).Update 2000000000 [edgeEnemyAt 100] ≠
      (NewBasicTower 0 0, [edgeEnemyAt 100]) := by
  have hupd : (NewBasicTower 0 0).Update 2000000000 [edgeEnemyAt 100] =
      ({ NewBasicTower 0 0 with LastFired := 2000000000 },
        [{ edgeEnemyAt 100 with Health := 90 }]) := by
    have hfire := towerUpdate_fires (NewBasicTower 0 0) 2000000000 [edgeEnemyAt 100] 0
      (edgeEnemyAt 100) (by decide) rfl isInRange_edge_towers.2 (by intro i hi; omega)
    have hkind : ¬ (NewBasicTower 0 0).Kind = "AOE" := by decide
    rw [hfire, if_neg hkind, takeDamage_eq]
    have h90 : (if (edgeEnemyAt 100).Health - (NewBasicTower 0 0).Damage < 0 then (0 : GoInt)
        else (edgeEnemyAt 100).Health - (NewBasicTower 0 0).Damage) = 90 := by
      show (if (100 : GoInt) - 10 < 0 then (0 : GoInt) else 100 - 10) = 90
      decide
    simp only [h90]
    rfl
  refine ⟨rfl, ?_, hupd, ?_⟩
  · norm_num [NewBasicTower, edgeEnemyAt]
  · rw [hupd]
    intro h
    have h2 := congrArg (fun p : Tower × List Enemy => p.1.LastFired) h
    revert h2
    show (2000000000 : Int) = 0 → False
    decide

/-- C14, amended: for a tower that is not of the AOE kind, with the clock reading `now`:
when it can fire (`now - LastFired ≥ FireRate`) and the first enemy in list order that
passes the tower's range test `IsInRange` (the comparison of the squared distance with the
squared range as the code evaluates it, every `float64` operation rounded) is at position
`j`, `Update` applies `TakeDamage` with the tower's damage to that enemy, leaves every
other enemy as it was and sets `LastFired` to `now`; when it cannot fire, or no enemy
passes the range test, the tower and the enemies are returned unchanged. The range test is
the exact comparison `dx * dx + dy * dy ≤ range * range` whenever the offsets and the range
are whole numbers below `2^26` in absolute value. And a fresh Basic tower standing where
the first enemy stands applies `TakeDamage(10)` to it on a first update (clock at least one
second past the zero time), which lowers a health of at least 10 by exactly 10, and does
nothing on an update less than one second later. -/
theorem towerUpdate_single_target :
    (∀ (t : Tower) (now : Int) (enemies : List Enemy), t.Kind ≠ "AOE" →
      (now - t.LastFired ≥ t.FireRate →
        ∀ (j : Nat) (target : Enemy), enemies[j]? = some target → t.IsInRange target = true →
          (∀ i, i < j → ∀ e, enemies[i]? = some e → t.IsInRange e = false) →
          t.Update now enemies =
            ({ t with LastFired := now }, enemies.set j (target.TakeDamage t.Damage).1)) ∧
      (now - t.LastFired < t.FireRate → t.Update now enemies = (t, enemies)) ∧
      ((∀ e ∈ enemies, t.IsInRange e = false) → t.Update now enemies = (t, enemies))) ∧
    (∀ (t : Tower) (e : Enemy) (x y r : Int), t.X - e.X = x → t.Y - e.Y = y → t.Range = r →
      x.natAbs < 67108864 → y.natAbs < 67108864 → r.natAbs < 67108864 →
      t.IsInRange e = decide (x * x + y * y ≤ r * r)) ∧
    (∀ (e : Enemy) (rest : List Enemy) (now1 now2 : Int), now1 ≥ Second →
      now2 - now1 < Second →
      (NewBasicTower e.X e.Y).Update now1 (e :: rest) =
        ({ NewBasicTower e.X e.Y with LastFired := now1 }, (e.TakeDamage 10).1 :: rest) ∧
      Tower.Update { NewBasicTower e.X e.Y with LastFired := now1 } now2
          ((e.TakeDamage 10).1 :: rest) =
        ({ NewBasicTower e.X e.Y with LastFired := now1 }, (e.TakeDamage 10).1 :: rest) ∧
      (10 ≤ e.Health → (e.TakeDamage 10).1.Health.toInt = e.Health.toInt - 10)) := by
  refine ⟨?_, isInRange_int, ?_⟩
  · intro t now enemies hk
    refine ⟨?_, towerUpdate_cooling t now enemies, towerUpdate_no_target t now enemies⟩
    intro hcan j target hj hin hfirst
    rw [towerUpdate_fires t now enemies j target hcan hj hin hfirst, if_neg hk]
  · intro e rest now1 now2 h1 h2
    refine ⟨?_, ?_, ?_⟩
    · have hin : (NewBasicTower e.X e.Y).IsInRange e = true :=
        (isInRange_int _ _ 0 0 100 (by norm_num [NewBasicTower])
          (by norm_num [NewBasicTower]) (by norm_num [NewBasicTower])
          (by decide) (by decide) (by decide)).trans (by decide)
      have hfire := towerUpdate_fires (NewBasicTower e.X e.Y) now1 (e :: rest) 0 e
        (by simpa [NewBasicTower] using h1) (by simp) hin (by intro i hi; omega)
      rw [hfire]
      rfl
    · exact towerUpdate_cooling _ now2 _ (by simpa [NewBasicTower] using h2)
    · intro hge
      have h10 : (10 : GoInt).toInt = 10 := rfl
      have hge2 : 10 ≤ e.Health.toInt := by
        have := (GoInt.le_def _ _).mp hge
        rw [h10] at this
        exact this
      have hle := e.Health.toInt_le
      have hex := takeDamage_health_exact e 10 (by unfold InInt64; rw [h10]; omega)
      rw [hex, h10]
      exact max_eq_right (by omega)

/-- C14 at the concrete input of `TestUpdate` in the tower tests: a fresh Basic tower at the
origin, enemies at (50, 0) and (200, 0), clock two seconds past the zero time: the first
enemy is hit, the second is not, and a second update half a second later changes
nothing. -/
theorem towerUpdate_single_target_witness :
    (NewBasicTower 0 0).Update 2000000000 towerTestEnemies =
      ({ NewBasicTower 0 0 with LastFired := 2000000000 },
        towerTestEnemies.set 0 ((testEnemyAt 50).TakeDamage (NewBasicTower 0 0).Damage).1) ∧
    Tower.Update { NewBasicTower 0 0 with LastFired := 2000000000 } 2500000000
        [{ testEnemyAt 50 with Health := 90 }, testEnemyAt 200] =
      ({ NewBasicTower 0 0 with LastFired := 2000000000 },
        [{ testEnemyAt 50 with Health := 90 }, testEnemyAt 200]) :=
  ⟨((towerUpdate_single_target.1 (NewBasicTower 0 0) 2000000000 towerTestEnemies
      (by decide)).1 (by decide) 0 (testEnemyAt 50) rfl
      basic_reaches_50
      (by intro i hi; omega)),
    ((towerUpdate_single_target.1 { NewBasicTower 0 0 with LastFired := 2000000000 }
      2500000000 [{ testEnemyAt 50 with Health := 90 }, testEnemyAt 200]
      (by decide)).2.1 (by decide))⟩

/-- The list left by `Update` on the input of `TestUpdate` in the tower tests: health 90
for the enemy at (50, 0), 100 for the enemy at (200, 0). -/
theorem towerUpdate_test :
    (NewBasicTower 0 0).Update 2000000000 towerTestEnemies =
      ({ NewBasicTower 0 0 with LastFired := 2000000000 },
        [{ testEnemyAt 50 with Health := 90 }, testEnemyAt 200]) := by
  have hupd := towerUpdate_fires (NewBasicTower 0 0) 2000000000 towerTestEnemies 0
    (testEnemyAt 50) (by decide) rfl
    basic_reaches_50
    (by intro i hi; omega)
  have hkind : ¬ (NewBasicTower 0 0).Kind = "AOE" := by decide
  rw [hupd, if_neg hkind, takeDamage_eq]
  have h90 : (if (testEnemyAt 50).Health - (NewBasicTower 0 0).Damage < 0 then (0 : GoInt)
      else (testEnemyAt 50).Health - (NewBasicTower 0 0).Damage) = 90 := by
    show (if (100 : GoInt) - 10 < 0 then (0 : GoInt) else 100 - 10) = 90
    decide
  simp only [h90]
  rfl

/-- The entry at position `k` after `DealAOEDamage` with the target at position `target`. -/
theorem dealAOEDamage_getElem? (t : Tower) (enemies : List Enemy) (target k : Nat) :
    (t.DealAOEDamage enemies target)[k]? =
      (enemies[k]?).map fun enemy =>
        if k ≠ target ∧ t.IsInRange enemy = true then
          (enemy.TakeDamage (t.Damage / 2)).1
        else enemy := by
  unfold Tower.DealAOEDamage
  rw [List.getElem?_mapIdx]

/-- C13 as stated fails at the edge of the range: for the fresh AOE tower at the origin
(range 80, damage 15) and the enemies at `(50, 0)` and `(80, 2 ^ (-30))`, the second enemy
is out of range, its squared distance `6400 + 2 ^ (-60)` exceeding the squared range; yet
the `float64` sum rounds to 6400, and `Update`, two seconds past the zero time, hits the
first enemy (health 85) and splashes the second: its health falls from 100 to 93. -/
theorem towerUpdate_aoe_edge_counterexample :
    NewEnemy 100 10 5 1 [⟨80, 1 / 1073741824⟩] = some (edgeEnemyAt 80) ∧
    (NewAOETower 0 0).Range * (NewAOETower 0 0).Range <
      ((NewAOETower 0 0).X - (edgeEnemyAt 80).X) * ((NewAOETower 0 0).X - (edgeEnemyAt 80).X) +
        ((NewAOETower 0 0).Y - (edgeEnemyAt 80).Y) *
          ((NewAOETower 0 0).Y - (edgeEnemyAt 80).Y) ∧
    (NewAOETower 0 0).Update 2000000000 [testEnemyAt 50, edgeEnemyAt 80] =
      ({ NewAOETower 0 0 with LastFired := 2000000000 },
        [{ testEnemyAt 50 with Health := 85 }, { edgeEnemyAt 80 with Health := 93 }]) ∧
    ((NewAOETower 0 0).Update 2000000000 [testEnemyAt 50, edgeEnemyAt 80]).2[1]? ≠
      some (edgeEnemyAt 80) := by
  have hupd : (NewAOETower 0 0).Update 2000000000 [testEnemyAt 50, edgeEnemyAt 80] =
      ({ NewAOETower 0 0 with LastFired := 2000000000 },
        [{ testEnemyAt 50 with Health := 85 }, { edgeEnemyAt 80 with Health := 93 }]) := by
    have hfire := towerUpdate_fires (NewAOETower 0 0) 2000000000
      [testEnemyAt 50, edgeEnemyAt 80] 0 (testEnemyAt 50) (by decide) rfl aoe_reaches_50
      (by intro i hi; omega)
    have hkind : (NewAOETower 0 0).Kind = "AOE" := rfl
    rw [hfire, if_pos hkind]
    have hedge : Tower.IsInRange { NewAOETower 0 0 with LastFired := 2000000000 }
        (edgeEnemyAt 80) = true := isInRange_edge_towers.1
    have h85 : (if (testEnemyAt 50).Health - (NewAOETower 0 0).Damage < 0 then (0 : GoInt)
        else (testEnemyAt 50).Health - (NewAOETower 0 0).Damage) = 85 := by
      show (if (100 : GoInt) - 15 < 0 then (0 : GoInt) else 100 - 15) = 85
      decide
    have h93 : (if (edgeEnemyAt 80).Health - (NewAOETower 0 0).Damage / 2 < 0 then (0 : GoInt)
        else (edgeEnemyAt 80).Health - (NewAOETower 0 0).Damage / 2) = 93 := by
      show (if (100 : GoInt) - 15 / 2 < 0 then (0 : GoInt) else 100 - 15 / 2) = 93
      decide
    simp only [List.set_cons_zero, Tower.DealAOEDamage, List.mapIdx_cons, List.mapIdx_nil,
      hedge, takeDamage_eq, h85]
    simp [h93]
  refine ⟨rfl, ?_, hupd, ?_⟩
  · norm_num [NewAOETower, edgeEnemyAt]
  · rw [hupd]
    intro h
    have h2 : ({ edgeEnemyAt 80 with Health := 93 } : Enemy) = edgeEnemyAt 80 := by
      simpa using h
    have h3 := congrArg (fun e : Enemy => e.Health.toInt) h2
    revert h3
    show (93 : GoInt).toInt = (100 : GoInt).toInt → False
    decide

/-- C13, amended: when a tower of the AOE kind can fire and the first enemy in list order
that passes the tower's range test `IsInRange` (the comparison of the squared distance with
the squared range as the code evaluates it, every `float64` operation rounded), the target,
is at position `j`: `Update` sets `LastFired` to the clock reading and keeps the list
positions; the target is left as `TakeDamage` with the full damage leaves it (one hit, no
splash); every other enemy that passes the range test is left as `TakeDamage` with
`Damage / 2` leaves it, and `Damage / 2` is the damage halved with truncation; every enemy
that fails the range test is unchanged. The range test is the exact comparison
`dx * dx + dy * dy ≤ range * range` whenever the offsets and the range are whole numbers
below `2^26` in absolute value. And `DealAOEDamage` alone leaves the entry at the target
position as it was. -/
theorem towerUpdate_aoe (t : Tower) (now : Int) (enemies : List Enemy) (j : Nat)
    (target : Enemy) (hk : t.Kind = "AOE") (hcan : now - t.LastFired ≥ t.FireRate)
    (hj : enemies[j]? = some target) (hin : t.IsInRange target = true)
    (hfirst : ∀ i, i < j → ∀ e, enemies[i]? = some e → t.IsInRange e = false) :
    (t.Update now enemies).1 = { t with LastFired := now } ∧
    (t.Update now enemies).2.length = enemies.length ∧
    (t.Update now enemies).2[j]? = some (target.TakeDamage t.Damage).1 ∧
    (∀ (k : Nat) (e : Enemy), k ≠ j → enemies[k]? = some e → t.IsInRange e = true →
      (t.Update now enemies).2[k]? = some (e.TakeDamage (t.Damage / 2)).1) ∧
    (t.Damage / 2).toInt = Int.tdiv t.Damage.toInt 2 ∧
    (∀ (k : Nat) (e : Enemy), enemies[k]? = some e → t.IsInRange e = false →
      (t.Update now enemies).2[k]? = some e) ∧
    (∀ (other : Tower) (tgt : Nat),
      (other.DealAOEDamage enemies tgt)[tgt]? = enemies[tgt]?) ∧
    (∀ (e : Enemy) (x y r : Int), t.X - e.X = x → t.Y - e.Y = y → t.Range = r →
      x.natAbs < 67108864 → y.natAbs < 67108864 → r.natAbs < 67108864 →
      t.IsInRange e = decide (x * x + y * y ≤ r * r)) := by
  obtain ⟨hlt, _⟩ := getElem_of_getElem? _ _ _ hj
  have hupd := towerUpdate_fires t now enemies j target hcan hj hin hfirst
  rw [if_pos hk] at hupd
  rw [hupd]
  have hrange : ∀ e : Enemy, Tower.IsInRange { t with LastFired := now } e = t.IsInRange e :=
    fun _ => rfl
  refine ⟨rfl, ?_, ?_, ?_, GoInt.div_two_exact _, ?_, ?_, isInRange_int t⟩
  · simp [Tower.DealAOEDamage]
  · show (Tower.DealAOEDamage _ _ j)[j]? = _
    rw [dealAOEDamage_getElem?, List.getElem?_set]
    simp [hlt]
  · intro k e hkj hk1 hin1
    show (Tower.DealAOEDamage _ _ j)[k]? = _
    rw [dealAOEDamage_getElem?, List.getElem?_set, if_neg (Ne.symm hkj), hk1]
    simp only [Option.map_some', hrange, hin1, and_true, hkj, ne_eq, not_false_eq_true, if_true]
  · intro k e hk1 hout
    show (Tower.DealAOEDamage _ _ j)[k]? = _
    have hkj : j ≠ k := by
      intro hjk
      rw [hjk, hk1] at hj
      rw [Option.some.inj hj, hin] at hout
      exact Bool.noConfusion hout
    rw [dealAOEDamage_getElem?, List.getElem?_set, if_neg hkj, hk1]
    simp [hrange, hout]
  · intro other tgt
    rw [dealAOEDamage_getElem?]
    cases enemies[tgt]? with
    | none => rfl
    | some a => simp

/-- C13 at the concrete input of `TestDealAOEDamage`, fired through `Update`: a fresh AOE
tower (damage 15, range 80) at the origin, clock two seconds past the zero time, enemies at
(50, 0), (60, 0) and (100, 0). -/
theorem towerUpdate_aoe_witness :
    ((NewAOETower 0 0).Update 2000000000 aoeTestEnemies).1 =
      { NewAOETower 0 0 with LastFired := 2000000000 } ∧
    ((NewAOETower 0 0).Update 2000000000 aoeTestEnemies).2.length = aoeTestEnemies.length ∧
    ((NewAOETower 0 0).Update 2000000000 aoeTestEnemies).2[0]? =
      some ((testEnemyAt 50).TakeDamage (NewAOETower 0 0).Damage).1 ∧
    (∀ (k : Nat) (e : Enemy), k ≠ 0 → aoeTestEnemies[k]? = some e →
      (NewAOETower 0 0).IsInRange e = true →
      ((NewAOETower 0 0).Update 2000000000 aoeTestEnemies).2[k]? =
        some (e.TakeDamage ((NewAOETower 0 0).Damage / 2)).1) ∧
    ((NewAOETower 0 0).Damage / 2).toInt = Int.tdiv (NewAOETower 0 0).Damage.toInt 2 ∧
    (∀ (k : Nat) (e : Enemy), aoeTestEnemies[k]? = some e →
      (NewAOETower 0 0).IsInRange e = false →
      ((NewAOETower 0 0).Update 2000000000 aoeTestEnemies).2[k]? = some e) ∧
    (∀ (other : Tower) (tgt : Nat),
      (other.DealAOEDamage aoeTestEnemies tgt)[tgt]? = aoeTestEnemies[tgt]?) ∧
    (∀ (e : Enemy) (x y r : Int), (NewAOETower 0 0).X - e.X = x →
      (NewAOETower 0 0).Y - e.Y = y → (NewAOETower 0 0).Range = r →
      x.natAbs < 67108864 → y.natAbs < 67108864 → r.natAbs < 67108864 →
      (NewAOETower 0 0).IsInRange e = decide (x * x + y * y ≤ r * r)) :=
  towerUpdate_aoe (NewAOETower 0 0) 2000000000 aoeTestEnemies 0 (testEnemyAt 50) rfl
    (by decide) rfl aoe_reaches_50
    (by intro i hi; omega)

/-- The list left by `Update` on the input of `TestDealAOEDamage`: health 85 for the
target, 93 for the enemy at (60, 0), 100 for the enemy at (100, 0). -/
theorem towerUpdate_aoe_test :
    (NewAOETower 0 0).Update 2000000000 aoeTestEnemies =
      ({ NewAOETower 0 0 with LastFired := 2000000000 },
        [{ testEnemyAt 50 with Health := 85 }, { testEnemyAt 60 with Health := 93 },
          testEnemyAt 100]) := by
  have hupd := towerUpdate_fires (NewAOETower 0 0) 2000000000 aoeTestEnemies 0 (testEnemyAt 50)
    (by decide) rfl aoe_reaches_50
    (by intro i hi; omega)
  have hkind : (NewAOETower 0 0).Kind = "AOE" := rfl
  rw [hupd, if_pos hkind]
  have h60 : Tower.IsInRange { NewAOETower 0 0 with LastFired := 2000000000 }
      (testEnemyAt 60) = true :=
    (isInRange_int _ _ (-60) 0 80 (by norm_num [NewAOETower, testEnemyAt])
      (by norm_num [NewAOETower, testEnemyAt]) (by norm_num [NewAOETower])
      (by decide) (by decide) (by decide)).trans (by decide)
  have h100 : Tower.IsInRange { NewAOETower 0 0 with LastFired := 2000000000 }
      (testEnemyAt 100) = false :=
    (isInRange_int _ _ (-100) 0 80 (by norm_num [NewAOETower, testEnemyAt])
      (by norm_num [NewAOETower, testEnemyAt]) (by norm_num [NewAOETower])
      (by decide) (by decide) (by decide)).trans (by decide)
  have h85 : (if (testEnemyAt 50).Health - (NewAOETower 0 0).Damage < 0 then (0 : GoInt)
      else (testEnemyAt 50).Health - (NewAOETower 0 0).Damage) = 85 := by
    show (if (100 : GoInt) - 15 < 0 then (0 : GoInt) else 100 - 15) = 85
    decide
  have h93 : (if (testEnemyAt 60).Health - (NewAOETower 0 0).Damage / 2 < 0 then (0 : GoInt)
      else (testEnemyAt 60).Health - (NewAOETower 0 0).Damage / 2) = 93 := by
    show (if (100 : GoInt) - 15 / 2 < 0 then (0 : GoInt) else 100 - 15 / 2) = 93
    decide
  simp only [aoeTestEnemies, List.set_cons_zero, Tower.DealAOEDamage, List.mapIdx_cons,
    List.mapIdx_nil, h60, h100, takeDamage_eq, h85]
  simp [h93]

/-! ## Update returns, and never touches the money -/

/-- The spawn loop never touches the money. -/
theorem spawnLoop_money (n : Nat) :
    ∀ gs gs1 : GameState, gs.spawnLoop n = some gs1 → gs1.money = gs.money := by
  induction n with
  | zero =>
    intro gs gs1 h
    simp only [GameState.spawnLoop] at h
    rw [← Option.some.inj h]
  | succ n ih =>
    intro gs gs1 h
    simp only [GameState.spawnLoop] at h
    split at h
    · exact Option.noConfusion h
    · have hm := ih _ gs1 h
      exact hm

/-- Whenever `Update` returns, the money is what it was. -/
theorem update_money (gs gs1 : GameState) (clock : Nat → Int)
    (h : gs.Update clock = some gs1) : gs1.money = gs.money := by
  unfold GameState.Update at h
  by_cases hp : gs.paused = true
  · rw [if_pos hp] at h
    rw [← Option.some.inj h]
  · rw [if_neg hp] at h
    simp only at h
    split at h
    · exact Option.noConfusion h
    · split at h
      · unfold GameState.spawnEnemiesForWave at h
        have hm := spawnLoop_money _ _ gs1 h
        exact hm
      · rw [← Option.some.inj h]

/-- Every enemy left by swap-remove was in the list. -/
theorem mem_of_mem_swapRemove {α : Type} (xs : List α) (i : Nat) (h : i < xs.length) (a : α)
    (ha : a ∈ swapRemove xs i) : a ∈ xs :=
  List.mem_of_mem_eraseIdx ((swapRemove_perm xs i h).subset ha)

/-- A `Move` that returns leaves the path index where it was or one higher. -/
theorem move_pathIndex (e e1 : Enemy) (h : e.Move = some e1) :
    e1.PathIndex = e.PathIndex ∨ e1.PathIndex = e.PathIndex + 1 := by
  rcases move_cases e e1 h with ⟨_, rfl⟩ | ⟨_, target, _, rfl | ⟨x, y, rfl⟩⟩
  · exact Or.inl rfl
  · exact Or.inr rfl
  · exact Or.inl rfl

/-- The second loop of `Update` returns (no index panic) when no path index on the field is
negative. -/
theorem updateEnemies_returns (n : Nat) :
    ∀ (lives : GoInt) (enemies : List Enemy) (i : Nat), enemies.length - i = n →
      (∀ e ∈ enemies, 0 ≤ e.PathIndex) →
      ∃ r, GameState.updateEnemies lives enemies i = some r := by
  induction n with
  | zero =>
    intro lives enemies i hn _
    exact ⟨_, updateEnemies_done lives enemies i (by omega)⟩
  | succ n ih =>
    intro lives enemies i hn hidx
    have hlt : i < enemies.length := by omega
    rw [GameState.updateEnemies, dif_pos hlt]
    by_cases hend : enemies[i].HasReachedEnd = true
    · simp only [hend, if_true]
      refine ih _ _ i ?_ ?_
      · rw [swapRemove_length _ _ hlt]
        omega
      · intro e he
        exact hidx e (mem_of_mem_swapRemove _ _ hlt e he)
    · simp only [hend, if_false]
      have hi0 : 0 ≤ enemies[i].PathIndex := hidx _ (List.getElem_mem hlt)
      obtain ⟨e1, hm⟩ := move_returns enemies[i] hi0
      rw [hm]
      refine ih _ _ (i + 1) ?_ ?_
      · rw [List.length_set]
        omega
      · intro e he
        rcases List.mem_or_eq_of_mem_set he with hmem | rfl
        · exact hidx e hmem
        · rcases move_pathIndex _ _ hm with h1 | h1 <;> omega

/-- The tower pass leaves every path index as it was. -/
theorem updateTowers_pathIndex (clock : Nat → Int) (towers : List Tower)
    (enemies : List Enemy) (h : ∀ e ∈ enemies, 0 ≤ e.PathIndex) :
    ∀ e ∈ (GameState.updateTowers clock 0 towers enemies).2, 0 ≤ e.PathIndex := by
  intro e he
  have hmap := updateTowers_sansHealth clock towers 0 enemies
  have hmem : e.sansHealth ∈ enemies.map Enemy.sansHealth := by
    rw [← hmap]
    exact List.mem_map_of_mem _ he
  obtain ⟨e0, he0, heq⟩ := List.mem_map.mp hmem
  have hpi := (sansHealth_fields e0 e heq).2.2.2.2.1
  rw [← hpi]
  exact h e0 he0

/-- `Update` returns (no panic) on a state with a non-empty path and no negative path
index among its enemies. -/
theorem update_returns (gs : GameState) (clock : Nat → Int)
    (hidx : ∀ e ∈ gs.enemies, 0 ≤ e.PathIndex) (hpath : gs.enemyPath ≠ []) :
    ∃ gs1, gs.Update clock = some gs1 := by
  unfold GameState.Update
  by_cases hp : gs.paused = true
  · exact ⟨gs, by rw [if_pos hp]⟩
  · rw [if_neg hp]
    obtain ⟨r, hr⟩ := updateEnemies_returns _ gs.lives
      (GameState.updateTowers clock 0 gs.towers gs.enemies).2 0 rfl
      (updateTowers_pathIndex clock gs.towers gs.enemies hidx)
    simp only [hr]
    split
    · cases hgp : gs.enemyPath with
      | nil => exact absurd hgp hpath
      | cons p rest =>
        unfold GameState.spawnEnemiesForWave
        dsimp only
        exact ⟨_, spawnLoop_eq _ _ p rest rfl⟩
    · exact ⟨_, rfl⟩

/-- C20: `Update` never changes the money. For every state and clock, paused or not and
whatever the towers and enemies, the state `Update` returns has the money of the state it
was given; and `Update` does return on every state with a non-empty path whose enemies
have no negative path index. -/
theorem update_keeps_money (gs : GameState) (clock : Nat → Int) :
    (∀ gs1, gs.Update clock = some gs1 → gs1.money = gs.money) ∧
    ((∀ e ∈ gs.enemies, 0 ≤ e.PathIndex) → gs.enemyPath ≠ [] →
      ∃ gs1, gs.Update clock = some gs1 ∧ gs1.money = gs.money) := by
  refine ⟨fun gs1 h => update_money gs gs1 clock h, ?_⟩
  intro hidx hpath
  obtain ⟨gs1, h⟩ := update_returns gs clock hidx hpath
  exact ⟨gs1, h, update_money gs gs1 clock h⟩

/-- C20 at a concrete input: the tick in which the tower brings the enemy's health to 0
(no reward is paid), and the paused fresh state. -/
theorem update_keeps_money_witness :
    (∃ gs1, killState.Update lateClock = some gs1 ∧ (∃ e ∈ gs1.enemies, e.Health = 0) ∧
      gs1.money = killState.money) ∧
    (∃ gs1, pausedEmptyState.Update lateClock = some gs1 ∧
      gs1.money = pausedEmptyState.money) :=
  ⟨⟨_, killState_update, ⟨_, List.mem_singleton.mpr rfl, rfl⟩,
      (update_keeps_money killState lateClock).1 _ killState_update⟩,
    (update_keeps_money pausedEmptyState lateClock).2 (by intro e he; cases he) (by decide)⟩

/-! ## The tower invariant under repeated upgrades -/

/-- Along the upgrades of a freshly built tower the level stays within 1 and 3 and the
damage stays small: at most 40 less 5 for each level still to come. -/
theorem upgrades_bounds (t0 : Tower) (x y : ℚ)
    (h : t0 = NewBasicTower x y ∨ t0 = NewSniperTower x y ∨ t0 = NewAOETower x y) (k : Nat) :
    1 ≤ (t0.upgrades k).Level.toInt ∧ (t0.upgrades k).Level.toInt ≤ 3 ∧
    0 ≤ (t0.upgrades k).Damage.toInt ∧
    (t0.upgrades k).Damage.toInt + 5 * (3 - (t0.upgrades k).Level.toInt) ≤ 40 := by
  have h1 : (1 : GoInt).toInt = 1 := rfl
  have h3 : (3 : GoInt).toInt = 3 := rfl
  have h5 : (5 : GoInt).toInt = 5 := rfl
  induction k with
  | zero =>
    show 1 ≤ t0.Level.toInt ∧ t0.Level.toInt ≤ 3 ∧ 0 ≤ t0.Damage.toInt ∧
      t0.Damage.toInt + 5 * (3 - t0.Level.toInt) ≤ 40
    rcases h with rfl | rfl | rfl
    · show 1 ≤ (1 : GoInt).toInt ∧ (1 : GoInt).toInt ≤ 3 ∧ 0 ≤ (10 : GoInt).toInt ∧
        (10 : GoInt).toInt + 5 * (3 - (1 : GoInt).toInt) ≤ 40
      decide
    · show 1 ≤ (1 : GoInt).toInt ∧ (1 : GoInt).toInt ≤ 3 ∧ 0 ≤ (30 : GoInt).toInt ∧
        (30 : GoInt).toInt + 5 * (3 - (1 : GoInt).toInt) ≤ 40
      decide
    · show 1 ≤ (1 : GoInt).toInt ∧ (1 : GoInt).toInt ≤ 3 ∧ 0 ≤ (15 : GoInt).toInt ∧
        (15 : GoInt).toInt + 5 * (3 - (1 : GoInt).toInt) ≤ 40
      decide
  | succ k ih =>
    show 1 ≤ (t0.upgrades k).Upgrade.1.Level.toInt ∧ (t0.upgrades k).Upgrade.1.Level.toInt ≤ 3 ∧
      0 ≤ (t0.upgrades k).Upgrade.1.Damage.toInt ∧
      (t0.upgrades k).Upgrade.1.Damage.toInt +
        5 * (3 - (t0.upgrades k).Upgrade.1.Level.toInt) ≤ 40
    by_cases hl : (t0.upgrades k).Level < 3
    · have hl3 : (t0.upgrades k).Level.toInt < 3 := by
        have := (GoInt.lt_def _ _).mp hl
        rw [h3] at this
        exact this
      rw [upgrade_ok _ hl]
      show 1 ≤ ((t0.upgrades k).Level + 1).toInt ∧ ((t0.upgrades k).Level + 1).toInt ≤ 3 ∧
        0 ≤ ((t0.upgrades k).Damage + 5).toInt ∧
        ((t0.upgrades k).Damage + 5).toInt + 5 * (3 - ((t0.upgrades k).Level + 1).toInt) ≤ 40
      rw [GoInt.toInt_add, GoInt.toInt_add, h1, h5]
      omega
    · rw [upgrade_max _ ((GoInt.not_lt _ _).mp hl)]
      exact ih

/-- Along the upgrades of a freshly built tower the range is a whole number, at most 240
less 20 for each level still to come. -/
theorem upgrades_range (t0 : Tower) (x y : ℚ)
    (h : t0 = NewBasicTower x y ∨ t0 = NewSniperTower x y ∨ t0 = NewAOETower x y) (k : Nat) :
    ∃ n : Nat, (t0.upgrades k).Range = (n : ℚ) ∧
      (n : Int) + 20 * (3 - (t0.upgrades k).Level.toInt) ≤ 240 := by
  have h1 : (1 : GoInt).toInt = 1 := rfl
  have h3 : (3 : GoInt).toInt = 3 := rfl
  induction k with
  | zero =>
    show ∃ n : Nat, t0.Range = (n : ℚ) ∧ (n : Int) + 20 * (3 - t0.Level.toInt) ≤ 240
    rcases h with rfl | rfl | rfl
    · exact ⟨100, by norm_num [NewBasicTower], by
        show ((100 : Nat) : Int) + 20 * (3 - (1 : GoInt).toInt) ≤ 240
        decide⟩
    · exact ⟨200, by norm_num [NewSniperTower], by
        show ((200 : Nat) : Int) + 20 * (3 - (1 : GoInt).toInt) ≤ 240
        decide⟩
    · exact ⟨80, by norm_num [NewAOETower], by
        show ((80 : Nat) : Int) + 20 * (3 - (1 : GoInt).toInt) ≤ 240
        decide⟩
  | succ k ih =>
    obtain ⟨n, hn, hle⟩ := ih
    obtain ⟨hl1, _, _, _⟩ := upgrades_bounds t0 x y h k
    show ∃ n : Nat, (t0.upgrades k).Upgrade.1.Range = (n : ℚ) ∧
      (n : Int) + 20 * (3 - (t0.upgrades k).Upgrade.1.Level.toInt) ≤ 240
    by_cases hl : (t0.upgrades k).Level < 3
    · have hl3 : (t0.upgrades k).Level.toInt < 3 := by
        have := (GoInt.lt_def _ _).mp hl
        rw [h3] at this
        exact this
      rw [upgrade_ok _ hl]
      refine ⟨n + 20, ?_, ?_⟩
      · show roundFloat ((t0.upgrades k).Range + 20) = ((n + 20 : Nat) : ℚ)
        rw [hn]
        have hcast : (n : ℚ) + 20 = ((n + 20 : Nat) : ℚ) := by push_cast; rfl
        rw [hcast]
        exact roundFloat_natCast (n + 20) (by omega)
      · show ((n + 20 : Nat) : Int) + 20 * (3 - ((t0.upgrades k).Level + 1).toInt) ≤ 240
        rw [GoInt.toInt_add, h1]
        push_cast
        omega
    · rw [upgrade_max _ ((GoInt.not_lt _ _).mp hl)]
      exact ⟨n, hn, hle⟩

/-- One `Upgrade` call along the upgrades of a freshly built tower, successful or refused,
lowers neither the damage nor the range. -/
theorem upgrades_step_le (t0 : Tower) (x y : ℚ)
    (h : t0 = NewBasicTower x y ∨ t0 = NewSniperTower x y ∨ t0 = NewAOETower x y) (k : Nat) :
    (t0.upgrades k).Damage ≤ (t0.upgrades (k + 1)).Damage ∧
      (t0.upgrades k).Range ≤ (t0.upgrades (k + 1)).Range := by
  have h5 : (5 : GoInt).toInt = 5 := rfl
  obtain ⟨hl1, _, hd0, hd⟩ := upgrades_bounds t0 x y h k
  obtain ⟨n, hn, hle⟩ := upgrades_range t0 x y h k
  show (t0.upgrades k).Damage ≤ (t0.upgrades k).Upgrade.1.Damage ∧
    (t0.upgrades k).Range ≤ (t0.upgrades k).Upgrade.1.Range
  by_cases hl : (t0.upgrades k).Level < 3
  · rw [upgrade_ok _ hl]
    refine ⟨?_, ?_⟩
    · show (t0.upgrades k).Damage ≤ (t0.upgrades k).Damage + 5
      rw [GoInt.le_def, GoInt.toInt_add, h5]
      omega
    · show (t0.upgrades k).Range ≤ roundFloat ((t0.upgrades k).Range + 20)
      have hcast : (n : ℚ) + 20 = ((n + 20 : Nat) : ℚ) := by push_cast; rfl
      rw [hn, hcast, roundFloat_natCast (n + 20) (by omega)]
      push_cast
      linarith
  · rw [upgrade_max _ ((GoInt.not_lt _ _).mp hl)]
    exact ⟨GoInt.le_refl _, le_refl _⟩

/-- C21: a tower built by `NewBasicTower`, `NewSniperTower` or `NewAOETower` and then put
through any number `n` of `Upgrade` calls, successful or refused, has `1 ≤ Level ≤ 3`
after each of them, and its damage and range after `m` calls are at most those after any
later number `n ≥ m` of calls. -/
theorem upgrades_invariant (t0 : Tower) (x y : ℚ)
    (h : t0 = NewBasicTower x y ∨ t0 = NewSniperTower x y ∨ t0 = NewAOETower x y)
    (n : Nat) :
    (1 ≤ (t0.upgrades n).Level ∧ (t0.upgrades n).Level ≤ 3) ∧
    (∀ m, m ≤ n →
      (t0.upgrades m).Damage ≤ (t0.upgrades n).Damage ∧
        (t0.upgrades m).Range ≤ (t0.upgrades n).Range) := by
  have h1 : (1 : GoInt).toInt = 1 := rfl
  have h3 : (3 : GoInt).toInt = 3 := rfl
  have hb := upgrades_bounds t0 x y h n
  refine ⟨⟨?_, ?_⟩, ?_⟩
  · rw [GoInt.le_def, h1]
    exact hb.1
  · rw [GoInt.le_def, h3]
    exact hb.2.1
  · clear hb
    induction n with
    | zero =>
      intro m hm
      have hm0 : m = 0 := by omega
      rw [hm0]
      exact ⟨GoInt.le_refl _, le_refl _⟩
    | succ n ih =>
      intro m hm
      by_cases hmn : m = n + 1
      · rw [hmn]
        exact ⟨GoInt.le_refl _, le_refl _⟩
      · have hprev := ih m (by omega)
        have hstep := upgrades_step_le t0 x y h n
        exact ⟨GoInt.le_trans hprev.1 hstep.1, le_trans hprev.2 hstep.2⟩

/-- C21 at a concrete input: a Basic tower after five `Upgrade` calls (two succeed, three
are refused). -/
theorem upgrades_invariant_witness :
    (1 ≤ ((NewBasicTower 0 0).upgrades 5).Level ∧ ((NewBasicTower 0 0).upgrades 5).Level ≤ 3) ∧
    (∀ m, m ≤ 5 →
      ((NewBasicTower 0 0).upgrades m).Damage ≤ ((NewBasicTower 0 0).upgrades 5).Damage ∧
        ((NewBasicTower 0 0).upgrades m).Range ≤ ((NewBasicTower 0 0).upgrades 5).Range) :=
  upgrades_invariant (NewBasicTower 0 0) 0 0 (Or.inl rfl) 5

/-! ## Move and the path index -/

/-- C24: for an enemy with `0 ≤ PathIndex ≤ len(Path) - 1`, `Move` returns an enemy on the
same path whose path index is the old one or the old one plus exactly 1, whatever the
speed, and still at most `len(Path) - 1`; when the index went up, the position is exactly
the next waypoint; and `HasReachedEnd` is true exactly when `PathIndex = len(Path) - 1`.
For an enemy whose path index is not negative and is the last index, or whose path has
fewer than 2 points, `Move` changes nothing and `HasReachedEnd` is true. -/
theorem move_pathIndex_spec (e : Enemy) :
    (0 ≤ e.PathIndex → e.PathIndex ≤ (e.Path.length : Int) - 1 →
      ∃ e1, e.Move = some e1 ∧ e1.Path = e.Path ∧
        (e1.PathIndex = e.PathIndex ∨ e1.PathIndex = e.PathIndex + 1) ∧
        e1.PathIndex ≤ (e1.Path.length : Int) - 1 ∧
        (e1.PathIndex = e.PathIndex + 1 →
          sliceIndex e.Path (e.PathIndex + 1) = some ⟨e1.X, e1.Y⟩) ∧
        (e.HasReachedEnd = true ↔ e.PathIndex = (e.Path.length : Int) - 1)) ∧
    (0 ≤ e.PathIndex → (e.PathIndex = (e.Path.length : Int) - 1 ∨ e.Path.length < 2) →
      e.Move = some e ∧ e.HasReachedEnd = true) := by
  refine ⟨?_, ?_⟩
  · intro h0 h1
    obtain ⟨e1, hm⟩ := move_returns e h0
    have hreach : e.HasReachedEnd = true ↔ e.PathIndex = (e.Path.length : Int) - 1 := by
      unfold Enemy.HasReachedEnd
      simp only [decide_eq_true_eq]
      omega
    refine ⟨e1, hm, ?_⟩
    rcases move_cases e e1 hm with ⟨_, rfl⟩ | ⟨hlt, target, ht, rfl | ⟨x, y, rfl⟩⟩
    · exact ⟨rfl, Or.inl rfl, h1, fun hcon => by omega, hreach⟩
    · refine ⟨rfl, Or.inr rfl, ?_, fun _ => ht, hreach⟩
      show e.PathIndex + 1 ≤ (e.Path.length : Int) - 1
      omega
    · refine ⟨rfl, Or.inl rfl, h1, fun hcon => ?_, hreach⟩
      have hcon2 : e.PathIndex = e.PathIndex + 1 := hcon
      omega
  · intro h0 hlast
    have hend : e.PathIndex ≥ (e.Path.length : Int) - 1 := by
      rcases hlast with h | h
      · omega
      · omega
    refine ⟨move_at_end e hend, ?_⟩
    unfold Enemy.HasReachedEnd
    simp only [decide_eq_true_eq]
    exact hend

/-- C24 at concrete inputs: the enemy of `TestMove` at the start of its three-point path,
and the same enemy put on the last index 2. -/
theorem move_pathIndex_spec_witness :
    (∃ e1, testMover.Move = some e1 ∧ e1.Path = testMover.Path ∧
        (e1.PathIndex = testMover.PathIndex ∨ e1.PathIndex = testMover.PathIndex + 1) ∧
        e1.PathIndex ≤ (e1.Path.length : Int) - 1 ∧
        (e1.PathIndex = testMover.PathIndex + 1 →
          sliceIndex testMover.Path (testMover.PathIndex + 1) = some ⟨e1.X, e1.Y⟩) ∧
        (testMover.HasReachedEnd = true ↔
          testMover.PathIndex = (testMover.Path.length : Int) - 1)) ∧
    (Enemy.Move { testMover with PathIndex := 2 } = some { testMover with PathIndex := 2 } ∧
      Enemy.HasReachedEnd { testMover with PathIndex := 2 } = true) :=
  ⟨(move_pathIndex_spec testMover).1 (by decide) (by decide),
    (move_pathIndex_spec { testMover with PathIndex := 2 }).2 (by decide)
      (Or.inl (by decide))⟩

/-! ## The enemy pass of Update -/

/-- Swap-remove behind a prefix acts on the rest of the list. -/
theorem swapRemove_append {α : Type} (front : List α) (a : α) (rest : List α) :
    swapRemove (front ++ a :: rest) front.length = front ++ swapRemove (a :: rest) 0 := by
  have hne : a :: rest ≠ [] := List.cons_ne_nil a rest
  have hl1 : (a :: rest).getLast? = some ((a :: rest).getLast hne) :=
    List.getLast?_eq_getLast _ hne
  have hl2 : (front ++ a :: rest).getLast? = some ((a :: rest).getLast hne) := by
    rw [List.getLast?_append, hl1]
    rfl
  rw [swapRemove_eq _ _ _ hl2, swapRemove_eq _ _ _ hl1]
  have hset : (front ++ a :: rest).set front.length ((a :: rest).getLast hne) =
      front ++ (a :: rest).set 0 ((a :: rest).getLast hne) := by
    rw [List.set_append, if_neg (lt_irrefl _), Nat.sub_self]
  rw [hset, List.dropLast_append_of_ne_nil]
  simp

/-- Swap-remove at the head keeps the tail, rearranged. -/
theorem swapRemove_head_perm {α : Type} (a : α) (rest : List α) :
    (swapRemove (a :: rest) 0).Perm rest := by
  have h := swapRemove_perm (a :: rest) 0 (Nat.succ_pos _)
  simpa using h

/-- The examination order of the pass is a rearrangement of the list. -/
theorem passOrder_perm (n : Nat) :
    ∀ pending : List Enemy, pending.length = n → (passOrder n pending).Perm pending := by
  induction n with
  | zero =>
    intro pending hlen
    have hnil : pending = [] := List.eq_nil_of_length_eq_zero hlen
    subst hnil
    exact List.Perm.refl _
  | succ n ih =>
    intro pending hlen
    cases pending with
    | nil => simp at hlen
    | cons a rest =>
      have hrest : rest.length = n := by simpa using hlen
      show (a :: passOrder n (if a.HasReachedEnd = true then swapRemove (a :: rest) 0
        else rest)).Perm (a :: rest)
      by_cases hend : a.HasReachedEnd = true
      · rw [if_pos hend]
        have hperm := swapRemove_head_perm a rest
        exact List.Perm.cons a ((ih _ (by rw [hperm.length_eq]; exact hrest)).trans hperm)
      · rw [if_neg hend]
        exact List.Perm.cons a (ih rest hrest)

/-- The second loop of `Update`, started at index `len(done)` on `done ++ pending`: it
returns; the enemies of `done` stay; the pending enemies are examined in the order
`passOrder`; those that have not reached the end stay, in that order, after one `Move`
each; those that have reached the end are removed and cost their damage in lives, in that
order. -/
theorem updateEnemies_pass (n : Nat) :
    ∀ (pending done : List Enemy) (lives : GoInt), pending.length = n →
      (∀ e ∈ pending, 0 ≤ e.PathIndex) →
      GameState.updateEnemies lives (done ++ pending) done.length =
        some (((passOrder n pending).filter fun e => e.HasReachedEnd).foldl loseTo64 lives,
          done ++ ((passOrder n pending).filter fun e => !e.HasReachedEnd).map Enemy.moved) := by
  induction n with
  | zero =>
    intro pending done lives hlen _
    have hnil : pending = [] := List.eq_nil_of_length_eq_zero hlen
    subst hnil
    rw [updateEnemies_done _ _ _ (by simp)]
    simp [passOrder]
  | succ n ih =>
    intro pending done lives hlen hidx
    cases pending with
    | nil => simp at hlen
    | cons a rest =>
      have hrest : rest.length = n := by simpa using hlen
      have hlt : done.length < (done ++ a :: rest).length := by simp
      have hget : (done ++ a :: rest)[done.length] = a := by
        have hq : (done ++ a :: rest)[done.length]? = some a := by
          rw [List.getElem?_append_right (le_refl _), Nat.sub_self]
          simp
        rw [List.getElem?_eq_getElem hlt] at hq
        exact Option.some.inj hq
      have hidxr : ∀ e ∈ rest, 0 ≤ e.PathIndex :=
        fun e he => hidx e (List.mem_cons_of_mem a he)
      have horder : passOrder (n + 1) (a :: rest) =
          a :: passOrder n (if a.HasReachedEnd = true then swapRemove (a :: rest) 0
            else rest) := rfl
      rw [GameState.updateEnemies, dif_pos hlt, horder]
      simp only [hget]
      by_cases hend : a.HasReachedEnd = true
      · simp only [hend, if_true]
        rw [swapRemove_append]
        have hperm := swapRemove_head_perm a rest
        rw [ih (swapRemove (a :: rest) 0) done
            (if lives - a.GetDamage < 0 then 0 else lives - a.GetDamage)
            (by rw [hperm.length_eq]; exact hrest)
            (fun e he => hidxr e (hperm.subset he))]
        rw [List.filter_cons_of_pos hend, List.filter_cons_of_neg (by simp [hend]),
          List.foldl_cons]
        rfl
      · simp only [hend, if_false]
        obtain ⟨a1, hm⟩ := move_returns a (hidx a (List.mem_cons_self a rest))
        rw [hm]
        have hset : (done ++ a :: rest).set done.length a1 = (done ++ [a1]) ++ rest := by
          rw [List.set_append, if_neg (lt_irrefl _), Nat.sub_self]
          simp
        have hlen1 : done.length + 1 = (done ++ [a1]).length := by simp
        simp only [hset, hlen1]
        rw [ih rest (done ++ [a1]) lives hrest hidxr]
        have hmoved : a.moved = a1 := by
          unfold Enemy.moved
          rw [hm]
          rfl
        rw [List.filter_cons_of_neg hend, List.filter_cons_of_pos (by simp [hend]),
          List.map_cons, hmoved]
        simp

/-- One enemy's cost in lives in Go's arithmetic is the mathematical one when the
subtraction is representable. -/
theorem loseTo64_exact (lives : GoInt) (e : Enemy)
    (hfit : InInt64 (lives.toInt - e.Damage.toInt)) :
    (loseTo64 lives e).toInt = loseTo lives.toInt e := by
  have h0 : (0 : GoInt).toInt = 0 := rfl
  have hsub := GoInt.sub_exact lives e.Damage hfit
  unfold loseTo64 loseTo
  by_cases h : lives - e.Damage < 0
  · rw [if_pos h]
    rw [GoInt.lt_def, hsub, h0] at h
    rw [max_eq_left (le_of_lt h)]
    rfl
  · rw [if_neg h]
    rw [GoInt.lt_def, hsub, h0] at h
    rw [hsub, max_eq_right (not_lt.mp h)]

/-- The lives after a run of removals in Go's arithmetic are the mathematical ones when
every subtraction is representable. -/
theorem foldl_loseTo64_exact (removed : List Enemy) :
    ∀ lives : GoInt, subtractionsFit lives.toInt removed →
      (removed.foldl loseTo64 lives).toInt = removed.foldl loseTo lives.toInt := by
  induction removed with
  | nil =>
    intro lives _
    rfl
  | cons e rest ih =>
    intro lives hfit
    have hstep := loseTo64_exact lives e hfit.1
    rw [List.foldl_cons, List.foldl_cons, ih (loseTo64 lives e) (by rw [hstep]; exact hfit.2),
      hstep]

/-- With lives and damages that are not negative every subtraction is representable. -/
theorem subtractionsFit_of_nonneg (removed : List Enemy) (h : ∀ e ∈ removed, 0 ≤ e.Damage) :
    ∀ lives : Int, 0 ≤ lives → lives ≤ 9223372036854775807 → subtractionsFit lives removed := by
  have h0 : (0 : GoInt).toInt = 0 := rfl
  induction removed with
  | nil =>
    intro lives _ _
    trivial
  | cons e rest ih =>
    intro lives hl0 hl1
    have hd : 0 ≤ e.Damage.toInt := by
      have := (GoInt.le_def _ _).mp (h e (List.mem_cons_self e rest))
      rw [h0] at this
      exact this
    have hdle := e.Damage.toInt_le
    refine ⟨by unfold InInt64; omega, ?_⟩
    refine ih (fun e1 he1 => h e1 (List.mem_cons_of_mem e he1)) _ ?_ ?_
    · exact le_max_left 0 _
    · unfold loseTo
      exact max_le (by omega) (by omega)

/-- C25 as stated fails, in two ways. With 1 life and a single enemy that has reached the
end and whose damage is the least Go `int` `-2^63`, the subtraction `1 + 2^63` is not
representable and wraps to a negative number; the pass leaves 0 lives, while subtracting
the damage with a floor at 0 gives `2^63 + 1`. And on a single enemy whose path index is
`-5` the pass does not return: `Move` reads `path[-4]` and panics. -/
theorem enemy_pass_overflow_counterexample :
    (hugeDamageEnemy.HasReachedEnd = true ∧
      GameState.updateEnemies 1 [hugeDamageEnemy] 0 = some (0, []) ∧
      max 0 ((1 : GoInt).toInt - hugeDamageEnemy.Damage.toInt) = 9223372036854775809 ∧
      (0 : GoInt).toInt ≠ max 0 ((1 : GoInt).toInt - hugeDamageEnemy.Damage.toInt)) ∧
    (strayEnemy.HasReachedEnd = false ∧ strayEnemy.Move = none ∧
      GameState.updateEnemies 1 [strayEnemy] 0 = none) := by
  have hstray : strayEnemy.HasReachedEnd = false := by decide
  have hmove : strayEnemy.Move = none := by
    have hidx : ¬ strayEnemy.PathIndex ≥ (strayEnemy.Path.length : Int) - 1 := by decide
    have hslice : sliceIndex strayEnemy.Path (strayEnemy.PathIndex + 1) = none := by decide
    unfold Enemy.Move
    rw [if_neg hidx, hslice]
  refine ⟨⟨by decide, ?_, by decide, by decide⟩, hstray, hmove, ?_⟩
  · have hend : hugeDamageEnemy.HasReachedEnd = true := by decide
    rw [updateEnemies_single, if_pos hend]
    have hl : (if (1 : GoInt) - hugeDamageEnemy.GetDamage < 0 then (0 : GoInt)
        else 1 - hugeDamageEnemy.GetDamage) = 0 := by decide
    rw [hl]
  · rw [updateEnemies_single, hmove]
    simp [hstray]

/-- C25, amended: the enemy pass of `Update` (its second loop, from index 0) on enemies none
of which has a negative path index returns, and handles every enemy present at its start
exactly once, in the order `order`, a rearrangement of the enemies in which the enemy
swapped into a freed slot is examined next: the enemies left are exactly those that had
not reached the path end, each after exactly one `Move` (which returns for each of them);
the enemies that had reached the end are all removed; the lives are the result of taking
the damage of the removed enemies in that order, with a floor at 0 after each, in Go's
arithmetic, which is the mathematical result whenever every subtraction is representable
(as it is for lives and damages that are not negative); nothing is lost or doubled. -/
theorem enemy_pass_spec (lives : GoInt) (enemies : List Enemy)
    (hidx : ∀ e ∈ enemies, 0 ≤ e.PathIndex) :
    ∃ order remaining removed : List Enemy,
      order = passOrder enemies.length enemies ∧ order.Perm enemies ∧
      removed = order.filter (fun e => e.HasReachedEnd) ∧
      remaining = (order.filter fun e => !e.HasReachedEnd).map Enemy.moved ∧
      GameState.updateEnemies lives enemies 0 =
        some (removed.foldl loseTo64 lives, remaining) ∧
      (∀ e ∈ enemies, e.Move = some e.moved) ∧
      remaining.Perm ((enemies.filter fun e => !e.HasReachedEnd).map Enemy.moved) ∧
      removed.Perm (enemies.filter fun e => e.HasReachedEnd) ∧
      (subtractionsFit lives.toInt removed →
        (removed.foldl loseTo64 lives).toInt = removed.foldl loseTo lives.toInt) ∧
      (0 ≤ lives → (∀ e ∈ enemies, 0 ≤ e.Damage) →
        (removed.foldl loseTo64 lives).toInt = removed.foldl loseTo lives.toInt) ∧
      remaining.length + removed.length = enemies.length := by
  have hperm := passOrder_perm enemies.length enemies rfl
  have hrun := updateEnemies_pass enemies.length enemies [] lives rfl hidx
  have h0 : (0 : GoInt).toInt = 0 := rfl
  refine ⟨_, _, _, rfl, hperm, rfl, rfl, ?_, ?_, ?_, ?_, foldl_loseTo64_exact _ lives, ?_, ?_⟩
  · simpa using hrun
  · intro e he
    obtain ⟨e1, hm⟩ := move_returns e (hidx e he)
    unfold Enemy.moved
    rw [hm]
    rfl
  · exact (hperm.filter _).map _
  · exact hperm.filter _
  · intro hl hd
    refine foldl_loseTo64_exact _ lives (subtractionsFit_of_nonneg _ ?_ _ ?_ lives.toInt_le)
    · intro e he
      exact hd e (hperm.subset (List.mem_of_mem_filter he))
    · have := (GoInt.le_def _ _).mp hl
      rw [h0] at this
      exact this
  · have h1 : ((passOrder enemies.length enemies).filter fun e => !e.HasReachedEnd).length =
        (enemies.filter fun e => !e.HasReachedEnd).length := (hperm.filter _).length_eq
    have h2 : ((passOrder enemies.length enemies).filter fun e => e.HasReachedEnd).length =
        (enemies.filter fun e => e.HasReachedEnd).length := (hperm.filter _).length_eq
    have h3 := List.length_eq_length_filter_add (l := enemies)
      (fun e : Enemy => e.HasReachedEnd)
    rw [List.length_map, h1, h2]
    omega

/-- C25 at a concrete input: an enemy that has reached the end, one at the start of the
path, and a second one that has reached the end; 100 lives. -/
theorem enemy_pass_spec_witness :
    ∃ order remaining removed : List Enemy,
      order = passOrder [endEnemy, sampleEnemy, endEnemy].length
        [endEnemy, sampleEnemy, endEnemy] ∧
      order.Perm [endEnemy, sampleEnemy, endEnemy] ∧
      removed = order.filter (fun e => e.HasReachedEnd) ∧
      remaining = (order.filter fun e => !e.HasReachedEnd).map Enemy.moved ∧
      GameState.updateEnemies 100 [endEnemy, sampleEnemy, endEnemy] 0 =
        some (removed.foldl loseTo64 100, remaining) ∧
      (∀ e ∈ [endEnemy, sampleEnemy, endEnemy], e.Move = some e.moved) ∧
      remaining.Perm
        (([endEnemy, sampleEnemy, endEnemy].filter fun e => !e.HasReachedEnd).map
          Enemy.moved) ∧
      removed.Perm ([endEnemy, sampleEnemy, endEnemy].filter fun e => e.HasReachedEnd) ∧
      (subtractionsFit (100 : GoInt).toInt removed →
        (removed.foldl loseTo64 100).toInt = removed.foldl loseTo (100 : GoInt).toInt) ∧
      (0 ≤ (100 : GoInt) → (∀ e ∈ [endEnemy, sampleEnemy, endEnemy], 0 ≤ e.Damage) →
        (removed.foldl loseTo64 100).toInt = removed.foldl loseTo (100 : GoInt).toInt) ∧
      remaining.length + removed.length = [endEnemy, sampleEnemy, endEnemy].length :=
  enemy_pass_spec 100 [endEnemy, sampleEnemy, endEnemy] (by decide)

/-- The order of removal matters: with 1 life and three enemies at the path end of damage
0, -3 and 5 in list order, the pass examines the first, then the third (swapped into the
freed slot), then the second, and leaves `max 0 (max 0 (1 - 0) - 5) + 3 = 3` lives; in
list order the result would be 0. -/
theorem enemy_pass_order_example :
    passOrder 3 [endEnemyOf 0, endEnemyOf (-3), endEnemyOf 5] =
      [endEnemyOf 0, endEnemyOf 5, endEnemyOf (-3)] ∧
    GameState.updateEnemies 1 [endEnemyOf 0, endEnemyOf (-3), endEnemyOf 5] 0 = some (3, []) ∧
    [endEnemyOf 0, endEnemyOf (-3), endEnemyOf 5].foldl loseTo 1 = 0 := by
  have horder : passOrder 3 [endEnemyOf 0, endEnemyOf (-3), endEnemyOf 5] =
      [endEnemyOf 0, endEnemyOf 5, endEnemyOf (-3)] := by decide
  refine ⟨horder, ?_, by decide⟩
  have hrun := updateEnemies_pass 3 [endEnemyOf 0, endEnemyOf (-3), endEnemyOf 5] [] 1 rfl
    (by decide)
  rw [horder] at hrun
  have hlives : ([endEnemyOf 0, endEnemyOf 5, endEnemyOf (-3)].filter
      fun e => e.HasReachedEnd).foldl loseTo64 1 = 3 := by decide
  have hleft : ([] : List Enemy) ++ ([endEnemyOf 0, endEnemyOf 5, endEnemyOf (-3)].filter
      fun e => !e.HasReachedEnd).map Enemy.moved = [] := by decide
  rw [hlives, hleft] at hrun
  exact hrun

/-! ## The end of Update: the next wave -/

/-- The spawn loop never touches the wave counter. -/
theorem spawnLoop_wave (n : Nat) :
    ∀ gs gs1 : GameState, gs.spawnLoop n = some gs1 → gs1.wave = gs.wave := by
  induction n with
  | zero =>
    intro gs gs1 h
    simp only [GameState.spawnLoop] at h
    rw [← Option.some.inj h]
  | succ n ih =>
    intro gs gs1 h
    simp only [GameState.spawnLoop] at h
    split at h
    · exact Option.noConfusion h
    · have hw := ih _ gs1 h
      exact hw

/-- An unpaused `Update` after its two loops: the branch on the empty field. -/
theorem update_unpaused_eq (gs : GameState) (clock : Nat → Int) (lives1 : GoInt)
    (enemies1 : List Enemy) (hp : gs.paused = false)
    (hloop : GameState.updateEnemies gs.lives
      (GameState.updateTowers clock 0 gs.towers gs.enemies).2 0 = some (lives1, enemies1)) :
    gs.Update clock =
      if enemies1.length = 0 then
        GameState.spawnEnemiesForWave
          { gs with
            towers := (GameState.updateTowers clock 0 gs.towers gs.enemies).1
            enemies := enemies1
            lives := lives1
            wave := gs.wave + 1 }
      else
        some { gs with
          towers := (GameState.updateTowers clock 0 gs.towers gs.enemies).1
          enemies := enemies1
          lives := lives1 } := by
  unfold GameState.Update
  rw [hp]
  simp only [Bool.false_eq_true, if_false]
  rw [hloop]

/-- An unpaused `Update` that returns has run both loops. -/
theorem update_unpaused_loop (gs gs1 : GameState) (clock : Nat → Int) (hp : gs.paused = false)
    (h : gs.Update clock = some gs1) :
    ∃ lives1 enemies1, GameState.updateEnemies gs.lives
      (GameState.updateTowers clock 0 gs.towers gs.enemies).2 0 = some (lives1, enemies1) := by
  cases hloop : GameState.updateEnemies gs.lives
      (GameState.updateTowers clock 0 gs.towers gs.enemies).2 0 with
  | none =>
    unfold GameState.Update at h
    rw [hp] at h
    simp only [Bool.false_eq_true, if_false] at h
    rw [hloop] at h
    exact Option.noConfusion h
  | some r => exact ⟨r.1, r.2, rfl⟩

/-- The auto-spawn branch: the state after the wave has been raised and spawned. -/
theorem update_unpaused_empty (gs : GameState) (clock : Nat → Int) (lives1 : GoInt)
    (p : BaseEntity) (rest : List BaseEntity) (hp : gs.paused = false)
    (hpath : gs.enemyPath = p :: rest)
    (hloop : GameState.updateEnemies gs.lives
      (GameState.updateTowers clock 0 gs.towers gs.enemies).2 0 = some (lives1, [])) :
    gs.Update clock =
      some { gs with
        towers := (GameState.updateTowers clock 0 gs.towers gs.enemies).1
        lives := lives1
        wave := gs.wave + 1
        enemies := List.replicate ((gs.wave + 1) * 2).toInt.toNat
          (waveEnemy (gs.wave + 1) p gs.enemyPath) } := by
  rw [update_unpaused_eq gs clock lives1 [] hp hloop]
  simp only [List.length_nil, if_true]
  unfold GameState.spawnEnemiesForWave
  dsimp only
  refine (spawnLoop_eq _ _ p rest ?_).trans ?_
  · exact hpath
  · simp

/-- The wave counter after an `Update` that returns is the old one or the old one
incremented. -/
theorem update_wave (gs gs1 : GameState) (clock : Nat → Int)
    (h : gs.Update clock = some gs1) : gs1.wave = gs.wave ∨ gs1.wave = gs.wave + 1 := by
  by_cases hp : gs.paused = true
  · unfold GameState.Update at h
    rw [if_pos hp] at h
    rw [← Option.some.inj h]
    exact Or.inl rfl
  · have hp2 : gs.paused = false := by simpa using hp
    obtain ⟨lives1, enemies1, hloop⟩ := update_unpaused_loop gs gs1 clock hp2 h
    rw [update_unpaused_eq gs clock lives1 enemies1 hp2 hloop] at h
    split at h
    · unfold GameState.spawnEnemiesForWave at h
      have hw := spawnLoop_wave _ _ gs1 h
      exact Or.inr hw
    · rw [← Option.some.inj h]
      exact Or.inl rfl

/-- Below the greatest Go `int` the increment is the mathematical one. -/
theorem wave_succ (w : GoInt) (h : w.toInt < 9223372036854775807) :
    (w + 1).toInt = w.toInt + 1 := by
  have h1 : (1 : GoInt).toInt = 1 := rfl
  have hge := w.toInt_ge
  rw [GoInt.toInt_add, h1]
  omega

/-- The two loops of `Update` on a state without towers and enemies. -/
theorem emptyField_loop (gs : GameState) (clock : Nat → Int) (ht : gs.towers = [])
    (he : gs.enemies = []) :
    GameState.updateEnemies gs.lives
      (GameState.updateTowers clock 0 gs.towers gs.enemies).2 0 = some (gs.lives, []) := by
  rw [ht, he]
  exact updateEnemies_done _ [] 0 (by simp)

/-- `Update` on the fresh state after `SetWave(w)` (no tower, no enemy, unpaused): the
field is empty, the wave is incremented and the enemies of the new wave are spawned. -/
theorem freshWave_update (w : GoInt) :
    (NewGameState.SetWave w).Update lateClock =
      some { NewGameState with
        wave := w + 1
        enemies := List.replicate ((w + 1) * 2).toInt.toNat
          (waveEnemy (w + 1) ⟨0, 300⟩ defaultEnemyPath) } :=
  update_unpaused_empty (NewGameState.SetWave w) lateClock (NewGameState.SetWave w).lives
    ⟨0, 300⟩ defaultEnemyPath.tail rfl rfl (emptyField_loop _ _ rfl rfl)

/-- C26 as stated fails, in three ways, each on the fresh state (no tower, no enemy,
unpaused) after `SetWave`, where `Update` finds the field empty. From wave `2^63 - 1` the
incremented wave wraps to `-2^63`: the wave has decreased, and none is spawned. From wave
`2^62 - 1` the wave becomes `2^62`, the number `wave * 2 = 2^63` of enemies to spawn wraps
to `-2^63`, and none is spawned. From wave `-2^63` the new wave is `w = -2^63 + 1`,
`w * 2` wraps to 2 and `50 + w * 10` wraps to 60: two enemies of health 60 are spawned,
which is not `50 + 10 * w`. -/
theorem update_wave_overflow_counterexample :
    ((NewGameState.SetWave MaxInt64).paused = false ∧
      (NewGameState.SetWave MaxInt64).Update lateClock = some (NewGameState.SetWave MinInt64) ∧
      (NewGameState.SetWave MinInt64).enemies = [] ∧
      ¬ (NewGameState.SetWave MaxInt64).wave ≤ (NewGameState.SetWave MinInt64).wave ∧
      (NewGameState.SetWave MinInt64).wave.toInt ≠
        (NewGameState.SetWave MaxInt64).wave.toInt + 1) ∧
    ((NewGameState.SetWave 4611686018427387903).Update lateClock =
        some (NewGameState.SetWave 4611686018427387904) ∧
      (NewGameState.SetWave 4611686018427387904).enemies = [] ∧
      2 * (NewGameState.SetWave 4611686018427387904).wave.toInt = 9223372036854775808) ∧
    (∃ gs1 e, (NewGameState.SetWave MinInt64).Update lateClock = some gs1 ∧
      gs1.wave.toInt = -9223372036854775807 ∧ gs1.enemies = [e, e] ∧
      e.Health.toInt = 60 ∧ e.Health.toInt ≠ 50 + 10 * gs1.wave.toInt) := by
  refine ⟨⟨rfl, ?_, rfl, by decide, by decide⟩, ⟨?_, rfl, by decide⟩, ?_⟩
  · rw [freshWave_update]
    have hcount : ((MaxInt64 + 1) * 2).toInt.toNat = 0 := by decide
    have hwave : MaxInt64 + 1 = MinInt64 := by decide
    rw [hcount, hwave]
    rfl
  · rw [freshWave_update]
    have hcount : (((4611686018427387903 : GoInt) + 1) * 2).toInt.toNat = 0 := by decide
    have hwave : (4611686018427387903 : GoInt) + 1 = 4611686018427387904 := by decide
    rw [hcount, hwave]
    rfl
  · refine ⟨_, waveEnemy (MinInt64 + 1) ⟨0, 300⟩ defaultEnemyPath, freshWave_update MinInt64,
      by decide, ?_, by decide, by decide⟩
    have hcount : ((MinInt64 + 1) * 2).toInt.toNat = 2 := by decide
    show List.replicate ((MinInt64 + 1) * 2).toInt.toNat _ = _
    rw [hcount]
    rfl

/-- C26, amended: at the end of an unpaused `Update` whose two loops leave the lives
`lives1` and the enemies `enemies1`, on a path with first waypoint `p`: when `enemies1` is
empty, the wave is incremented, by exactly 1 when it was below the greatest Go `int`, and
the enemies become `(new wave) * 2` copies of the enemy built for the new wave, which are
exactly `2 * (new wave)` when the new wave is between 0 and `2^62 - 1`, and which have that
wave's stats when `50 + 10 * (new wave)` is representable; when `enemies1` is not empty,
the wave is unchanged and the enemies are `enemies1`, none spawned. And on every state
whose wave is below the greatest Go `int` the wave after `Update` or `NextWave` is never
lower than before. -/
theorem update_wave_progress (gs : GameState) (clock : Nat → Int) (lives1 : GoInt)
    (enemies1 : List Enemy) (p : BaseEntity) (rest : List BaseEntity)
    (hp : gs.paused = false) (hpath : gs.enemyPath = p :: rest)
    (hloop : GameState.updateEnemies gs.lives
      (GameState.updateTowers clock 0 gs.towers gs.enemies).2 0 = some (lives1, enemies1)) :
    (enemies1 = [] →
      gs.Update clock =
        some { gs with
          towers := (GameState.updateTowers clock 0 gs.towers gs.enemies).1
          lives := lives1
          wave := gs.wave + 1
          enemies := List.replicate ((gs.wave + 1) * 2).toInt.toNat
            (waveEnemy (gs.wave + 1) p gs.enemyPath) } ∧
      (gs.wave.toInt < 9223372036854775807 → (gs.wave + 1).toInt = gs.wave.toInt + 1) ∧
      (0 ≤ (gs.wave + 1).toInt → (gs.wave + 1).toInt ≤ 4611686018427387903 →
        ((List.replicate ((gs.wave + 1) * 2).toInt.toNat
          (waveEnemy (gs.wave + 1) p gs.enemyPath)).length : Int) =
            2 * (gs.wave + 1).toInt) ∧
      (InInt64 (50 + 10 * (gs.wave + 1).toInt) →
        (waveEnemy (gs.wave + 1) p gs.enemyPath).Health.toInt =
            50 + 10 * (gs.wave + 1).toInt ∧
          (waveEnemy (gs.wave + 1) p gs.enemyPath).MaxHealth.toInt =
            50 + 10 * (gs.wave + 1).toInt ∧
          (waveEnemy (gs.wave + 1) p gs.enemyPath).Reward.toInt = 10 + (gs.wave + 1).toInt ∧
          (waveEnemy (gs.wave + 1) p gs.enemyPath).Damage.toInt =
            1 + Int.tdiv (gs.wave + 1).toInt 5)) ∧
    (enemies1 ≠ [] →
      gs.Update clock =
        some { gs with
          towers := (GameState.updateTowers clock 0 gs.towers gs.enemies).1
          lives := lives1
          enemies := enemies1 }) ∧
    (∀ (s s1 : GameState) (c : Nat → Int), s.wave.toInt < 9223372036854775807 →
      s.Update c = some s1 → s.wave ≤ s1.wave) ∧
    (∀ s s1 : GameState, s.wave.toInt < 9223372036854775807 →
      s.NextWave = some s1 → s.wave ≤ s1.wave) := by
  refine ⟨?_, ?_, ?_, ?_⟩
  · intro hnil
    subst hnil
    refine ⟨update_unpaused_empty gs clock lives1 p rest hp hpath hloop, wave_succ gs.wave,
      ?_, waveEnemy_stats _ _ _⟩
    intro hw0 hw1
    rw [List.length_replicate, spawn_count _ (by unfold InInt64; omega)]
    omega
  · intro hne
    rw [update_unpaused_eq gs clock lives1 enemies1 hp hloop]
    have hlen : ¬ enemies1.length = 0 := fun h0 => hne (List.eq_nil_of_length_eq_zero h0)
    rw [if_neg hlen]
  · intro s s1 c hmax h
    rcases update_wave s s1 c h with hw | hw
    · rw [hw]
      exact GoInt.le_refl _
    · rw [hw, GoInt.le_def, wave_succ _ hmax]
      omega
  · intro s s1 hmax h
    unfold GameState.NextWave GameState.spawnEnemiesForWave at h
    have hw := spawnLoop_wave _ _ s1 h
    have hw2 : s1.wave = s.wave + 1 := hw
    rw [hw2, GoInt.le_def, wave_succ _ hmax]
    omega

/-- The two loops of `Update` on `endState`: the enemy is removed and costs one life. -/
theorem endState_loop :
    GameState.updateEnemies endState.lives
      (GameState.updateTowers lateClock 0 endState.towers endState.enemies).2 0 =
        some (99, []) := by
  show GameState.updateEnemies 100 [endEnemy] 0 = some (99, [])
  have hend : endEnemy.HasReachedEnd = true := by decide
  rw [updateEnemies_single, if_pos hend]
  have hl : (if (100 : GoInt) - endEnemy.GetDamage < 0 then (0 : GoInt)
      else 100 - endEnemy.GetDamage) = 99 := by decide
  rw [hl]

/-- C26 at a concrete input: the tick that removes the only enemy of `endState` (wave 0):
the wave becomes 1 and the field holds the two enemies of wave 1. -/
theorem update_wave_progress_witness :
    endState.Update lateClock =
      some { endState with
        towers := (GameState.updateTowers lateClock 0 endState.towers endState.enemies).1
        lives := 99
        wave := endState.wave + 1
        enemies := List.replicate ((endState.wave + 1) * 2).toInt.toNat
          (waveEnemy (endState.wave + 1) ⟨0, 300⟩ endState.enemyPath) } ∧
    (endState.wave + 1).toInt = endState.wave.toInt + 1 ∧
    ((List.replicate ((endState.wave + 1) * 2).toInt.toNat
      (waveEnemy (endState.wave + 1) ⟨0, 300⟩ endState.enemyPath)).length : Int) =
        2 * (endState.wave + 1).toInt :=
  have h := update_wave_progress endState lateClock 99 [] ⟨0, 300⟩ defaultEnemyPath.tail rfl rfl
    endState_loop
  ⟨(h.1 rfl).1, (h.1 rfl).2.1 (by decide), (h.1 rfl).2.2.1 (by decide) (by decide)⟩

/-! ## The field is never left empty -/

/-- C28 as stated fails: on the fresh state after `SetWave(2^62 - 1)` (unpaused, wave not
negative, non-empty path, no enemy), `Update` raises the wave to `2^62`, the number
`wave * 2 = 2^63` of enemies to spawn wraps to `-2^63`, none is spawned and the enemy
collection is left empty. -/
theorem update_field_empty_counterexample :
    (NewGameState.SetWave 4611686018427387903).paused = false ∧
    (NewGameState.SetWave 4611686018427387903).wave ≥ 0 ∧
    (NewGameState.SetWave 4611686018427387903).enemyPath ≠ [] ∧
    (NewGameState.SetWave 4611686018427387903).Update lateClock =
      some (NewGameState.SetWave 4611686018427387904) ∧
    (NewGameState.SetWave 4611686018427387904).enemies = [] := by
  refine ⟨rfl, by decide, by decide, ?_, rfl⟩
  rw [freshWave_update]
  have hcount : (((4611686018427387903 : GoInt) + 1) * 2).toInt.toNat = 0 := by decide
  have hwave : (4611686018427387903 : GoInt) + 1 = 4611686018427387904 := by decide
  rw [hcount, hwave]
  rfl

/-- C28, amended: on an unpaused state with `0 ≤ wave < 2^62 - 1` (so that twice the next
wave is representable as a Go `int`) and a non-empty path, whenever `Update` returns the
enemy collection is not empty: either the wave is unchanged and the enemies left by the
pass are kept, or the wave went up by exactly one and at least 2 enemies were spawned. And
`Update` does return when no enemy has a negative path index. -/
theorem update_field_not_empty (gs : GameState) (clock : Nat → Int)
    (hp : gs.paused = false) (hw : gs.wave ≥ 0) (hmax : gs.wave.toInt < 4611686018427387903)
    (hpath : gs.enemyPath ≠ []) :
    (∀ gs1, gs.Update clock = some gs1 →
      gs1.enemies ≠ [] ∧
        (gs1.wave = gs.wave ∨
          (gs1.wave.toInt = gs.wave.toInt + 1 ∧ 2 ≤ gs1.enemies.length))) ∧
    ((∀ e ∈ gs.enemies, 0 ≤ e.PathIndex) →
      ∃ gs1, gs.Update clock = some gs1 ∧ gs1.enemies ≠ []) := by
  have h0 : (0 : GoInt).toInt = 0 := rfl
  have hw0 : 0 ≤ gs.wave.toInt := by
    have := (GoInt.le_def _ _).mp hw
    rw [h0] at this
    exact this
  have hinc : (gs.wave + 1).toInt = gs.wave.toInt + 1 := wave_succ _ (by omega)
  have hcount : ((gs.wave + 1) * 2).toInt = 2 * (gs.wave.toInt + 1) := by
    rw [spawn_count _ (by unfold InInt64; rw [hinc]; omega), hinc]
  have hmain : ∀ gs1, gs.Update clock = some gs1 →
      gs1.enemies ≠ [] ∧
        (gs1.wave = gs.wave ∨
          (gs1.wave.toInt = gs.wave.toInt + 1 ∧ 2 ≤ gs1.enemies.length)) := by
    intro gs1 h
    obtain ⟨lives1, enemies1, hloop⟩ := update_unpaused_loop gs gs1 clock hp h
    cases hgp : gs.enemyPath with
    | nil => exact absurd hgp hpath
    | cons p rest =>
      cases henemies : enemies1 with
      | nil =>
        rw [henemies] at hloop
        rw [update_unpaused_empty gs clock lives1 p rest hp hgp hloop] at h
        have hgs1 := Option.some.inj h
        have hlen : 2 ≤ gs1.enemies.length := by
          rw [← hgs1]
          show 2 ≤ (List.replicate ((gs.wave + 1) * 2).toInt.toNat _).length
          rw [List.length_replicate, hcount]
          omega
        refine ⟨?_, Or.inr ⟨by rw [← hgs1]; exact hinc, hlen⟩⟩
        intro hnil
        rw [hnil] at hlen
        simp at hlen
      | cons a tail =>
        rw [henemies] at hloop
        rw [update_unpaused_eq gs clock lives1 (a :: tail) hp hloop] at h
        have hlen : ¬ (a :: tail).length = 0 := by simp
        rw [if_neg hlen] at h
        have hgs1 := Option.some.inj h
        refine ⟨?_, Or.inl (by rw [← hgs1])⟩
        rw [← hgs1]
        exact List.cons_ne_nil a tail
  refine ⟨hmain, ?_⟩
  intro hidx
  obtain ⟨gs1, h⟩ := update_returns gs clock hidx hpath
  exact ⟨gs1, h, (hmain gs1 h).1⟩

/-- C28 at a concrete input: the tick that removes the only enemy of `endState`. -/
theorem update_field_not_empty_witness :
    ∃ gs1, endState.Update lateClock = some gs1 ∧ gs1.enemies ≠ [] :=
  (update_field_not_empty endState lateClock rfl (by decide) (by decide) (by decide)).2
    (by decide)

/-! ## Money under the tower calls -/

/-- The two outcomes of `AddTower`: an error with the state untouched, or one fresh
level-1 tower of the kind appended and the cost, which the money covered, deducted. -/
theorem addTower_cases (gs : GameState) (kind : TowerType) (x y : ℚ) :
    ((gs.AddTower kind x y).2 ≠ none ∧ (gs.AddTower kind x y).1 = gs) ∨
    ∃ (cost : GoInt) (t : Tower), gs.towerCosts kind = some cost ∧ cost ≤ gs.money ∧
      ((kind = BasicTower ∧ t = NewBasicTower x y) ∨
        (kind = SniperTower ∧ t = NewSniperTower x y) ∨
        (kind = AOETower ∧ t = NewAOETower x y)) ∧
      gs.AddTower kind x y =
        ({ gs with towers := gs.towers ++ [t], money := gs.money - cost }, none) := by
  have hSB : SniperTower ≠ BasicTower := by decide
  have hAB : AOETower ≠ BasicTower := by decide
  have hAS : AOETower ≠ SniperTower := by decide
  unfold GameState.AddTower
  cases hc : gs.towerCosts kind with
  | none => exact Or.inl ⟨by simp, rfl⟩
  | some cost =>
    by_cases hm : gs.money < cost
    · exact Or.inl ⟨by simp [hm], by simp [hm]⟩
    · have hle : cost ≤ gs.money := (GoInt.not_lt _ _).mp hm
      by_cases h0 : kind = BasicTower
      · exact Or.inr ⟨cost, NewBasicTower x y, rfl, hle, Or.inl ⟨h0, rfl⟩, by simp [hm, h0]⟩
      · by_cases h1 : kind = SniperTower
        · exact Or.inr ⟨cost, NewSniperTower x y, rfl, hle, Or.inr (Or.inl ⟨h1, rfl⟩),
            by simp [hm, h1, hSB]⟩
        · by_cases h2 : kind = AOETower
          · exact Or.inr ⟨cost, NewAOETower x y, rfl, hle, Or.inr (Or.inr ⟨h2, rfl⟩),
              by simp [hm, h2, hAB, hAS]⟩
          · exact Or.inl ⟨by simp [hm, h0, h1, h2], by simp [hm, h0, h1, h2]⟩

/-- The two outcomes of `UpgradeTower`: an error with the state untouched, or the upgrade
of the tower at the index, whose cost the money covered. -/
theorem upgradeTower_cases (gs : GameState) (index : Int) :
    ((gs.UpgradeTower index).2 ≠ none ∧ (gs.UpgradeTower index).1 = gs) ∨
    ∃ t : Tower, 0 ≤ index ∧ gs.towers[index.toNat]? = some t ∧
      t.Cost * t.Level ≤ gs.money ∧ t.Level < 3 ∧
      gs.UpgradeTower index =
        ({ gs with
            towers := gs.towers.set index.toNat t.Upgrade.1
            money := gs.money - t.Cost * t.Level }, none) := by
  by_cases hrange : index < 0 ∨ index ≥ (gs.towers.length : Int)
  · left
    unfold GameState.UpgradeTower
    rw [dif_pos hrange]
    exact ⟨by simp, rfl⟩
  · have hlt : index.toNat < gs.towers.length := by omega
    have ht : gs.towers[index.toNat]? = some gs.towers[index.toNat] :=
      List.getElem?_eq_getElem hlt
    rw [upgradeTower_at gs index _ (by omega) ht]
    by_cases hm : gs.money < gs.towers[index.toNat].Cost * gs.towers[index.toNat].Level
    · left
      rw [if_pos hm]
      exact ⟨by simp, rfl⟩
    · rw [if_neg hm]
      by_cases hl : gs.towers[index.toNat].Level ≥ 3
      · left
        rw [if_pos hl]
        exact ⟨by simp, rfl⟩
      · right
        rw [if_neg hl]
        have hl2 := (GoInt.not_le _ _).mp hl
        refine ⟨_, by omega, ht, (GoInt.not_lt _ _).mp hm, hl2, ?_⟩
        rw [upgrade_ok _ hl2]

/-- The two outcomes of `SellTower`: an error with the state untouched, or the sell value
credited and the tower swap-removed. -/
theorem sellTower_cases (gs : GameState) (index : Int) :
    ((gs.SellTower index).2 ≠ none ∧ (gs.SellTower index).1 = gs) ∨
    ∃ t : Tower, 0 ≤ index ∧ gs.towers[index.toNat]? = some t ∧
      gs.SellTower index =
        ({ gs with
            money := gs.money + t.Cost * t.Level / 2
            towers := swapRemove gs.towers index.toNat }, none) := by
  by_cases hrange : index < 0 ∨ index ≥ (gs.towers.length : Int)
  · left
    unfold GameState.SellTower
    rw [dif_pos hrange]
    exact ⟨by simp, rfl⟩
  · right
    have hlt : index.toNat < gs.towers.length := by omega
    exact ⟨gs.towers[index.toNat], by omega, List.getElem?_eq_getElem hlt,
      sellTower_at gs index _ (by omega) (List.getElem?_eq_getElem hlt)⟩

theorem totalInvested_append (a b : List Tower) :
    totalInvested (a ++ b) = totalInvested a + totalInvested b := by
  simp [totalInvested]

theorem totalInvested_set (ts : List Tower) :
    ∀ (i : Nat) (a b : Tower), ts[i]? = some a →
      totalInvested (ts.set i b) = totalInvested ts - a.invested + b.invested := by
  induction ts with
  | nil =>
    intro i a b h
    simp at h
  | cons x xs ih =>
    intro i a b h
    cases i with
    | zero =>
      have hx : x = a := by simpa using h
      subst hx
      simp only [totalInvested, List.set_cons_zero, List.map_cons, List.sum_cons]
      omega
    | succ i =>
      have h2 : xs[i]? = some a := by simpa using h
      have := ih i a b h2
      simp only [totalInvested, List.set_cons_succ, List.map_cons, List.sum_cons] at this ⊢
      omega

theorem totalInvested_eraseIdx (ts : List Tower) :
    ∀ (i : Nat) (a : Tower), ts[i]? = some a →
      totalInvested (ts.eraseIdx i) = totalInvested ts - a.invested := by
  induction ts with
  | nil =>
    intro i a h
    simp at h
  | cons x xs ih =>
    intro i a h
    cases i with
    | zero =>
      have hx : x = a := by simpa using h
      subst hx
      simp only [totalInvested, List.eraseIdx_cons_zero, List.map_cons, List.sum_cons]
      omega
    | succ i =>
      have h2 : xs[i]? = some a := by simpa using h
      have := ih i a h2
      simp only [totalInvested, List.eraseIdx_cons_succ, List.map_cons, List.sum_cons] at this ⊢
      omega

theorem totalInvested_swapRemove (ts : List Tower) (i : Nat) (a : Tower)
    (h : ts[i]? = some a) :
    totalInvested (swapRemove ts i) = totalInvested ts - a.invested := by
  obtain ⟨hlt, _⟩ := getElem_of_getElem? _ _ _ h
  rw [← totalInvested_eraseIdx ts i a h]
  exact ((swapRemove_perm ts i hlt).map Tower.invested).sum_eq

/-- The money put into towers of positive cost is not negative. -/
theorem totalInvested_nonneg (ts : List Tower)
    (h : ∀ t ∈ ts, 0 < t.Cost.toInt ∧ t.Cost.toInt ≤ 150 ∧ 1 ≤ t.Level.toInt ∧
      t.Level.toInt ≤ 3) : 0 ≤ totalInvested ts := by
  induction ts with
  | nil => simp [totalInvested]
  | cons x xs ih =>
    have hx := h x (List.mem_cons_self x xs)
    have hxs := ih (fun t ht => h t (List.mem_cons_of_mem x ht))
    have hinv : 0 ≤ x.invested := by
      unfold Tower.invested
      split
      · omega
      · split <;> omega
    simp only [totalInvested, List.map_cons, List.sum_cons] at hxs ⊢
    omega

/-- The money put into a tower of cost `c` by level: `c`, `2 c`, `4 c`. -/
theorem invested_of_level (t : Tower) :
    (t.Level.toInt = 1 → t.invested = t.Cost.toInt) ∧
    (t.Level.toInt = 2 → t.invested = 2 * t.Cost.toInt) ∧
    (t.Level.toInt = 3 → t.invested = 4 * t.Cost.toInt) := by
  unfold Tower.invested
  refine ⟨?_, ?_, ?_⟩
  · intro h
    rw [h]
    simp
  · intro h
    rw [h]
    norm_num
    ring
  · intro h
    rw [h]
    norm_num
    ring

/-- One tower call keeps the invariant `solvent`. -/
theorem applyCall_solvent (gs : GameState) (call : TowerCall) (h : gs.solvent) :
    (gs.applyCall call).solvent := by
  have h1 : (1 : GoInt).toInt = 1 := rfl
  have h3 : (3 : GoInt).toInt = 3 := rfl
  obtain ⟨hcosts, hm0, hsum, hgood⟩ := h
  have hinv0 := totalInvested_nonneg gs.towers hgood
  cases call with
  | addTower kind x y =>
    show (gs.AddTower kind x y).1.solvent
    rcases addTower_cases gs kind x y with ⟨_, hsame⟩ | ⟨cost, t0, hc, hcost, hkind, heq⟩
    · rw [hsame]
      exact ⟨hcosts, hm0, hsum, hgood⟩
    · rw [heq]
      rw [hcosts] at hc
      have hct : cost = t0.Cost ∧ t0.Level.toInt = 1 ∧ 0 < t0.Cost.toInt ∧
          t0.Cost.toInt ≤ 150 := by
        rcases hkind with ⟨hk, ht⟩ | ⟨hk, ht⟩ | ⟨hk, ht⟩
        · rw [hk] at hc
          have hc50 : (50 : GoInt) = cost := Option.some.inj hc
          rw [ht, ← hc50]
          exact ⟨rfl, rfl, by show 0 < (50 : GoInt).toInt; decide,
            by show (50 : GoInt).toInt ≤ 150; decide⟩
        · rw [hk] at hc
          have hc100 : (100 : GoInt) = cost := Option.some.inj hc
          rw [ht, ← hc100]
          exact ⟨rfl, rfl, by show 0 < (100 : GoInt).toInt; decide,
            by show (100 : GoInt).toInt ≤ 150; decide⟩
        · rw [hk] at hc
          have hc150 : (150 : GoInt) = cost := Option.some.inj hc
          rw [ht, ← hc150]
          exact ⟨rfl, rfl, by show 0 < (150 : GoInt).toInt; decide,
            by show (150 : GoInt).toInt ≤ 150; decide⟩
      obtain ⟨hce, hl, hc0, hc150⟩ := hct
      have hle : cost.toInt ≤ gs.money.toInt := hcost
      rw [hce] at hle
      have hmoney : (gs.money - cost).toInt = gs.money.toInt - t0.Cost.toInt := by
        rw [hce, GoInt.toInt_sub]
        have := gs.money.toInt_le
        omega
      have hinv : t0.invested = t0.Cost.toInt := (invested_of_level t0).1 hl
      refine ⟨hcosts, ?_, ?_, ?_⟩
      · show 0 ≤ (gs.money - cost).toInt
        rw [hmoney]
        omega
      · show (gs.money - cost).toInt + totalInvested (gs.towers ++ [t0]) ≤ 1000
        rw [hmoney, totalInvested_append]
        simp only [totalInvested, List.map_cons, List.map_nil, List.sum_cons, List.sum_nil,
          hinv] at hsum ⊢
        omega
      · intro t ht
        rcases List.mem_append.mp ht with hold | hnew
        · exact hgood t hold
        · have ht0 : t = t0 := List.mem_singleton.mp hnew
          rw [ht0]
          exact ⟨hc0, hc150, by omega, by omega⟩
  | upgradeTower index =>
    show (gs.UpgradeTower index).1.solvent
    rcases upgradeTower_cases gs index with ⟨_, hsame⟩ | ⟨t0, _, ht0, hcost, hlevel, heq⟩
    · rw [hsame]
      exact ⟨hcosts, hm0, hsum, hgood⟩
    · rw [heq, upgrade_ok t0 hlevel]
      obtain ⟨hlt, hget⟩ := getElem_of_getElem? _ _ _ ht0
      have hmem : t0 ∈ gs.towers := by
        rw [← hget]
        exact List.getElem_mem hlt
      obtain ⟨hc0, hc150, hl1, hl3⟩ := hgood t0 hmem
      have hl2 : t0.Level.toInt < 3 := by
        have := (GoInt.lt_def _ _).mp hlevel
        rw [h3] at this
        exact this
      have hlev : (t0.Level + 1).toInt = t0.Level.toInt + 1 := by
        rw [GoInt.toInt_add, h1]
        omega
      have hset := totalInvested_set gs.towers index.toNat t0
        { t0 with
          Level := t0.Level + 1
          Damage := t0.Damage + 5
          Range := roundFloat (t0.Range + 20)
          FireRate := scaleDuration t0.FireRate } ht0
      have hcases : t0.Level.toInt = 1 ∨ t0.Level.toInt = 2 := by omega
      have hprod : (t0.Cost * t0.Level).toInt = t0.Cost.toInt * t0.Level.toInt := by
        rw [GoInt.toInt_mul]
        rcases hcases with hL | hL <;> rw [hL] <;> omega
      have hle : t0.Cost.toInt * t0.Level.toInt ≤ gs.money.toInt := by
        rw [← hprod]
        exact hcost
      have hmoney : (gs.money - t0.Cost * t0.Level).toInt =
          gs.money.toInt - t0.Cost.toInt * t0.Level.toInt := by
        rw [GoInt.toInt_sub, hprod]
        have := gs.money.toInt_le
        rcases hcases with hL | hL <;> rw [hL] at hle ⊢ <;> omega
      have hnew : Tower.invested
          { t0 with
            Level := t0.Level + 1
            Damage := t0.Damage + 5
            Range := roundFloat (t0.Range + 20)
            FireRate := scaleDuration t0.FireRate } =
          t0.invested + t0.Cost.toInt * t0.Level.toInt := by
        rcases hcases with hL | hL
        · have hnl : (t0.Level + 1).toInt = 2 := by rw [hlev, hL]; rfl
          have ha := (invested_of_level
            { t0 with
              Level := t0.Level + 1
              Damage := t0.Damage + 5
              Range := roundFloat (t0.Range + 20)
              FireRate := scaleDuration t0.FireRate }).2.1 hnl
          have hb := (invested_of_level t0).1 hL
          rw [ha, hb, hL]
          show 2 * t0.Cost.toInt = t0.Cost.toInt + t0.Cost.toInt * 1
          omega
        · have hnl : (t0.Level + 1).toInt = 3 := by rw [hlev, hL]; rfl
          have ha := (invested_of_level
            { t0 with
              Level := t0.Level + 1
              Damage := t0.Damage + 5
              Range := roundFloat (t0.Range + 20)
              FireRate := scaleDuration t0.FireRate }).2.2 hnl
          have hb := (invested_of_level t0).2.1 hL
          rw [ha, hb, hL]
          show 4 * t0.Cost.toInt = 2 * t0.Cost.toInt + t0.Cost.toInt * 2
          omega
      refine ⟨hcosts, ?_, ?_, ?_⟩
      · show 0 ≤ (gs.money - t0.Cost * t0.Level).toInt
        rw [hmoney]
        omega
      · show (gs.money - t0.Cost * t0.Level).toInt + totalInvested (gs.towers.set _ _) ≤ 1000
        rw [hmoney, hset, hnew]
        omega
      · intro t ht
        rcases List.mem_or_eq_of_mem_set ht with hold | hnew2
        · exact hgood t hold
        · rw [hnew2]
          exact ⟨hc0, hc150, by show 1 ≤ (t0.Level + 1).toInt; omega,
            by show (t0.Level + 1).toInt ≤ 3; omega⟩
  | sellTower index =>
    show (gs.SellTower index).1.solvent
    rcases sellTower_cases gs index with ⟨_, hsame⟩ | ⟨t0, _, ht0, heq⟩
    · rw [hsame]
      exact ⟨hcosts, hm0, hsum, hgood⟩
    · rw [heq]
      obtain ⟨hlt, hget⟩ := getElem_of_getElem? _ _ _ ht0
      have hmem : t0 ∈ gs.towers := by
        rw [← hget]
        exact List.getElem_mem hlt
      obtain ⟨hc0, hc150, hl1, hl3⟩ := hgood t0 hmem
      have hcases : t0.Level.toInt = 1 ∨ t0.Level.toInt = 2 ∨ t0.Level.toInt = 3 := by omega
      have hprod : (t0.Cost * t0.Level).toInt = t0.Cost.toInt * t0.Level.toInt := by
        rw [GoInt.toInt_mul]
        rcases hcases with hL | hL | hL <;> rw [hL] <;> omega
      have hval : (t0.Cost * t0.Level / 2).toInt = (t0.Cost.toInt * t0.Level.toInt) / 2 := by
        rw [GoInt.div_two_exact, hprod, Int.tdiv_eq_ediv _ (by decide)]
        rcases hcases with hL | hL | hL <;> rw [hL] <;> omega
      have hvle : 0 ≤ (t0.Cost.toInt * t0.Level.toInt) / 2 ∧
          (t0.Cost.toInt * t0.Level.toInt) / 2 ≤ t0.invested := by
        rcases hcases with hL | hL | hL
        · rw [(invested_of_level t0).1 hL, hL]
          omega
        · rw [(invested_of_level t0).2.1 hL, hL]
          omega
        · rw [(invested_of_level t0).2.2 hL, hL]
          omega
      have hrem := totalInvested_swapRemove gs.towers index.toNat t0 ht0
      have hgood2 : ∀ t ∈ swapRemove gs.towers index.toNat,
          0 < t.Cost.toInt ∧ t.Cost.toInt ≤ 150 ∧ 1 ≤ t.Level.toInt ∧ t.Level.toInt ≤ 3 :=
        fun t ht => hgood t (mem_of_mem_swapRemove _ _ hlt t ht)
      have hinv2 := totalInvested_nonneg _ hgood2
      have hmoney : (gs.money + t0.Cost * t0.Level / 2).toInt =
          gs.money.toInt + (t0.Cost.toInt * t0.Level.toInt) / 2 := by
        rw [GoInt.toInt_add, hval]
        omega
      refine ⟨hcosts, ?_, ?_, hgood2⟩
      · show 0 ≤ (gs.money + t0.Cost * t0.Level / 2).toInt
        rw [hmoney]
        omega
      · show (gs.money + t0.Cost * t0.Level / 2).toInt +
          totalInvested (swapRemove gs.towers index.toNat) ≤ 1000
        rw [hmoney, hrem]
        omega

/-- Every sequence of tower calls keeps the invariant `solvent`. -/
theorem applyCalls_solvent (calls : List TowerCall) :
    ∀ gs : GameState, gs.solvent → (gs.applyCalls calls).solvent := by
  induction calls with
  | nil =>
    intro gs h
    exact h
  | cons c rest ih =>
    intro gs h
    exact ih (gs.applyCall c) (applyCall_solvent gs c h)

/-- The fresh state satisfies the invariant `solvent`. -/
theorem newGameState_solvent : NewGameState.solvent := by
  refine ⟨rfl, by decide, by decide, ?_⟩
  intro t ht
  cases ht

/-- C22 as stated fails: on the state with money 0 whose only tower has cost `2^62` and
level 2, `UpgradeTower` succeeds and leaves the money `-2^63` (the product `Cost * Level`
wraps); on the state with money 0 and the price `-2^63` for every kind, `AddTower` succeeds
and leaves the money `-2^63` (the difference wraps); and on the state with money `2^63 - 1`
whose only tower has cost `-1` and level 1, where `Cost * Level = -1` is representable,
`UpgradeTower` succeeds and leaves the money `-2^63` (the difference wraps). -/
theorem money_negative_counterexample :
    (steepState.UpgradeTower 0).2 = none ∧
    (steepState.UpgradeTower 0).1.money = MinInt64 ∧
    ¬ 0 ≤ (steepState.UpgradeTower 0).1.money ∧
    (giftState.AddTower BasicTower 0 0).2 = none ∧
    (giftState.AddTower BasicTower 0 0).1.money = MinInt64 ∧
    ¬ 0 ≤ (giftState.AddTower BasicTower 0 0).1.money ∧
    InInt64 (rebateTower.Cost.toInt * rebateTower.Level.toInt) ∧
    (rebateState.UpgradeTower 0).2 = none ∧
    (rebateState.UpgradeTower 0).1.money = MinInt64 ∧
    ¬ 0 ≤ (rebateState.UpgradeTower 0).1.money := by
  have hrebate : rebateState.UpgradeTower 0 =
      ({ rebateState with
          towers := rebateState.towers.set (0 : Int).toNat
            { rebateTower with
              Level := rebateTower.Level + 1
              Damage := rebateTower.Damage + 5
              Range := roundFloat (rebateTower.Range + 20)
              FireRate := scaleDuration rebateTower.FireRate }
          money := rebateState.money - rebateTower.Cost * rebateTower.Level }, none) := by
    rw [upgradeTower_at rebateState 0 rebateTower (le_refl 0) rfl]
    have hm : ¬ rebateState.money < rebateTower.Cost * rebateTower.Level := by decide
    have hl : ¬ rebateTower.Level ≥ 3 := by decide
    rw [if_neg hm, if_neg hl]
  have hup : steepState.UpgradeTower 0 =
      ({ steepState with
          towers := steepState.towers.set (0 : Int).toNat
            { steepTower with
              Level := steepTower.Level + 1
              Damage := steepTower.Damage + 5
              Range := roundFloat (steepTower.Range + 20)
              FireRate := scaleDuration steepTower.FireRate }
          money := steepState.money - steepTower.Cost * steepTower.Level }, none) := by
    rw [upgradeTower_at steepState 0 steepTower (le_refl 0) rfl]
    have hm : ¬ steepState.money < steepTower.Cost * steepTower.Level := by decide
    have hl : ¬ steepTower.Level ≥ 3 := by decide
    rw [if_neg hm, if_neg hl]
  have hadd : giftState.AddTower BasicTower 0 0 =
      ({ giftState with
          towers := giftState.towers ++ [NewBasicTower 0 0]
          money := giftState.money - MinInt64 }, none) := by
    have hm : ¬ giftState.money < MinInt64 := by decide
    have hc : giftState.towerCosts BasicTower = some MinInt64 := rfl
    unfold GameState.AddTower
    simp [hc, hm]
  rw [hup, hadd, hrebate]
  refine ⟨rfl, by decide, by decide, rfl, by decide, by decide, by decide, rfl, by decide,
    by decide⟩

/-- C22, amended: whenever `AddTower` succeeds with a cost for which `money - cost` is
representable as a Go `int`, and whenever `UpgradeTower` succeeds on a tower for which
`Cost * Level` and `money - Cost * Level` are representable, the money it leaves is at
least 0 (the cost check passed and exactly the checked cost is deducted); and from the
fresh state the money is at least 0 after every sequence of `AddTower`, `UpgradeTower` and
`SellTower` calls, successful or not. -/
theorem money_never_negative :
    (∀ (gs : GameState) (kind : TowerType) (x y : ℚ) (cost : GoInt),
      gs.towerCosts kind = some cost → InInt64 (gs.money.toInt - cost.toInt) →
      (gs.AddTower kind x y).2 = none → 0 ≤ (gs.AddTower kind x y).1.money) ∧
    (∀ (gs : GameState) (index : Int) (t : Tower), 0 ≤ index →
      gs.towers[index.toNat]? = some t → InInt64 (t.Cost.toInt * t.Level.toInt) →
      InInt64 (gs.money.toInt - t.Cost.toInt * t.Level.toInt) →
      (gs.UpgradeTower index).2 = none → 0 ≤ (gs.UpgradeTower index).1.money) ∧
    (∀ calls : List TowerCall, 0 ≤ (NewGameState.applyCalls calls).money) := by
  have h0 : (0 : GoInt).toInt = 0 := rfl
  refine ⟨?_, ?_, ?_⟩
  · intro gs kind x y cost hc hfit hok
    rcases addTower_cases gs kind x y with ⟨herr, _⟩ | ⟨cost1, t0, hc1, hcost, _, heq⟩
    · exact absurd hok herr
    · rw [hc] at hc1
      have hcc : cost = cost1 := Option.some.inj hc1
      rw [heq, ← hcc]
      show (0 : GoInt) ≤ gs.money - cost
      have hle : cost.toInt ≤ gs.money.toInt := by
        rw [hcc]
        exact hcost
      rw [GoInt.le_def, GoInt.sub_exact _ _ hfit, h0]
      omega
  · intro gs index t hi ht hfit hfit2 hok
    rcases upgradeTower_cases gs index with ⟨herr, _⟩ | ⟨t0, _, ht0, hcost, _, heq⟩
    · exact absurd hok herr
    · rw [ht] at ht0
      have htt : t = t0 := Option.some.inj ht0
      rw [heq, ← htt]
      show (0 : GoInt) ≤ gs.money - t.Cost * t.Level
      have hprod := GoInt.mul_exact t.Cost t.Level hfit
      have hle : t.Cost.toInt * t.Level.toInt ≤ gs.money.toInt := by
        rw [← hprod, htt]
        exact hcost
      rw [GoInt.le_def, GoInt.toInt_sub, hprod, h0]
      unfold InInt64 at hfit2
      omega
  · intro calls
    have hs := applyCalls_solvent calls NewGameState newGameState_solvent
    rw [GoInt.le_def, h0]
    exact hs.2.1

/-- C22 at concrete inputs: a Basic tower bought on the fresh state, and the upgrade of the
tower of the one-tower state. -/
theorem money_never_negative_witness :
    0 ≤ (NewGameState.AddTower BasicTower 100 100).1.money ∧
    0 ≤ (oneTowerState.UpgradeTower 0).1.money :=
  ⟨money_never_negative.1 NewGameState BasicTower 100 100 50 rfl (by decide) (by decide),
    money_never_negative.2.1 oneTowerState 0 (NewBasicTower 100 100) (le_refl 0) rfl
      (by decide) (by decide) (by decide)⟩

/-! ## Buy, upgrade, sell -/

/-- `AddTower` on a kind whose listed cost the money covers, kind by kind. -/
theorem addTower_known (gs : GameState) (kind : TowerType) (x y : ℚ) (cost : GoInt)
    (hc : gs.towerCosts kind = some cost) (hm : cost ≤ gs.money) :
    (kind = BasicTower → gs.AddTower kind x y =
      ({ gs with towers := gs.towers ++ [NewBasicTower x y], money := gs.money - cost },
        none)) ∧
    (kind = SniperTower → gs.AddTower kind x y =
      ({ gs with towers := gs.towers ++ [NewSniperTower x y], money := gs.money - cost },
        none)) ∧
    (kind = AOETower → gs.AddTower kind x y =
      ({ gs with towers := gs.towers ++ [NewAOETower x y], money := gs.money - cost },
        none)) := by
  have hSB : SniperTower ≠ BasicTower := by decide
  have hAB : AOETower ≠ BasicTower := by decide
  have hAS : AOETower ≠ SniperTower := by decide
  have hm2 : ¬ gs.money < cost := (GoInt.not_lt _ _).mpr hm
  refine ⟨?_, ?_, ?_⟩
  · intro hk
    subst hk
    unfold GameState.AddTower
    simp [hc, hm2]
  · intro hk
    subst hk
    unfold GameState.AddTower
    simp [hc, hm2, hSB]
  · intro hk
    subst hk
    unfold GameState.AddTower
    simp [hc, hm2, hAB, hAS]

/-- A successful `UpgradeTower` on the last tower. -/
theorem upgradeTower_last (gs : GameState) (ts : List Tower) (t : Tower)
    (h : gs.towers = ts ++ [t]) (hm : t.Cost * t.Level ≤ gs.money) (hl : t.Level < 3) :
    gs.UpgradeTower (ts.length : Int) =
      ({ gs with towers := ts ++ [t.Upgrade.1], money := gs.money - t.Cost * t.Level },
        none) := by
  have hnat : ((ts.length : Int)).toNat = ts.length := Int.toNat_ofNat _
  have ht : gs.towers[((ts.length : Int)).toNat]? = some t := by
    rw [hnat, h, List.getElem?_append_right (le_refl _), Nat.sub_self]
    simp
  rw [upgradeTower_at gs _ t (by omega) ht, if_neg ((GoInt.not_lt _ _).mpr hm),
    if_neg ((GoInt.not_le _ _).mpr hl), upgrade_ok t hl, hnat, h, List.set_append,
    if_neg (lt_irrefl _), Nat.sub_self]
  simp

/-- `SellTower` on the last tower gives back the towers before it. -/
theorem sellTower_last (gs : GameState) (ts : List Tower) (t : Tower)
    (h : gs.towers = ts ++ [t]) :
    gs.SellTower (ts.length : Int) =
      ({ gs with money := gs.money + t.Cost * t.Level / 2, towers := ts }, none) := by
  have hnat : ((ts.length : Int)).toNat = ts.length := Int.toNat_ofNat _
  have ht : gs.towers[((ts.length : Int)).toNat]? = some t := by
    rw [hnat, h, List.getElem?_append_right (le_refl _), Nat.sub_self]
    simp
  rw [sellTower_at gs _ t (by omega) ht, hnat, h, swapRemove_append]
  simp [swapRemove]

/-- A successful `Upgrade` keeps the cost and raises the level by one. -/
theorem upgrade_cost_level (t : Tower) (h : t.Level < 3) :
    t.Upgrade.1.Cost = t.Cost ∧ t.Upgrade.1.Level = t.Level + 1 := by
  rw [upgrade_ok t h]
  exact ⟨rfl, rfl⟩

/-- The product `Cost * Level` of a tower of cost `c` between 1 and 150 and level `n`
between 1 and 3, and its truncated half. -/
theorem cost_level_small (t : Tower) (c n : Int) (hc : t.Cost.toInt = c) (hn : t.Level.toInt = n)
    (hc0 : 0 < c) (hc1 : c ≤ 150) (hn0 : 1 ≤ n) (hn1 : n ≤ 3) :
    (t.Cost * t.Level).toInt = c * n ∧ (t.Cost * t.Level / 2).toInt = (c * n) / 2 := by
  have hcases : n = 1 ∨ n = 2 ∨ n = 3 := by omega
  have hprod : (t.Cost * t.Level).toInt = c * n := by
    rw [GoInt.toInt_mul, hc, hn]
    rcases hcases with h | h | h <;> rw [h] <;> omega
  refine ⟨hprod, ?_⟩
  rw [GoInt.div_two_exact, hprod, Int.tdiv_eq_ediv _ (by decide)]
  rcases hcases with h | h | h <;> rw [h] <;> omega

/-- The buy, upgrade, sell sequence for a level-1 tower of base cost `c` between 1 and 150
that `AddTower` appends for its price. -/
theorem buyUpgradeSell_generic (gs : GameState) (kind : TowerType) (x y : ℚ) (t : Tower)
    (c : Int) (k : Nat)
    (heq : gs.AddTower kind x y =
      ({ gs with towers := gs.towers ++ [t], money := gs.money - t.Cost }, none))
    (hl : t.Level = 1) (hcost : t.Cost.toInt = c) (hc : 0 < c) (hc1 : c ≤ 150) (hk : k ≤ 2)
    (hm : c + upgradeSpend c k ≤ gs.money.toInt) :
    (∀ err ∈ (gs.buyUpgradeSell kind x y k).2, err = none) ∧
    (gs.buyUpgradeSell kind x y k).1.money.toInt =
      gs.money.toInt - (c + upgradeSpend c k) + Int.tdiv (c * ((k : Int) + 1)) 2 ∧
    (gs.buyUpgradeSell kind x y k).1.money < gs.money ∧
    (gs.buyUpgradeSell kind x y k).1.towers = gs.towers := by
  have hmle := gs.money.toInt_le
  have hmge := gs.money.toInt_ge
  have hl1 : t.Level.toInt = 1 := by rw [hl]; rfl
  have hlt1 : t.Level < 3 := by rw [hl]; decide
  have hp1 := cost_level_small t c 1 hcost hl1 hc hc1 (by omega) (by omega)
  interval_cases k
  · have hm0 : c + 0 ≤ gs.money.toInt := hm
    have hs := sellTower_last
      { gs with towers := gs.towers ++ [t], money := gs.money - t.Cost } gs.towers t rfl
    have hrun : gs.buyUpgradeSell kind x y 0 =
        ({ gs with money := gs.money - t.Cost + t.Cost * t.Level / 2 },
          [none, none]) := by
      simp only [GameState.buyUpgradeSell, heq, GameState.upgradeTowerTimes, hs]
      rfl
    have hfinal : (gs.money - t.Cost + t.Cost * t.Level / 2).toInt =
        gs.money.toInt - c + (c * 1) / 2 := by
      rw [GoInt.toInt_add, GoInt.toInt_sub, hp1.2, hcost]
      omega
    rw [hrun]
    refine ⟨by simp, ?_, ?_, rfl⟩
    · show (gs.money - t.Cost + t.Cost * t.Level / 2).toInt =
        gs.money.toInt - (c + 0) + Int.tdiv (c * (((0 : Nat) : Int) + 1)) 2
      rw [hfinal, Int.tdiv_eq_ediv (by push_cast; omega) (by decide)]
      push_cast
      omega
    · show gs.money - t.Cost + t.Cost * t.Level / 2 < gs.money
      rw [GoInt.lt_def, hfinal]
      omega
  · have hm1 : c + (0 + c * (((0 : Nat) : Int) + 1)) ≤ gs.money.toInt := hm
    push_cast at hm1
    have hcl := upgrade_cost_level t hlt1
    have hl2 : t.Upgrade.1.Level.toInt = 2 := by rw [hcl.2, hl]; rfl
    have hc2 : t.Upgrade.1.Cost.toInt = c := by rw [hcl.1, hcost]
    have hp2 := cost_level_small t.Upgrade.1 c 2 hc2 hl2 hc hc1 (by omega) (by omega)
    have hmoney1 : (gs.money - t.Cost).toInt = gs.money.toInt - c := by
      rw [GoInt.toInt_sub, hcost]
      omega
    have hu := upgradeTower_last
      { gs with towers := gs.towers ++ [t], money := gs.money - t.Cost } gs.towers t rfl
      (by show t.Cost * t.Level ≤ gs.money - t.Cost; rw [GoInt.le_def, hp1.1, hmoney1]; omega)
      hlt1
    have hs := sellTower_last
      { gs with
        towers := gs.towers ++ [t.Upgrade.1]
        money := gs.money - t.Cost - t.Cost * t.Level } gs.towers t.Upgrade.1 rfl
    have hrun : gs.buyUpgradeSell kind x y 1 =
        ({ gs with
            money := gs.money - t.Cost - t.Cost * t.Level +
              t.Upgrade.1.Cost * t.Upgrade.1.Level / 2 },
          [none, none, none]) := by
      simp only [GameState.buyUpgradeSell, heq, GameState.upgradeTowerTimes, hu, hs]
      rfl
    have hfinal : (gs.money - t.Cost - t.Cost * t.Level +
        t.Upgrade.1.Cost * t.Upgrade.1.Level / 2).toInt =
        gs.money.toInt - c - c * 1 + (c * 2) / 2 := by
      rw [GoInt.toInt_add, GoInt.toInt_sub, GoInt.toInt_sub, hp2.2, hp1.1, hcost]
      omega
    rw [hrun]
    refine ⟨by simp, ?_, ?_, rfl⟩
    · show (gs.money - t.Cost - t.Cost * t.Level +
          t.Upgrade.1.Cost * t.Upgrade.1.Level / 2).toInt =
        gs.money.toInt - (c + (0 + c * (((0 : Nat) : Int) + 1))) +
          Int.tdiv (c * (((1 : Nat) : Int) + 1)) 2
      rw [hfinal, Int.tdiv_eq_ediv (by push_cast; omega) (by decide)]
      push_cast
      omega
    · show gs.money - t.Cost - t.Cost * t.Level +
          t.Upgrade.1.Cost * t.Upgrade.1.Level / 2 < gs.money
      rw [GoInt.lt_def, hfinal]
      omega
  · have hm1 : c + (0 + c * (((0 : Nat) : Int) + 1) + c * (((1 : Nat) : Int) + 1)) ≤
        gs.money.toInt := hm
    push_cast at hm1
    have hcl := upgrade_cost_level t hlt1
    have hl2 : t.Upgrade.1.Level.toInt = 2 := by rw [hcl.2, hl]; rfl
    have hlt2 : t.Upgrade.1.Level < 3 := by rw [hcl.2, hl]; decide
    have hc2 : t.Upgrade.1.Cost.toInt = c := by rw [hcl.1, hcost]
    have hp2 := cost_level_small t.Upgrade.1 c 2 hc2 hl2 hc hc1 (by omega) (by omega)
    have hcl2 := upgrade_cost_level t.Upgrade.1 hlt2
    have hl3 : t.Upgrade.1.Upgrade.1.Level.toInt = 3 := by rw [hcl2.2, hcl.2, hl]; rfl
    have hc3 : t.Upgrade.1.Upgrade.1.Cost.toInt = c := by rw [hcl2.1, hc2]
    have hp3 := cost_level_small t.Upgrade.1.Upgrade.1 c 3 hc3 hl3 hc hc1 (by omega) (by omega)
    have hmoney1 : (gs.money - t.Cost).toInt = gs.money.toInt - c := by
      rw [GoInt.toInt_sub, hcost]
      omega
    have hmoney2 : (gs.money - t.Cost - t.Cost * t.Level).toInt = gs.money.toInt - c - c * 1 := by
      rw [GoInt.toInt_sub, hmoney1, hp1.1]
      omega
    have hu := upgradeTower_last
      { gs with towers := gs.towers ++ [t], money := gs.money - t.Cost } gs.towers t rfl
      (by show t.Cost * t.Level ≤ gs.money - t.Cost; rw [GoInt.le_def, hp1.1, hmoney1]; omega)
      hlt1
    have hu2 := upgradeTower_last
      { gs with
        towers := gs.towers ++ [t.Upgrade.1]
        money := gs.money - t.Cost - t.Cost * t.Level } gs.towers t.Upgrade.1 rfl
      (by
        show t.Upgrade.1.Cost * t.Upgrade.1.Level ≤ gs.money - t.Cost - t.Cost * t.Level
        rw [GoInt.le_def, hp2.1, hmoney2]
        omega)
      hlt2
    have hs := sellTower_last
      { gs with
        towers := gs.towers ++ [t.Upgrade.1.Upgrade.1]
        money := gs.money - t.Cost - t.Cost * t.Level -
          t.Upgrade.1.Cost * t.Upgrade.1.Level } gs.towers t.Upgrade.1.Upgrade.1 rfl
    have hrun : gs.buyUpgradeSell kind x y 2 =
        ({ gs with
            money := gs.money - t.Cost - t.Cost * t.Level -
              t.Upgrade.1.Cost * t.Upgrade.1.Level +
              t.Upgrade.1.Upgrade.1.Cost * t.Upgrade.1.Upgrade.1.Level / 2 },
          [none, none, none, none]) := by
      simp only [GameState.buyUpgradeSell, heq, GameState.upgradeTowerTimes, hu, hu2, hs]
      rfl
    have hfinal : (gs.money - t.Cost - t.Cost * t.Level -
        t.Upgrade.1.Cost * t.Upgrade.1.Level +
        t.Upgrade.1.Upgrade.1.Cost * t.Upgrade.1.Upgrade.1.Level / 2).toInt =
        gs.money.toInt - c - c * 1 - c * 2 + (c * 3) / 2 := by
      rw [GoInt.toInt_add, GoInt.toInt_sub, hmoney2, hp3.2, hp2.1]
      omega
    rw [hrun]
    refine ⟨by simp, ?_, ?_, rfl⟩
    · show (gs.money - t.Cost - t.Cost * t.Level -
          t.Upgrade.1.Cost * t.Upgrade.1.Level +
          t.Upgrade.1.Upgrade.1.Cost * t.Upgrade.1.Upgrade.1.Level / 2).toInt =
        gs.money.toInt -
            (c + (0 + c * (((0 : Nat) : Int) + 1) + c * (((1 : Nat) : Int) + 1))) +
          Int.tdiv (c * (((2 : Nat) : Int) + 1)) 2
      rw [hfinal, Int.tdiv_eq_ediv (by push_cast; omega) (by decide)]
      push_cast
      omega
    · show gs.money - t.Cost - t.Cost * t.Level -
          t.Upgrade.1.Cost * t.Upgrade.1.Level +
          t.Upgrade.1.Upgrade.1.Cost * t.Upgrade.1.Upgrade.1.Level / 2 < gs.money
      rw [GoInt.lt_def, hfinal]
      omega

/-- C27: with the default costs, for each of the three kinds and `k ∈ {0, 1, 2}`, from any
state whose money covers the purchase and the `k` upgrades: `AddTower`, then `k` calls of
`UpgradeTower` on the new tower, then `SellTower` on it all succeed, the towers are again
the ones before the purchase, and the money is strictly lower than at the start: it went
down by the total spent `cost + cost * 1 + ... + cost * k` and up by the sell value
`cost * (k + 1) / 2`, which is strictly less. -/
theorem buy_upgrade_sell_loses (gs : GameState) (kind : TowerType) (x y : ℚ) (k : Nat)
    (hcosts : gs.towerCosts = defaultTowerCosts)
    (hkind : kind = BasicTower ∨ kind = SniperTower ∨ kind = AOETower) (hk : k ≤ 2)
    (hmoney : (listedCost kind).toInt + upgradeSpend (listedCost kind).toInt k ≤
      gs.money.toInt) :
    (∀ err ∈ (gs.buyUpgradeSell kind x y k).2, err = none) ∧
    (gs.buyUpgradeSell kind x y k).1.money.toInt =
      gs.money.toInt - ((listedCost kind).toInt + upgradeSpend (listedCost kind).toInt k) +
        Int.tdiv ((listedCost kind).toInt * ((k : Int) + 1)) 2 ∧
    (gs.buyUpgradeSell kind x y k).1.money < gs.money ∧
    (gs.buyUpgradeSell kind x y k).1.towers = gs.towers ∧
    Int.tdiv ((listedCost kind).toInt * ((k : Int) + 1)) 2 <
      (listedCost kind).toInt + upgradeSpend (listedCost kind).toInt k := by
  have hmain : (∀ err ∈ (gs.buyUpgradeSell kind x y k).2, err = none) ∧
      (gs.buyUpgradeSell kind x y k).1.money.toInt =
        gs.money.toInt - ((listedCost kind).toInt + upgradeSpend (listedCost kind).toInt k) +
          Int.tdiv ((listedCost kind).toInt * ((k : Int) + 1)) 2 ∧
      (gs.buyUpgradeSell kind x y k).1.money < gs.money ∧
      (gs.buyUpgradeSell kind x y k).1.towers = gs.towers := by
    rcases hkind with rfl | rfl | rfl
    · have hc : gs.towerCosts BasicTower = some 50 := by rw [hcosts]; rfl
      have hl : (listedCost BasicTower).toInt = 50 := rfl
      rw [hl] at hmoney ⊢
      have hpos : (0 : Int) ≤ upgradeSpend 50 k := by
        interval_cases k <;> decide
      exact buyUpgradeSell_generic gs BasicTower x y (NewBasicTower x y) 50 k
        ((addTower_known gs BasicTower x y 50 hc
          (by rw [GoInt.le_def]; show (50 : Int) ≤ gs.money.toInt; omega)).1 rfl)
        rfl rfl (by decide) (by decide) hk hmoney
    · have hc : gs.towerCosts SniperTower = some 100 := by rw [hcosts]; rfl
      have hl : (listedCost SniperTower).toInt = 100 := rfl
      rw [hl] at hmoney ⊢
      have hpos : (0 : Int) ≤ upgradeSpend 100 k := by
        interval_cases k <;> decide
      exact buyUpgradeSell_generic gs SniperTower x y (NewSniperTower x y) 100 k
        ((addTower_known gs SniperTower x y 100 hc
          (by rw [GoInt.le_def]; show (100 : Int) ≤ gs.money.toInt; omega)).2.1 rfl)
        rfl rfl (by decide) (by decide) hk hmoney
    · have hc : gs.towerCosts AOETower = some 150 := by rw [hcosts]; rfl
      have hl : (listedCost AOETower).toInt = 150 := rfl
      rw [hl] at hmoney ⊢
      have hpos : (0 : Int) ≤ upgradeSpend 150 k := by
        interval_cases k <;> decide
      exact buyUpgradeSell_generic gs AOETower x y (NewAOETower x y) 150 k
        ((addTower_known gs AOETower x y 150 hc
          (by rw [GoInt.le_def]; show (150 : Int) ≤ gs.money.toInt; omega)).2.2 rfl)
        rfl rfl (by decide) (by decide) hk hmoney
  refine ⟨hmain.1, hmain.2.1, hmain.2.2.1, hmain.2.2.2, ?_⟩
  have h1 := hmain.2.1
  have h2 : (gs.buyUpgradeSell kind x y k).1.money.toInt < gs.money.toInt := hmain.2.2.1
  omega

/-- C27 at a concrete input: on the fresh state (money 1000) a Basic tower is bought at
(100, 100), upgraded twice and sold. -/
theorem buy_upgrade_sell_loses_witness :
    (∀ err ∈ (NewGameState.buyUpgradeSell BasicTower 100 100 2).2, err = none) ∧
    (NewGameState.buyUpgradeSell BasicTower 100 100 2).1.money.toInt =
      NewGameState.money.toInt -
          ((listedCost BasicTower).toInt + upgradeSpend (listedCost BasicTower).toInt 2) +
        Int.tdiv ((listedCost BasicTower).toInt * (((2 : Nat) : Int) + 1)) 2 ∧
    (NewGameState.buyUpgradeSell BasicTower 100 100 2).1.money < NewGameState.money ∧
    (NewGameState.buyUpgradeSell BasicTower 100 100 2).1.towers = NewGameState.towers ∧
    Int.tdiv ((listedCost BasicTower).toInt * (((2 : Nat) : Int) + 1)) 2 <
      (listedCost BasicTower).toInt + upgradeSpend (listedCost BasicTower).toInt 2 :=
  buy_upgrade_sell_loses NewGameState BasicTower 100 100 2 rfl (Or.inl rfl) (by decide)
    (by decide)

end TowerDefense
